import Mathlib

/-!
Admin table configuration: shallow embedding of `AdminPage.js`.

The React component `AdminPage` keeps the column configuration of the admin
table in component state and changes it through event handlers.  Each handler
is embedded as a function on `State`; the asynchronous handlers additionally
take the outcome of every collaborator call they await and return the list of
collaborator calls they made.
-/

namespace AdminTable

/-! ## Data model -/

/-- Column descriptor as it is written in `AdminPage.js` and sent to
`saveTableConfig`: `{ id, label, field, editable }`, with the optional
`deleted` property (`none` when the property is absent). -/
structure Header where
  id : String
  label : String
  field : String
  editable : Bool
  deleted : Option Bool := none
deriving DecidableEq, Repr

/-- A header object held in component state.  `ref` is the identity of the
JavaScript object: the arrays `tableHeaders` and `originalTableHeaders` are
shallow copies of each other, so they hold the same objects, and an in-place
assignment to a property of one object is seen through every array holding
it. -/
structure HeaderObj where
  ref : Nat
  val : Header
deriving DecidableEq, Repr

/-- State of the confirmation modal (`confirmModal`). -/
structure ConfirmModal where
  visible : Bool := false
  type : Option String := none
  message : String := ""
  payload : Option String := none
deriving DecidableEq, Repr

/-- The part of the `AdminPage` component state that the table configuration
handlers read and write.  `nextRef` is the allocation counter for object
identities. -/
structure State where
  dragDropMode : Bool
  loading : Bool
  error : String
  success : String
  tableHeaders : List HeaderObj
  editingHeaderIndex : Option Int
  isEditTableMode : Bool
  hasUnsavedChanges : Bool
  originalTableHeaders : List HeaderObj
  editingRowId : Option String
  confirmModal : ConfirmModal
  deleteColumnMode : Bool
  columnsToDelete : List Nat
  nextRef : Nat
deriving DecidableEq, Repr

/-- Collaborator calls made through `services/api.js`. -/
inductive Call where
  | getTableConfig
  | saveTableConfig (headers : List Header)
  | cleanupColumns (deletedFields : List String)
  | getAllAppointments
deriving DecidableEq, Repr

/-- The five default columns of `useState([...])` for `tableHeaders`. -/
def defaultHeaders : List Header :=
  [ { id := "name", label := "Full Name", field := "name", editable := true },
    { id := "contact", label := "Contact Number", field := "contactNumber", editable := true },
    { id := "bookingDate", label := "Booking Date", field := "bookingDate", editable := true },
    { id := "status", label := "Status", field := "status", editable := false },
    { id := "actions", label := "Actions", field := "actions", editable := false } ]

/-- Gives the objects of a freshly created array the identities
`start, start + 1, ...`. -/
def allocate (start : Nat) : List Header → List HeaderObj
  | [] => []
  | h :: hs => ⟨start, h⟩ :: allocate (start + 1) hs

/-- Component state on first render (the `useState` initial values). -/
def initialState : State :=
  { dragDropMode := false
    loading := true
    error := ""
    success := ""
    tableHeaders := allocate 0 defaultHeaders
    editingHeaderIndex := none
    isEditTableMode := false
    hasUnsavedChanges := false
    originalTableHeaders := []
    editingRowId := none
    confirmModal := {}
    deleteColumnMode := false
    columnsToDelete := []
    nextRef := 5 }

/-! ## JavaScript array primitives -/

/-- `Array.prototype.findIndex`: the first index whose element satisfies `p`,
or `-1`. -/
def findIndex {α : Type} (p : α → Bool) (xs : List α) : Int :=
  match xs.findIdx? p with
  | some i => (i : Int)
  | none => -1

/-- The clamped start position of `Array.prototype.splice(start, ...)` on an
array of length `len`: a negative `start` counts from the end and is clamped
at `0`, a non-negative one is clamped at `len`. -/
def spliceStart (len : Nat) (start : Int) : Nat :=
  if start < 0 then ((len : Int) + start).toNat else min start.toNat len

/-- `xs.splice(start, 0, item)`: the array after the insertion. -/
def spliceInsert {α : Type} (xs : List α) (start : Int) (item : α) : List α :=
  xs.take (spliceStart xs.length start) ++ item :: xs.drop (spliceStart xs.length start)

/-- `xs.splice(start, 1)`: the array of removed elements (at most one) and the
array that remains. -/
def spliceRemoveOne {α : Type} (xs : List α) (start : Int) : List α × List α :=
  ((xs.drop (spliceStart xs.length start)).take 1,
   xs.take (spliceStart xs.length start) ++ xs.drop (spliceStart xs.length start + 1))

/-- `arrayMove(array, from, to)` of `@dnd-kit/sortable`:
`newArray = array.slice(); newArray.splice(to < 0 ? newArray.length + to : to, 0,
newArray.splice(from, 1)[0]); return newArray`.  The first argument of the
outer `splice` is evaluated before the inner `splice` runs, so it sees the
original length.  An entry `none` is the JavaScript value `undefined`, which
is what `[0]` yields when the inner `splice` removed nothing. -/
def arrayMove {α : Type} (array : List α) (fromIndex toIndex : Int) : List (Option α) :=
  let newArray : List (Option α) := array.map some
  let target : Int := if toIndex < 0 then (newArray.length : Int) + toIndex else toIndex
  let removed := spliceRemoveOne newArray fromIndex
  spliceInsert removed.2 target removed.1.head?.join

/-- The list of values of an array when none of its entries is `undefined`. -/
def definedEntries {α : Type} : List (Option α) → Option (List α)
  | [] => some []
  | none :: _ => none
  | some x :: rest => (definedEntries rest).map (x :: ·)

/-- `field.startsWith('custom_')`. -/
def startsWithCustom (field : String) : Bool :=
  "custom_".toList.isPrefixOf field.toList

/-! ## Event handlers -/

/-- The updater passed to `setTableHeaders` in `handleDragEnd`:
`items => arrayMove(items, oldIndex, newIndex)`. -/
def dragEndItems (items : List HeaderObj) (activeId overId : String) :
    List (Option HeaderObj) :=
  let oldIndex := findIndex (fun item => item.val.id == activeId) items
  let newIndex := findIndex (fun item => item.val.id == overId) items
  arrayMove items oldIndex newIndex

/-- `handleDragEnd(event)` with `activeId = event.active.id` and
`overId = event.over?.id` (`none` when `event.over` is `null`).  The result
`none` means that the next render throws and React unmounts the component:
either the updater itself throws (reading `over.id` of `null`) or the new
header array holds `undefined`, whose `field` the render reads. -/
def handleDragEnd (s : State) (activeId : String) (overId : Option String) : Option State :=
  if !s.dragDropMode then some s
  else if !(s.isEditTableMode && s.dragDropMode) then some s
  else if some activeId ≠ overId then
    match overId with
    | none => none
    | some o =>
      (definedEntries (dragEndItems s.tableHeaders activeId o)).map fun items =>
        { s with tableHeaders := items, hasUnsavedChanges := true }
  else some s

/-- The guard of `handleHeaderDeleteToggle` on `header.field`. -/
def isProtectedField (field : String) : Bool :=
  field == "status" || field == "actions" || field == "name" ||
    field == "contactNumber" || field == "bookingDate"

/-- `handleHeaderDeleteToggle(index)`.  When `tableHeaders[index]` is
`undefined`, reading `header.field` throws before any state setter is called,
so the state stays as it is. -/
def handleHeaderDeleteToggle (s : State) (index : Nat) : State :=
  if !s.deleteColumnMode then s
  else
    match s.tableHeaders[index]? with
    | none => s
    | some header =>
      if isProtectedField header.val.field then s
      else if header.val.deleted == some true then s
      else
        { s with
          columnsToDelete :=
            if s.columnsToDelete.contains index then s.columnsToDelete.filter (fun i => i != index)
            else s.columnsToDelete ++ [index]
          hasUnsavedChanges := true }

/-- `handleHeaderEdit(index, newValue)`: `newHeaders[index].label = newValue`
assigns to the header object itself, so the new label shows in every array
that holds this object.  With `tableHeaders[index]` `undefined` the assignment
throws before any state setter is called. -/
def handleHeaderEdit (s : State) (index : Nat) (newValue : String) : State :=
  match s.tableHeaders[index]? with
  | none => s
  | some header =>
    let assign : HeaderObj → HeaderObj := fun o =>
      if o.ref = header.ref then { o with val := { o.val with label := newValue } } else o
    { s with
      tableHeaders := s.tableHeaders.map assign
      originalTableHeaders := s.originalTableHeaders.map assign
      editingHeaderIndex := none
      hasUnsavedChanges := true }

/-- The descriptor built by `addNewTableHeader` for a header list `headers`
when `Date.now()` is `now`. -/
def newHeaderFor (headers : List HeaderObj) (now : Nat) : Header :=
  let customFields := headers.filter (fun h => startsWithCustom h.val.field)
  let nextIndex := customFields.length + 1
  { id := "custom_" ++ toString now
    label := "New Column"
    field := "custom_" ++ toString nextIndex
    editable := true }

/-- The `insertIndex` of `addNewTableHeader`:
`statusIndex !== -1 ? statusIndex : newHeaders.length - 2`. -/
def insertIndexFor (headers : List HeaderObj) : Int :=
  let statusIndex := findIndex (fun h => h.val.field == "status") headers
  if statusIndex ≠ -1 then statusIndex else (headers.length : Int) - 2

/-- `addNewTableHeader()`, with `now` the value of `Date.now()`. -/
def addNewTableHeader (s : State) (now : Nat) : State :=
  let newHeader := newHeaderFor s.tableHeaders now
  let insertIndex := insertIndexFor s.tableHeaders
  { s with
    tableHeaders := spliceInsert s.tableHeaders insertIndex ⟨s.nextRef, newHeader⟩
    hasUnsavedChanges := true
    editingHeaderIndex := some insertIndex
    nextRef := s.nextRef + 1 }

/-- The click handler of the Delete Column button,
`() => setDeleteColumnMode(!deleteColumnMode)`; the button is rendered only
under `isEditTableMode &&`. -/
def clickDeleteColumn (s : State) : State :=
  if s.isEditTableMode then { s with deleteColumnMode := !s.deleteColumnMode } else s

/-- The click handler of the Drag & Drop button,
`() => setDragDropMode(!dragDropMode)`; the button is rendered only under
`isEditTableMode &&`. -/
def clickDragDrop (s : State) : State :=
  if s.isEditTableMode then { s with dragDropMode := !s.dragDropMode } else s

/-- `toggleEditTableMode()`. -/
def toggleEditTableMode (s : State) : State :=
  if s.isEditTableMode && s.hasUnsavedChanges then
    { s with
      confirmModal :=
        { visible := true
          type := some "exit"
          message := "You have unsaved changes. Do you want to save them before exiting edit mode?"
          payload := none } }
  else { s with isEditTableMode := !s.isEditTableMode, editingHeaderIndex := none }

/-- `fetchAppointments()`: one `getAllAppointments` call; `fetchOk` tells
whether it resolved.  The appointment array itself is not part of `State`. -/
def fetchAppointments (s : State) (fetchOk : Bool) : State × List Call :=
  ({ s with
     loading := false
     error := if fetchOk then "" else "Failed to fetch appointments" },
   [Call.getAllAppointments])

/-- `xs.filter((_, i) => p(i))` on the elements at positions `start, start + 1, ...`. -/
def filterIndexFrom {α : Type} (p : Nat → Bool) : Nat → List α → List α
  | _, [] => []
  | i, x :: xs => if p i then x :: filterIndexFrom p (i + 1) xs else filterIndexFrom p (i + 1) xs

/-- `tableHeaders.filter((_, i) => !columnsToDelete.includes(i))`. -/
def removeStaged (tableHeaders : List HeaderObj) (columnsToDelete : List Nat) : List HeaderObj :=
  filterIndexFrom (fun i => !columnsToDelete.contains i) 0 tableHeaders

/-- `columnsToDelete.map(index => tableHeaders[index].field)`; `none` when some
`tableHeaders[index]` is `undefined`, whose `field` cannot be read (TypeError). -/
def deletedFields (tableHeaders : List HeaderObj) : List Nat → Option (List String)
  | [] => some []
  | index :: rest =>
    match tableHeaders[index]? with
    | none => none
    | some header => (deletedFields tableHeaders rest).map (header.val.field :: ·)

/-- The state setters at the end of the `try` block of `saveTableConfiguration`,
followed by the `finally` block. -/
def commitSaved (s : State) (newHeaders : List HeaderObj) : State :=
  { s with
    tableHeaders := newHeaders
    originalTableHeaders := newHeaders
    hasUnsavedChanges := false
    columnsToDelete := []
    deleteColumnMode := false
    isEditTableMode := false
    success := "Table configuration saved successfully!"
    loading := false }

/-- The `catch` block of `saveTableConfiguration`, followed by the `finally`
block. -/
def failSave (s : State) : State :=
  { s with error := "Failed to save table configuration", loading := false }

/-- `saveTableConfiguration()`.  `saveOk`, `cleanupOk` and `fetchOk` tell
whether `saveTableConfig`, `cleanupColumns` and `getAllAppointments` resolve
when they are called.  The component reads `tableHeaders` and
`columnsToDelete` from the render in which the handler was started. -/
def saveTableConfiguration (s : State) (saveOk cleanupOk fetchOk : Bool) : State × List Call :=
  let newHeaders :=
    if s.columnsToDelete.length > 0 then removeStaged s.tableHeaders s.columnsToDelete
    else s.tableHeaders
  let saveCall := Call.saveTableConfig (newHeaders.map (·.val))
  if !saveOk then (failSave s, [saveCall])
  else if s.columnsToDelete.length > 0 then
    match deletedFields s.tableHeaders s.columnsToDelete with
    | none => (failSave s, [saveCall])
    | some fields =>
      if cleanupOk then
        let refreshed := fetchAppointments s fetchOk
        (commitSaved refreshed.1 newHeaders, [saveCall, Call.cleanupColumns fields] ++ refreshed.2)
      else (commitSaved s newHeaders, [saveCall, Call.cleanupColumns fields])
  else (commitSaved s newHeaders, [saveCall])

/-- `cancelTableChanges()`. -/
def cancelTableChanges (s : State) : State :=
  { s with
    tableHeaders := s.originalTableHeaders
    hasUnsavedChanges := false
    columnsToDelete := []
    deleteColumnMode := false
    isEditTableMode := false
    success := "Changes cancelled successfully!" }

/-- What `tableConfigService.getTableConfig()` yields inside `loadTableConfig`:
it throws, or it returns a value failing `config && config.headers`, or it
returns a config with a header array. -/
inductive ConfigResponse where
  | failed
  | noHeaders
  | config (headers : List Header)
deriving DecidableEq, Repr

/-- The descriptor that the legacy migration of `loadTableConfig` inserts. -/
def bookingDateHeader : Header :=
  { id := "bookingDate", label := "Booking Date", field := "bookingDate", editable := true,
    deleted := some false }

/-- The `updatedHeaders` of `loadTableConfig` for a config that has a `date`
or `time` column. -/
def migrateHeaders (headers : List Header) : List Header :=
  let updatedHeaders := headers.filter (fun header => header.field != "date" && header.field != "time")
  let hasBookingDate := updatedHeaders.any (fun header => header.field == "bookingDate")
  if !hasBookingDate then spliceInsert updatedHeaders 2 bookingDateHeader else updatedHeaders

/-- `loadTableConfig()`.  The outcome of the `saveTableConfig` call of the
migration branch is not a parameter: the state is set before the call and a
failure is only logged. -/
def loadTableConfig (s : State) (response : ConfigResponse) : State × List Call :=
  match response with
  | ConfigResponse.failed => (s, [Call.getTableConfig])
  | ConfigResponse.noHeaders => (s, [Call.getTableConfig])
  | ConfigResponse.config headers =>
    let hasSeparateDateTime := headers.any (fun header => header.field == "date" || header.field == "time")
    if hasSeparateDateTime then
      let updatedHeaders := allocate s.nextRef (migrateHeaders headers)
      ({ s with
         tableHeaders := updatedHeaders
         originalTableHeaders := updatedHeaders
         nextRef := s.nextRef + updatedHeaders.length },
       [Call.getTableConfig, Call.saveTableConfig (migrateHeaders headers)])
    else
      let loaded := allocate s.nextRef headers
      ({ s with
         tableHeaders := loaded
         originalTableHeaders := loaded
         nextRef := s.nextRef + loaded.length },
       [Call.getTableConfig])

/-! ## Concrete configurations used as inputs -/

/-- A persisted configuration with two user-added columns. -/
def twoCustomColumns : List Header :=
  [ { id := "name", label := "Full Name", field := "name", editable := true },
    { id := "contact", label := "Contact Number", field := "contactNumber", editable := true },
    { id := "bookingDate", label := "Booking Date", field := "bookingDate", editable := true },
    { id := "custom_1700000000001", label := "Branch", field := "custom_1", editable := true },
    { id := "custom_1700000000002", label := "Stylist", field := "custom_2", editable := true },
    { id := "status", label := "Status", field := "status", editable := false },
    { id := "actions", label := "Actions", field := "actions", editable := false } ]

/-- A persisted configuration whose only user-added column is `custom_2`: what
is left of `twoCustomColumns` after the column `custom_1` was deleted and the
table saved. -/
def secondCustomOnly : List Header :=
  [ { id := "name", label := "Full Name", field := "name", editable := true },
    { id := "contact", label := "Contact Number", field := "contactNumber", editable := true },
    { id := "bookingDate", label := "Booking Date", field := "bookingDate", editable := true },
    { id := "custom_1700000000002", label := "Stylist", field := "custom_2", editable := true },
    { id := "status", label := "Status", field := "status", editable := false },
    { id := "actions", label := "Actions", field := "actions", editable := false } ]

/-- The state after `loadTableConfig` received the header list `headers`. -/
def loadedState (headers : List Header) : State :=
  (loadTableConfig initialState (ConfigResponse.config headers)).1

/-- Edit mode on `twoCustomColumns` with the delete-column sub-mode on and the
column at index 3 (`custom_1`) staged. -/
def stagedCustomOne : State :=
  handleHeaderDeleteToggle (clickDeleteColumn
    (toggleEditTableMode (loadedState twoCustomColumns))) 3

/-- The state `stagedCustomOne` after the drag sub-mode was switched on too. -/
def stagedThenDragMode : State :=
  clickDragDrop stagedCustomOne

/-- A persisted configuration with a single column and no `status` column. -/
def oneColumn : List Header :=
  [ { id := "name", label := "Full Name", field := "name", editable := true } ]

/-- Edit mode with the drag sub-mode on, over the default columns. -/
def defaultDragState : State :=
  clickDragDrop (toggleEditTableMode (loadedState defaultHeaders))

/-! ## Reachable states -/

/-- The states the component can be in after the mount-time `loadTableConfig`
has settled: any sequence of handler events from there.  Every handler is
taken without the guards of the rendering (a button may be hidden or
disabled), so this set contains every state the user interface can reach. -/
inductive Reachable : State → Prop where
  | loaded (response : ConfigResponse) :
      Reachable (loadTableConfig initialState response).1
  | toggleEdit {s : State} : Reachable s → Reachable (toggleEditTableMode s)
  | deleteMode {s : State} : Reachable s → Reachable (clickDeleteColumn s)
  | dragMode {s : State} : Reachable s → Reachable (clickDragDrop s)
  | reorder {s s' : State} (activeId : String) (overId : Option String) :
      Reachable s → handleDragEnd s activeId overId = some s' → Reachable s'
  | renameHeader {s : State} (index : Nat) (newValue : String) :
      Reachable s → Reachable (handleHeaderEdit s index newValue)
  | addColumn {s : State} (now : Nat) : Reachable s → Reachable (addNewTableHeader s now)
  | stageDelete {s : State} (index : Nat) :
      Reachable s → Reachable (handleHeaderDeleteToggle s index)
  | save {s : State} (saveOk cleanupOk fetchOk : Bool) :
      Reachable s → Reachable (saveTableConfiguration s saveOk cleanupOk fetchOk).1
  | cancel {s : State} : Reachable s → Reachable (cancelTableChanges s)

/-! ## Vocabulary of the claims -/

/-- Following the claim's words: the draft header list with the columns at
the staged indices removed, the remaining columns in draft order. -/
def draftWithoutStaged (draft : List HeaderObj) (staged : List Nat) : List HeaderObj :=
  (List.range draft.length).filterMap (fun i => if i ∈ staged then none else draft[i]?)

/-- Recognises a `cleanupColumns` call. -/
def isCleanupCall : Call → Bool
  | Call.cleanupColumns _ => true
  | _ => false

/-- Recognises a `saveTableConfig` call. -/
def isSaveCall : Call → Bool
  | Call.saveTableConfig _ => true
  | _ => false


/-! ## Event sequences -/

/-- One user event on the table configuration, named after the operations of
the engine. -/
inductive Event where
  | toggleEdit
  | deleteMode
  | dragMode
  | reorder (activeId : String) (overId : Option String)
  | renameHeader (index : Nat) (newValue : String)
  | addColumn (now : Nat)
  | stageDelete (index : Nat)
  | save (saveOk cleanupOk fetchOk : Bool)
  | cancel
deriving DecidableEq, Repr

/-- The handler an event runs: the state after it and the collaborator calls
it made, or `none` when the component does not survive the event. -/
def step (s : State) : Event → Option (State × List Call)
  | Event.toggleEdit => some (toggleEditTableMode s, [])
  | Event.deleteMode => some (clickDeleteColumn s, [])
  | Event.dragMode => some (clickDragDrop s, [])
  | Event.reorder activeId overId => (handleDragEnd s activeId overId).map fun s' => (s', [])
  | Event.renameHeader index newValue => some (handleHeaderEdit s index newValue, [])
  | Event.addColumn now => some (addNewTableHeader s now, [])
  | Event.stageDelete index => some (handleHeaderDeleteToggle s index, [])
  | Event.save saveOk cleanupOk fetchOk => some (saveTableConfiguration s saveOk cleanupOk fetchOk)
  | Event.cancel => some (cancelTableChanges s, [])

/-- Runs a sequence of events, one handler after the other, and collects the
collaborator calls in order. -/
def run (s : State) : List Event → Option (State × List Call)
  | [] => some (s, [])
  | e :: rest =>
    (step s e).bind fun r => (run r.1 rest).map fun r' => (r'.1, r.2 ++ r'.2)

/-- The events of an editing session that change the draft without renaming:
`addColumn`, `reorder`, `stageDelete`, and the mode buttons that enable them. -/
def isDraftEdit : Event → Bool
  | Event.addColumn _ => true
  | Event.reorder _ _ => true
  | Event.stageDelete _ => true
  | Event.toggleEdit => true
  | Event.deleteMode => true
  | Event.dragMode => true
  | _ => false

/-- A `reorder` event whose drag ended outside every drop target
(`event.over` is `null`). -/
def dropsOutside : Event → Bool
  | Event.reorder _ none => true
  | _ => false

/-- An editing session on `twoCustomColumns`: add a column, stage `custom_1`,
drag the new column onto `name`. -/
def sampleEdits : List Event :=
  [ Event.toggleEdit, Event.addColumn 1700000000003, Event.deleteMode, Event.stageDelete 3,
    Event.dragMode, Event.reorder "custom_1700000000003" (some "name") ]

/-- The state after the default configuration was loaded, edit mode entered
and the first column renamed to `Client`. -/
def renamedFirstColumn : State :=
  handleHeaderEdit (toggleEditTableMode (loadedState defaultHeaders)) 0 "Client"

/-! ## Loading through `services/api.js` and the table-config routes -/

/-- Outcome of an HTTP request made through axios: a 2xx response with its
body, a response with another status, or no response at all. -/
inductive HttpOutcome (α : Type) where
  | ok (data : α)
  | status (code : Nat)
  | noResponse
deriving DecidableEq, Repr

/-- The default config that `tableConfigService.getTableConfig` returns on a
404 response. -/
def notFoundFallback : List Header :=
  [ { id := "name", label := "Full Name", field := "name", editable := true },
    { id := "contact", label := "Contact Number", field := "contactNumber", editable := true },
    { id := "date", label := "Date", field := "bookingDate", editable := true },
    { id := "time", label := "Time", field := "bookingTime", editable := true },
    { id := "status", label := "Status", field := "status", editable := false },
    { id := "actions", label := "Actions", field := "actions", editable := false } ]

/-- `tableConfigService.getTableConfig()` seen from `loadTableConfig`.  The
response body is the config document; `none` stands for a body without a
`headers` array. -/
def getTableConfig : HttpOutcome (Option (List Header)) → ConfigResponse
  | HttpOutcome.ok (some headers) => ConfigResponse.config headers
  | HttpOutcome.ok none => ConfigResponse.noHeaders
  | HttpOutcome.status code =>
    if code = 404 then ConfigResponse.config notFoundFallback else ConfigResponse.failed
  | HttpOutcome.noResponse => ConfigResponse.failed

/-- The `admin-table` document of the `TableConfig` collection: its `headers`
array, or `none` while no document exists. -/
abbrev ConfigStore := Option (List Header)

/-- What the `headers` sub-schema of `TableConfig.js` keeps of a submitted
header: the declared paths `id`, `label`, `field`, `editable`; any other
property is dropped.  (Mongoose also gives each stored header an `_id`, which
no code of the repository reads; the embedding leaves it out.) -/
def castHeader (h : Header) : Header :=
  { id := h.id, label := h.label, field := h.field, editable := h.editable }

/-- The `required: true` validators of `id`, `label` and `field`: a required
string must be non-empty. -/
def headerPassesSchema (h : Header) : Bool :=
  h.id != "" && h.label != "" && h.field != ""

/-- `POST /api/table-config`.  `body` is `req.body.headers` when it is an
array, `none` otherwise.  `config.save()` rejects when a header fails
validation, which the route answers with status 500. -/
def postTableConfig (store : ConfigStore) (body : Option (List Header)) :
    ConfigStore × HttpOutcome Unit :=
  match body with
  | none => (store, HttpOutcome.status 400)
  | some headers =>
    if headers.all headerPassesSchema then (some (headers.map castHeader), HttpOutcome.ok ())
    else (store, HttpOutcome.status 500)

/-- `GET /api/table-config`: creates the default document when none exists and
answers with the document. -/
def getTableConfigRoute (store : ConfigStore) :
    ConfigStore × HttpOutcome (Option (List Header)) :=
  match store with
  | none => (some defaultHeaders, HttpOutcome.ok (some defaultHeaders))
  | some headers => (some headers, HttpOutcome.ok (some headers))

/-- The store after the `saveTableConfig` calls among `calls` reached the
route, in order. -/
def persistCalls (store : ConfigStore) (calls : List Call) : ConfigStore :=
  calls.foldl
    (fun store call =>
      match call with
      | Call.saveTableConfig headers => (postTableConfig store (some headers)).1
      | _ => store)
    store

/-- `saveTableConfig(headers)` against the route, then `loadTableConfig()`
against the route, starting from the component state `s`: the store and the
component state afterwards, whether the save call resolved, and the calls made
by the load.  The store afterwards includes what the migration of the load
saved back. -/
def saveThenLoad (store : ConfigStore) (s : State) (headers : List Header) :
    ConfigStore × State × Bool × List Call :=
  let posted := postTableConfig store (some headers)
  let fetched := getTableConfigRoute posted.1
  let loaded := loadTableConfig s (getTableConfig fetched.2)
  (persistCalls fetched.1 loaded.2, loaded.1, posted.2 == HttpOutcome.ok (), loaded.2)

/-- The legacy configuration with separate `date` and `time` columns. -/
def legacyConfig : List Header :=
  [ { id := "name", label := "Full Name", field := "name", editable := true },
    { id := "contact", label := "Contact Number", field := "contactNumber", editable := true },
    { id := "date", label := "Date", field := "date", editable := true },
    { id := "time", label := "Time", field := "time", editable := true },
    { id := "status", label := "Status", field := "status", editable := false },
    { id := "actions", label := "Actions", field := "actions", editable := false } ]

/-- A legacy configuration with a single column besides `date`. -/
def shortLegacyConfig : List Header :=
  [ { id := "name", label := "Full Name", field := "name", editable := true },
    { id := "date", label := "Date", field := "date", editable := true } ]

/-- The default columns after the label of the first one was cleared. -/
def clearedLabelConfig : List Header :=
  [ { id := "name", label := "", field := "name", editable := true },
    { id := "contact", label := "Contact Number", field := "contactNumber", editable := true },
    { id := "bookingDate", label := "Booking Date", field := "bookingDate", editable := true },
    { id := "status", label := "Status", field := "status", editable := false },
    { id := "actions", label := "Actions", field := "actions", editable := false } ]

/-! ## Appointment Store: `models/Appointment.js` and `routes/appointments.js` -/

/-- A JavaScript value as far as the code looks at it: `null`, a boolean, a
number, a string, or an object (an array and a function are objects).  Of a
number and of an object only the text that `String(value)` yields is kept,
such as `42`, `1.5` or `1e+21` for a number. -/
inductive JsValue where
  | null
  | bool (b : Bool)
  | num (text : String)
  | str (s : String)
  | object (text : String)
deriving DecidableEq, Repr

/-- The values of the `status` enum of `appointmentSchema`. -/
inductive Status where
  | Pending
  | Cancelled
  | Completed
deriving DecidableEq, Repr

/-- The string stored for a status. -/
def Status.text : Status → String
  | Status.Pending => "Pending"
  | Status.Cancelled => "Cancelled"
  | Status.Completed => "Completed"

/-- A stored appointment document.  `bookingDate` is the time value of the
stored `Date`, in milliseconds since the epoch. -/
structure Appointment where
  _id : String
  name : String
  contactNumber : String
  bookingDate : Int
  bookingTime : String
  status : Status
  notes : Option String
  customFields : List (String × JsValue)
deriving DecidableEq, Repr

/-- The body of `POST /api/appointments` with string-valued fields; a missing
`name`, `contactNumber`, `bookingDate` or `bookingTime` is the empty string,
which the validators treat alike. -/
structure AppointmentBody where
  name : String
  contactNumber : String
  bookingDate : String
  bookingTime : String
  notes : Option String
deriving DecidableEq, Repr

/-- What a request meets outside the repository's code: the `isISO8601`
validator of express-validator, `new Date(string)` (its time value, `none`
for an Invalid Date), the value of `today` in the pre-save hook after
`setHours(0, 0, 0, 0)`, and the `_id` Mongoose gives a new document. -/
structure RequestEnv where
  isISO8601 : String → Bool
  parseDate : String → Option Int
  todayStart : Int
  newId : String

/-- Body of a response of the appointment routes. -/
inductive ResponseBody where
  | appointment (a : Appointment)
  | message (text : String)
  | errors (messages : List String)
deriving DecidableEq, Repr

/-- Status and body of a response. -/
structure Response where
  status : Nat
  body : ResponseBody
deriving DecidableEq, Repr

/-- White space and line terminators that `String.prototype.trim` strips. -/
def isJsWhiteSpace (c : Char) : Bool :=
  c.toNat ∈ [0x09, 0x0A, 0x0B, 0x0C, 0x0D, 0x20, 0xA0, 0x1680, 0x2000, 0x2001, 0x2002, 0x2003,
    0x2004, 0x2005, 0x2006, 0x2007, 0x2008, 0x2009, 0x200A, 0x2028, 0x2029, 0x202F, 0x205F,
    0x3000, 0xFEFF]

/-- `String.prototype.trim`, applied by the `trim: true` option of the schema. -/
def jsTrim (s : String) : String :=
  String.mk ((s.toList.dropWhile isJsWhiteSpace).reverse.dropWhile isJsWhiteSpace).reverse

/-- The messages of `validateAppointment` for a body. -/
def validationErrors (env : RequestEnv) (body : AppointmentBody) : List String :=
  (if body.name == "" then ["Name is required"] else []) ++
  (if body.contactNumber == "" then ["Contact number is required"] else []) ++
  (if env.isISO8601 body.bookingDate then [] else ["Valid booking date is required"]) ++
  (if body.bookingTime == "" then ["Booking time is required"] else [])

/-- The query of the slot check,
`{ bookingDate, bookingTime, status: { $ne: 'cancelled' } }`, on one document. -/
def occupiesSlot (date : Int) (time : String) (a : Appointment) : Bool :=
  a.bookingDate == date && a.bookingTime == time && a.status.text != "cancelled"

/-- `POST /api/appointments` on the collection `store`.  After the validators
and the slot check, `appointment.save()` runs the schema validation (required
`name` and `contactNumber` after trimming; failure is answered with 500) and
then the pre-save hook, which rejects a `bookingDate` before `today`.  An
Invalid Date makes the query throw, which is answered with 500. -/
def createAppointment (env : RequestEnv) (store : List Appointment) (body : AppointmentBody) :
    List Appointment × Response :=
  if !(validationErrors env body).isEmpty then
    (store, ⟨400, ResponseBody.errors (validationErrors env body)⟩)
  else
    match env.parseDate body.bookingDate with
    | none => (store, ⟨500, ResponseBody.message "Server error"⟩)
    | some date =>
      if store.any (occupiesSlot date body.bookingTime) then
        (store, ⟨400, ResponseBody.message "This time slot is already booked"⟩)
      else
        let appointment : Appointment :=
          { _id := env.newId
            name := jsTrim body.name
            contactNumber := jsTrim body.contactNumber
            bookingDate := date
            bookingTime := body.bookingTime
            status := Status.Pending
            notes := body.notes.map jsTrim
            customFields := [] }
        if appointment.name == "" || appointment.contactNumber == "" then
          (store, ⟨500, ResponseBody.message "Server error"⟩)
        else if date < env.todayStart then
          (store, ⟨400, ResponseBody.message "Cannot book past dates, only 2 days onward"⟩)
        else (store ++ [appointment], ⟨201, ResponseBody.appointment appointment⟩)

/-- `validateDateTime(dateTimeValue)` of `CustomerPage.js`: whether the form
may be submitted, and the error message it sets otherwise.  `minDate` is the
time value of `minDate` after `setDate(today.getDate() + 2)`; the argument is
`none` for a missing value, and holds the time value of the picked date
(`none` when no date is picked) and the picked time. -/
def validateDateTime (minDate : Int) (dateTimeValue : Option (Option Int × String)) :
    Bool × Option String :=
  match dateTimeValue with
  | none => (false, some "Date and time are required.")
  | some (none, _) => (false, some "Date and time are required.")
  | some (some selectedDate, time) =>
    if time == "" then (false, some "Please select a time slot.")
    else if selectedDate < minDate then
      (false, some "Cannot book past dates. Only 2+ days onward allowed.")
    else (true, none)

/-! ### Sample requests -/

/-- The builtins on the strings of the sample requests: the server runs in UTC
on 14 January 2030, `2030-01-15` is the time value 1894665600000 and
`2030-01-16` is one day later. -/
def sampleEnv : RequestEnv :=
  { isISO8601 := fun s => s == "2030-01-15" || s == "2030-01-16"
    parseDate := fun s =>
      if s == "2030-01-15" then some 1894665600000
      else if s == "2030-01-16" then some 1894752000000
      else none
    todayStart := 1894579200000
    newId := "65a000000000000000000002" }

/-- A booking for 15 January 2030 at 10:00, the day after `sampleEnv`'s today. -/
def tomorrowAtTen : AppointmentBody :=
  { name := "Ana Cruz", contactNumber := "09171234567", bookingDate := "2030-01-15",
    bookingTime := "10:00", notes := none }

/-- A stored appointment for 15 January 2030 at 10:00 that was cancelled. -/
def cancelledAtTen : Appointment :=
  { _id := "65a000000000000000000001", name := "Ben Reyes", contactNumber := "09181234567",
    bookingDate := 1894665600000, bookingTime := "10:00", status := Status.Cancelled,
    notes := none, customFields := [] }

/-! ## Visible rows of the admin table -/

/-- An appointment object held by the admin page: a record of
`GET /api/appointments` after `fetchAppointments` flattened it.  The paths the
schema types as strings are fields (`bookingDate` is the ISO date-time string
of the stored `Date`); `others` holds the remaining properties, such as
`customFields`, the flattened `custom_` values, `createdAt`, `updatedAt` and
`__v`. -/
structure AppointmentRow where
  _id : String
  name : String
  contactNumber : String
  bookingDate : String
  bookingTime : String
  status : String
  notes : Option String
  others : List (String × JsValue)
deriving DecidableEq, Repr

/-- The own property `field` of an appointment object; `none` when the object
has no own property of that name. -/
def AppointmentRow.own (a : AppointmentRow) (field : String) : Option JsValue :=
  if field == "_id" then some (JsValue.str a._id)
  else if field == "name" then some (JsValue.str a.name)
  else if field == "contactNumber" then some (JsValue.str a.contactNumber)
  else if field == "bookingDate" then some (JsValue.str a.bookingDate)
  else if field == "bookingTime" then some (JsValue.str a.bookingTime)
  else if field == "status" then some (JsValue.str a.status)
  else if field == "notes" then a.notes.map JsValue.str
  else a.others.lookup field

/-- `appointment[field]`; `none` is `undefined`.  The lookup finds the own
property of that name and otherwise the member that the object inherits from
`Object.prototype`, such as `constructor` or `toString`; `inherited` gives
that member, `none` when `Object.prototype` has no property of the name. -/
def AppointmentRow.prop (inherited : String → Option JsValue) (a : AppointmentRow)
    (field : String) : Option JsValue :=
  (a.own field).or (inherited field)

/-- `String(value)`. -/
def JsValue.toText : JsValue → String
  | JsValue.null => "null"
  | JsValue.bool b => if b then "true" else "false"
  | JsValue.num text => text
  | JsValue.str s => s
  | JsValue.object text => text

/-- The JavaScript builtins the page relies on, in the browser's locale and
time zone: `String.prototype.toLowerCase`; for `new Date(string)` the results
of `getMonth()`, `getDate()` and `getFullYear()` (`none` for an Invalid Date);
the numeric value of a string in `%` and `>=` (`none` for NaN; the value is
taken to be an integer); the time value of `new Date(string)` (`none` for
an Invalid Date); and the members of `Object.prototype`, which every
appointment object inherits (`none` for a name that `Object.prototype` does
not have; a function is kept with the text that `String(value)` yields,
which the engine chooses). -/
structure Builtins where
  toLowerCase : String → String
  localDate : String → Option (Nat × Nat × Int)
  toNumber : String → Option Int
  parseDate : String → Option Int
  inherited : String → Option JsValue

/-- `monthNames` of `formatBookingDateTime`. -/
def monthNames : List String :=
  ["Jan", "Feb", "Mar", "Apr", "May", "Jun", "Jul", "Aug", "Sep", "Oct", "Nov", "Dec"]

/-- `text.split(sep)` on characters. -/
def splitOnChar (sep : Char) : List Char → List (List Char)
  | [] => [[]]
  | c :: cs =>
    if c = sep then [] :: splitOnChar sep cs
    else
      match splitOnChar sep cs with
      | [] => [[c]]
      | piece :: pieces => (c :: piece) :: pieces

/-- `formatBookingDateTime(date, time)` for string arguments, on which nothing
in its `try` block throws.  An Invalid Date gives `undefined NaN, NaN`; a
`time` without `:` gives the minutes text `undefined`. -/
def formatBookingDateTime (b : Builtins) (date time : String) : String :=
  if date == "" then "-"
  else
    let month := match b.localDate date with
      | some (m, _, _) => monthNames.getD m "undefined"
      | none => "undefined"
    let day := match b.localDate date with
      | some (_, d, _) => toString d
      | none => "NaN"
    let year := match b.localDate date with
      | some (_, _, y) => toString y
      | none => "NaN"
    let timeStr :=
      if time != "" then
        let pieces := splitOnChar ':' time.toList
        let hours := String.mk (pieces.headD [])
        let minutes := match pieces.tail.head? with
          | some m => String.mk m
          | none => "undefined"
        let hour12 := match b.toNumber hours with
          | some n => if n.tmod 12 = 0 then "12" else toString (n.tmod 12)
          | none => "12"
        let ampm := match b.toNumber hours with
          | some n => if n ≥ 12 then "pm" else "am"
          | none => "am"
        " " ++ hour12 ++ ":" ++ minutes ++ ampm
      else ""
    month ++ " " ++ day ++ ", " ++ year ++ timeStr

/-- `text.includes(term)` on characters. -/
def jsIncludes : List Char → List Char → Bool
  | [], term => term.isEmpty
  | c :: cs, term => term.isPrefixOf (c :: cs) || jsIncludes cs term

/-- The `value` the search filter computes for one header field of one
appointment: the formatted date and time for `bookingDate`, otherwise
`String(appointment[field])`, or the empty string when the property is
`undefined` or `null`. -/
def searchValue (b : Builtins) (appointment : AppointmentRow) (field : String) : String :=
  if field == "bookingDate" then
    formatBookingDateTime b appointment.bookingDate appointment.bookingTime
  else
    match appointment.prop b.inherited field with
    | none => ""
    | some JsValue.null => ""
    | some value => value.toText

/-- The callback of `appointments.filter(...)` in the filter effect. -/
def matchesSearch (b : Builtins) (tableHeaders : List Header) (searchTerm : String)
    (appointment : AppointmentRow) : Bool :=
  tableHeaders.any fun header =>
    if header.field == "actions" then false
    else
      jsIncludes (b.toLowerCase (searchValue b appointment header.field)).toList
        (b.toLowerCase searchTerm).toList

/-- The UTF-16 code units of a string, which the JavaScript `<` on strings
compares. -/
def utf16Units (s : String) : List Nat :=
  s.toList.flatMap fun c =>
    if c.toNat < 0x10000 then [c.toNat]
    else [0xD800 + (c.toNat - 0x10000) / 0x400, 0xDC00 + (c.toNat - 0x10000) % 0x400]

/-- Lexicographic `<` on code unit sequences. -/
def lexLt : List Nat → List Nat → Bool
  | [], [] => false
  | [], _ :: _ => true
  | _ :: _, [] => false
  | x :: xs, y :: ys => decide (x < y) || (x == y && lexLt xs ys)

/-- `aStr < bStr` on strings. -/
def jsStringLt (x y : String) : Bool :=
  lexLt (utf16Units x) (utf16Units y)

/-- `String(a[sortField] ?? '')`. -/
def sortValue (b : Builtins) (a : AppointmentRow) (sortField : String) : String :=
  match a.prop b.inherited sortField with
  | none => ""
  | some JsValue.null => ""
  | some value => value.toText

/-- The string handed to `new Date(...)` by the comparator for `bookingDate`:
`(a.bookingDate || '') + 'T' + (a.bookingTime || '00:00')`. -/
def compositeDateText (a : AppointmentRow) : String :=
  a.bookingDate ++ "T" ++ (if a.bookingTime == "" then "00:00" else a.bookingTime)

/-- The comparator passed to `sorted.sort(...)`; `none` is NaN, the difference
of two dates of which one is invalid. -/
def compareAppointments (b : Builtins) (sortField : String) (sortDirection : Option String)
    (x y : AppointmentRow) : Option Int :=
  if sortField == "bookingDate" then
    match b.parseDate (compositeDateText x), b.parseDate (compositeDateText y) with
    | some aVal, some bVal => some (if sortDirection == some "asc" then aVal - bVal else bVal - aVal)
    | _, _ => none
  else
    let aStr := b.toLowerCase (sortValue b x sortField)
    let bStr := b.toLowerCase (sortValue b y sortField)
    if jsStringLt aStr bStr then some (if sortDirection == some "asc" then -1 else 1)
    else if jsStringLt bStr aStr then some (if sortDirection == some "asc" then 1 else -1)
    else some 0

/-- Whether `Array.prototype.sort` may leave `x` before `y`: the comparator
does not give a positive number, NaN counting as 0. -/
def staysBefore {α : Type} (comparefn : α → α → Option Int) (x y : α) : Prop :=
  (comparefn x y).getD 0 ≤ 0

instance {α : Type} (comparefn : α → α → Option Int) : DecidableRel (staysBefore comparefn) :=
  fun x y => inferInstanceAs (Decidable ((comparefn x y).getD 0 ≤ 0))

/-- `array.sort(comparefn)`.  The sort is stable, and for a comparator that is
a consistent ordering the result is fixed by the language: the stable sorted
arrangement, computed here by insertion. -/
def jsSort {α : Type} (comparefn : α → α → Option Int) (array : List α) : List α :=
  array.insertionSort (staysBefore comparefn)

/-- The filter and sort effect of `AdminPage`: the value it passes to
`setFilteredAppointments`.  `sortField` and `sortDirection` are `none` for
`null`. -/
def computeVisibleRows (b : Builtins) (appointments : List AppointmentRow)
    (tableHeaders : List Header) (searchTerm : String) (sortField sortDirection : Option String) :
    List AppointmentRow :=
  let filtered := appointments.filter (matchesSearch b tableHeaders searchTerm)
  match sortField with
  | none => filtered
  | some field =>
    if field == "" then filtered
    else jsSort (compareAppointments b field sortDirection) filtered

/-- The sort state of the page: `sortField` and `sortDirection`. -/
structure SortState where
  sortField : Option String
  sortDirection : Option String
deriving DecidableEq, Repr

/-- `handleSort(field)`. -/
def handleSort (st : SortState) (field : String) : SortState :=
  if field == "" || field == "actions" then st
  else if st.sortField == some field then
    { st with sortDirection := if st.sortDirection == some "asc" then some "desc" else some "asc" }
  else { sortField := some field, sortDirection := some "asc" }

/-! ### Sample rows -/

/-- Lower-casing of the letters `A` to `Z`, with which `toLowerCase` agrees on
ASCII text. -/
def asciiLower (s : String) : String :=
  String.mk (s.toList.map fun c =>
    if 65 ≤ c.toNat ∧ c.toNat ≤ 90 then Char.ofNat (c.toNat + 32) else c)

/-- The text of a native function of the given name in the V8 engine. -/
def nativeFunctionText (name : String) : String :=
  "function " ++ name ++ "() \x7b [native code] \x7d"

/-- The members of `Object.prototype` in a browser with the V8 engine: eleven
functions and the accessor `__proto__`, which on an appointment object yields
`Object.prototype` itself. -/
def objectPrototypeMembers : List (String × JsValue) :=
  [ ("constructor", JsValue.object (nativeFunctionText "Object")),
    ("__defineGetter__", JsValue.object (nativeFunctionText "__defineGetter__")),
    ("__defineSetter__", JsValue.object (nativeFunctionText "__defineSetter__")),
    ("hasOwnProperty", JsValue.object (nativeFunctionText "hasOwnProperty")),
    ("__lookupGetter__", JsValue.object (nativeFunctionText "__lookupGetter__")),
    ("__lookupSetter__", JsValue.object (nativeFunctionText "__lookupSetter__")),
    ("isPrototypeOf", JsValue.object (nativeFunctionText "isPrototypeOf")),
    ("propertyIsEnumerable", JsValue.object (nativeFunctionText "propertyIsEnumerable")),
    ("toString", JsValue.object (nativeFunctionText "toString")),
    ("valueOf", JsValue.object (nativeFunctionText "valueOf")),
    ("__proto__", JsValue.object "[object Object]"),
    ("toLocaleString", JsValue.object (nativeFunctionText "toLocaleString")) ]

/-- The builtins of a browser with the V8 engine in time zone UTC on the
strings of the sample rows.  The composite strings that the `bookingDate`
comparator builds from these rows, such as `2030-01-15T00:00:00.000ZT10:00`,
are no date strings and give an Invalid Date. -/
def sampleBuiltins : Builtins :=
  { toLowerCase := asciiLower
    inherited := fun name => objectPrototypeMembers.lookup name
    localDate := fun s =>
      if s == "2030-01-15T00:00:00.000Z" then some (0, 15, 2030)
      else if s == "2030-01-16T00:00:00.000Z" then some (0, 16, 2030)
      else if s == "2030-02-03T00:00:00.000Z" then some (1, 3, 2030)
      else none
    toNumber := fun s =>
      if s == "09" then some 9
      else if s == "10" then some 10
      else if s == "14" then some 14
      else none
    parseDate := fun s =>
      if s == "2030-01-15T00:00:00.000Z" then some 1894665600000
      else if s == "2030-01-16T00:00:00.000Z" then some 1894752000000
      else if s == "2030-02-03T00:00:00.000Z" then some 1896307200000
      else none }

/-- A sample row with the given identifier, name, contact number, date, time
and status. -/
def sampleRow (id name contactNumber bookingDate bookingTime status : String) :
    AppointmentRow :=
  { _id := id, name := name, contactNumber := contactNumber, bookingDate := bookingDate,
    bookingTime := bookingTime, status := status, notes := none,
    others := [("customFields", JsValue.object "[object Object]"), ("__v", JsValue.num "0")] }

/-- Five records in the order the Appointment Store returns them; only the
second has `0917` in a column value. -/
def sampleRows : List AppointmentRow :=
  [ sampleRow "65a000000000000000000011" "Carla Dizon" "09281234567"
      "2030-01-15T00:00:00.000Z" "09:00" "Pending",
    sampleRow "65a000000000000000000012" "Ana Cruz" "09171234567"
      "2030-01-15T00:00:00.000Z" "10:00" "Pending",
    sampleRow "65a000000000000000000013" "ben Reyes" "09181234567"
      "2030-01-16T00:00:00.000Z" "09:00" "Completed",
    sampleRow "65a000000000000000000014" "Ana Cruz" "09391234567"
      "2030-01-16T00:00:00.000Z" "14:00" "Cancelled",
    sampleRow "65a000000000000000000015" "Dino Uy" "09451234567"
      "2030-02-03T00:00:00.000Z" "10:00" "Pending" ]

/-- A header list whose one column has the field `constructor`, a name under
which every appointment object inherits a function. -/
def constructorColumn : List Header :=
  [ { id := "custom_1700000000001", label := "Made by", field := "constructor",
      editable := true } ]

/-- The sample rows, the second with the number 1e21 as a custom value. -/
def sampleRowsWithLargeNumber : List AppointmentRow :=
  sampleRows.map fun a =>
    if a._id == "65a000000000000000000012" then
      { a with others := a.others ++ [("custom_1", JsValue.num "1e+21")] }
    else a

/-! ## Sessions used as inputs -/

/-- The component state after `loadTableConfig` settled with a failing
`getTableConfig`. -/
def afterFailedLoad : State :=
  (loadTableConfig initialState ConfigResponse.failed).1

/-- After a failed load: enter edit mode, add a column, cancel. -/
def editThenCancel : List Event :=
  [Event.toggleEdit, Event.addColumn 1700000000003, Event.cancel]

/-- Enter edit mode, switch the delete-column sub-mode on, and leave edit mode
with the Exit Edit Table button while nothing is unsaved. -/
def leaveEditWithDeleteMode : List Event :=
  [Event.toggleEdit, Event.deleteMode, Event.toggleEdit]

/-- The ids of a header list, in order. -/
def headerIds (headers : List HeaderObj) : List String :=
  headers.map fun h => h.val.id

/-- Edit mode on the default columns after one column was added at clock value
1700000000003. -/
def addedOneColumn : State :=
  addNewTableHeader (toggleEditTableMode (loadedState defaultHeaders)) 1700000000003

/-- A legacy configuration in which a column that is kept has id
`bookingDate` but another field. -/
def legacyWithBookingDateId : List Header :=
  [ { id := "name", label := "Full Name", field := "name", editable := true },
    { id := "bookingDate", label := "Booked on", field := "custom_1", editable := true },
    { id := "date", label := "Date", field := "date", editable := true } ]

/-- The identities of the header objects are in order: every object of the
draft and of the original was allocated before `nextRef`, and no object
occurs twice in the draft or twice in the original. -/
def RefsInOrder (s : State) : Prop :=
  (∀ o ∈ s.tableHeaders, o.ref < s.nextRef) ∧
  (∀ o ∈ s.originalTableHeaders, o.ref < s.nextRef) ∧
  (s.tableHeaders.map fun o => o.ref).Nodup ∧
  (s.originalTableHeaders.map fun o => o.ref).Nodup

/-- The column ids of the draft are pairwise distinct and so are the column
ids of the original. -/
@[reducible] def DistinctIds (s : State) : Prop :=
  (headerIds s.tableHeaders).Nodup ∧ (headerIds s.originalTableHeaders).Nodup

/-- A persisted header list is a legacy one: some header has field `date` or
`time` (the `hasSeparateDateTime` of `loadTableConfig`). -/
def isLegacy (headers : List Header) : Bool :=
  headers.any (fun header => header.field == "date" || header.field == "time")

/-! ## Inline row edit -/

/-- The assignment `obj[key] = value` on a plain object given as the list of
its own properties: the value of an existing property is replaced in place, a
new property is added at the end.  (The list order is the insertion order,
not the order in which JavaScript enumerates integer-like keys; nothing below
depends on the order.) -/
def objSet : List (String × JsValue) → String → JsValue → List (String × JsValue)
  | [], key, value => [(key, value)]
  | (k, v) :: rest, key, value =>
    if k == key then (key, value) :: rest else (k, v) :: objSet rest key value

/-- The statement `delete obj[key]`. -/
def objDelete (obj : List (String × JsValue)) (key : String) : List (String × JsValue) :=
  obj.filter fun p => p.1 != key

/-- The `updateData` that `handleSaveInlineEdit` passes to
`appointmentService.updateAppointment`, for the draft `tableHeaders` and the
row draft `editingData`.  The values of a row draft are never `undefined`
(they come from JSON, from `''` or from an input's value), so
`updateData[field] === undefined` holds exactly when the property is
missing. -/
def updateData (tableHeaders : List HeaderObj) (editingData : List (String × JsValue)) :
    List (String × JsValue) :=
  let customFields :=
    (tableHeaders.filter fun h => startsWithCustom h.val.field).map fun h => h.val.field
  let filled := customFields.foldl
    (fun updateData field =>
      if (updateData.lookup field).isNone then objSet updateData field (JsValue.str "")
      else updateData)
    editingData
  (filled.map Prod.fst).foldl
    (fun updateData key =>
      if !tableHeaders.any (fun h => h.val.field == key) then objDelete updateData key
      else updateData)
    filled

/-! ## Appointment Store: update and cleanup routes -/

/-- The replacement `key.replace(/^custom_/, '')`: the name without one leading
`custom_`. -/
def stripCustomPrefix (field : String) : String :=
  if startsWithCustom field then String.mk (field.toList.drop "custom_".toList.length)
  else field

/-- The body of `PUT /api/appointments/:id` with string-valued schema fields;
`none` is a field the body does not have.  `rest` holds the remaining
properties of the body. -/
structure UpdateBody where
  name : Option String := none
  contactNumber : Option String := none
  bookingDate : Option String := none
  bookingTime : Option String := none
  status : Option String := none
  notes : Option String := none
  rest : List (String × JsValue) := []
deriving DecidableEq, Repr

/-- What an update request meets outside the repository's code: the builtins
of `RequestEnv` and `date.toISOString().split('T')[0]` for a stored date. -/
structure UpdateEnv extends RequestEnv where
  isoDate : Int → String

/-- The value of the `status` enum with the given text; `none` when the enum
validator of the schema rejects the string. -/
def Status.ofText (text : String) : Option Status :=
  if text == "Pending" then some Status.Pending
  else if text == "Cancelled" then some Status.Cancelled
  else if text == "Completed" then some Status.Completed
  else none

/-- The spread `{ ...target, ...source }`: every own property of `source` is
set on a copy of `target`. -/
def objAssign (target source : List (String × JsValue)) : List (String × JsValue) :=
  (source.map Prod.fst).foldl
    (fun acc key =>
      match source.lookup key with
      | some value => objSet acc key value
      | none => acc)
    target

/-- The `customFieldKeys` of the update route:
`Object.keys(rest).filter(key => key.startsWith('custom_'))`. -/
def customFieldKeys (rest : List (String × JsValue)) : List String :=
  (rest.map Prod.fst).filter startsWithCustom

/-- The `newCustomFields` of the update route, built by
`acc[cleanKey] = rest[key]` on `{}`.  For `cleanKey` equal to `__proto__` the
assignment reaches the accessor inherited from `Object.prototype` and creates
no own property. -/
def newCustomFields (rest : List (String × JsValue)) : List (String × JsValue) :=
  (customFieldKeys rest).foldl
    (fun acc key =>
      let cleanKey := stripCustomPrefix key
      match rest.lookup key with
      | some value => if cleanKey == "__proto__" then acc else objSet acc cleanKey value
      | none => acc)
    []

/-- The `customFields` of the document after the merge of the update route. -/
def mergeCustomFields (customFields rest : List (String × JsValue)) :
    List (String × JsValue) :=
  if (customFieldKeys rest).isEmpty then customFields
  else objAssign customFields (newCustomFields rest)

/-- The slot check of the update route: `none` when the route goes on, the
response when it returns early.  The check runs only when the body has a
truthy `bookingDate` and a truthy `bookingTime` of which one differs from the
stored value; an Invalid Date makes the query throw, which is answered with
500. -/
def slotConflict (env : UpdateEnv) (store : List Appointment) (id : String)
    (appointment : Appointment) (body : UpdateBody) : Option Response :=
  match body.bookingDate, body.bookingTime with
  | some bookingDate, some bookingTime =>
    if bookingDate != "" && bookingTime != "" &&
        (bookingDate != env.isoDate appointment.bookingDate ||
          bookingTime != appointment.bookingTime) then
      match env.parseDate bookingDate with
      | none => some ⟨500, ResponseBody.message "Server error"⟩
      | some date =>
        if store.any (fun a => a._id != id && occupiesSlot date bookingTime a) then
          some ⟨400, ResponseBody.message "This time slot is already booked"⟩
        else none
    else none
  | _, _ => none

/-- The document after the assignments of the update route, as
`appointment.save()` validates it: `none` when the schema validation fails (an
Invalid Date, a status outside the enum, or an empty required string after
trimming). -/
def assignFields (env : UpdateEnv) (appointment : Appointment) (body : UpdateBody) :
    Option Appointment :=
  let name := match body.name with
    | some name => jsTrim name
    | none => appointment.name
  let contactNumber := match body.contactNumber with
    | some contactNumber => jsTrim contactNumber
    | none => appointment.contactNumber
  let bookingDate := match body.bookingDate with
    | some bookingDate => env.parseDate bookingDate
    | none => some appointment.bookingDate
  let bookingTime := match body.bookingTime with
    | some bookingTime => bookingTime
    | none => appointment.bookingTime
  let status := match body.status with
    | some status => Status.ofText status
    | none => some appointment.status
  let notes := match body.notes with
    | some notes => some (jsTrim notes)
    | none => appointment.notes
  match bookingDate, status with
  | some bookingDate, some status =>
    if name == "" || contactNumber == "" || bookingTime == "" then none
    else some
      { _id := appointment._id
        name := name
        contactNumber := contactNumber
        bookingDate := bookingDate
        bookingTime := bookingTime
        status := status
        notes := notes
        customFields := mergeCustomFields appointment.customFields body.rest }
  | _, _ => none

/-- `PUT /api/appointments/:id` on the collection `store`.  The validators
reject a present `bookingDate` that is not ISO 8601; a missing document is
answered with 404; then come the slot check, the assignments, the schema
validation of `appointment.save()` (failure is answered with 500) and the
pre-save hook, which rejects a `bookingDate` before `today`.  The store is
taken to accept every key of `customFields`. -/
def updateAppointment (env : UpdateEnv) (store : List Appointment) (id : String)
    (body : UpdateBody) : List Appointment × Response :=
  if body.bookingDate.any (fun bookingDate => !env.isISO8601 bookingDate) then
    (store, ⟨400, ResponseBody.errors ["Valid booking date is required"]⟩)
  else
    match store.find? (fun a => a._id == id) with
    | none => (store, ⟨404, ResponseBody.message "Appointment not found"⟩)
    | some appointment =>
      match slotConflict env store id appointment body with
      | some response => (store, response)
      | none =>
        match assignFields env appointment body with
        | none => (store, ⟨500, ResponseBody.message "Server error"⟩)
        | some updated =>
          if updated.bookingDate < env.todayStart then
            (store, ⟨400, ResponseBody.message "Cannot book past dates, only 2 days onward"⟩)
          else
            (store.map (fun a => if a._id == id then updated else a),
              ⟨200, ResponseBody.appointment updated⟩)

/-- A cleaned name is one key of `customFields`: it has no `.`, which in the
path `customFields.<name>` of `$unset` would address a property inside a
value, and no `$`. -/
def isPlainKey (cleanField : String) : Bool :=
  !cleanField.toList.any fun c => c == '.' || c == '$'

/-- `POST /api/appointments/cleanup-columns` on the collection `store`;
`deletedFields` is `none` when the body has no array of that name, and the
listed names are strings.  MongoDB rejects the update path `customFields.`,
which has an empty field name, and then changes no document; the route
answers 500.  The result is `none` when a cleaned name is not a plain key:
the embedding does not follow paths into the values of `customFields`. -/
def cleanupColumns (store : List Appointment) (deletedFields : Option (List String)) :
    Option (List Appointment × Response) :=
  match deletedFields with
  | none => some (store, ⟨400, ResponseBody.message "deletedFields array is required"⟩)
  | some deletedFields =>
    let cleanFields := deletedFields.map stripCustomPrefix
    if cleanFields.any (fun cleanField => cleanField == "") then
      some (store, ⟨500, ResponseBody.message "Failed to cleanup column data"⟩)
    else if cleanFields.all isPlainKey then
      some (store.map (fun a =>
          { a with customFields := a.customFields.filter fun p => !cleanFields.contains p.1 }),
        ⟨200, ResponseBody.message "Column data cleanup completed successfully"⟩)
    else none

/-- The object that `fetchAppointments` builds from one record of
`GET /api/appointments`: a copy of the record on which every key of
`customFields` is set under `custom_` followed by the key.  `toISOString`
gives the JSON text of the stored date, and `remaining` holds the properties
of the record that are not schema strings (`customFields` itself, the
timestamps, `__v`). -/
def flattenAppointment (toISOString : Int → String) (remaining : List (String × JsValue))
    (a : Appointment) : AppointmentRow :=
  { _id := a._id
    name := a.name
    contactNumber := a.contactNumber
    bookingDate := toISOString a.bookingDate
    bookingTime := a.bookingTime
    status := a.status.text
    notes := a.notes
    others := (a.customFields.map Prod.fst).foldl
      (fun appointmentObj key =>
        match a.customFields.lookup key with
        | some value => objSet appointmentObj ("custom_" ++ key) value
        | none => appointmentObj)
      remaining }

/-- Two distinct stored appointments that are both not cancelled have the same
`bookingDate` and the same `bookingTime`. -/
def hasDoubleBooking (store : List Appointment) : Bool :=
  store.any fun a => store.any fun b =>
    a._id != b._id && a.status != Status.Cancelled && b.status != Status.Cancelled &&
      a.bookingDate == b.bookingDate && a.bookingTime == b.bookingTime

/-! ### Sample update requests -/

/-- The builtins of `sampleEnv` with the ISO dates of its two days. -/
def sampleUpdateEnv : UpdateEnv :=
  { toRequestEnv := sampleEnv
    isoDate := fun date =>
      if date == 1894665600000 then "2030-01-15"
      else if date == 1894752000000 then "2030-01-16"
      else "" }

/-- The builtins of `sampleEnv` for a request whose document gets the next
`_id`. -/
def secondEnv : RequestEnv :=
  { sampleEnv with newId := "65a000000000000000000003" }

/-- A booking for 16 January 2030 at 10:00. -/
def dayAfterAtTen : AppointmentBody :=
  { name := "Ben Reyes", contactNumber := "09181234567", bookingDate := "2030-01-16",
    bookingTime := "10:00", notes := none }

/-- The collection after `tomorrowAtTen` and then `dayAfterAtTen` were booked
on an empty collection. -/
def twoBookings : List Appointment :=
  (createAppointment secondEnv (createAppointment sampleEnv [] tomorrowAtTen).1 dayAfterAtTen).1

/-- An update that holds only `bookingDate`, as the inline row edit sends it
when no column has the field `bookingTime`. -/
def moveToFifteenth : UpdateBody :=
  { bookingDate := some "2030-01-15" }

/-- A stored appointment with two custom values. -/
def withCustomValues : Appointment :=
  { _id := "65a000000000000000000004", name := "Carla Dizon", contactNumber := "09281234567",
    bookingDate := 1894665600000, bookingTime := "09:00", status := Status.Pending,
    notes := none, customFields := [("1", JsValue.str "blue"), ("2", JsValue.str "north")] }

/-- An update that writes the column field `custom_2` and nothing else. -/
def writeCustomTwo : UpdateBody :=
  { rest := [("custom_2", JsValue.str "south")] }

/-- An update that writes the column field `custom___proto__`. -/
def writeCustomProto : UpdateBody :=
  { rest := [("custom___proto__", JsValue.str "south")] }

/-! ## Header rendering -/

/-- The header at `index` is rendered through `SortableHeader`: its field is
neither `status` nor `actions`, whose headers are a `<th>` with the label
alone, and the index is not staged, for which the header is a `<th>` with the
label and the click that removes the staging. -/
def rendersSortableHeader (s : State) (index : Nat) : Bool :=
  match s.tableHeaders[index]? with
  | none => false
  | some header =>
    !(header.val.field == "status" || header.val.field == "actions") &&
      !s.columnsToDelete.contains index

/-- The header at `index` shows the rename input, rendered inside
`SortableHeader` under `editingHeaderIndex === index`; its `onBlur` and its
Enter key call `handleHeaderEdit(index, value)`. -/
def showsHeaderInput (s : State) (index : Nat) : Bool :=
  rendersSortableHeader s index && s.editingHeaderIndex == some (index : Int)

/-- The header at `index` shows a control that calls
`setEditingHeaderIndex(index)`: the pencil button, rendered under
`isEditTableMode && header.editable && !columnsToDelete.includes(index)`, or
the click handler of `SortableHeader`, bound under
`header.editable && isEditTableMode && dragDropMode`; both exist only inside
`SortableHeader` and while the input is not shown. -/
def offersHeaderEdit (s : State) (index : Nat) : Bool :=
  match s.tableHeaders[index]? with
  | none => false
  | some header =>
    rendersSortableHeader s index && !(s.editingHeaderIndex == some (index : Int)) &&
      s.isEditTableMode && header.val.editable

/-- A click on the control that opens the rename input of the header at
`index`; nothing happens when the header shows no such control. -/
def startHeaderEdit (s : State) (index : Nat) : State :=
  if offersHeaderEdit s index then { s with editingHeaderIndex := some (index : Int) } else s

/-- Enter or blur in the rename input of the header at `index` with the text
`newValue`; nothing happens when the header shows no input. -/
def submitHeaderInput (s : State) (index : Nat) (newValue : String) : State :=
  if showsHeaderInput s index then handleHeaderEdit s index newValue else s

/-- The operation `renameHeader(index, newLabel)` through the rendered table:
open the rename input of the header at `index` and submit `newLabel` in it. -/
def renameHeader (s : State) (index : Nat) (newLabel : String) : State :=
  submitHeaderInput (startHeaderEdit s index) index newLabel

/-! ## Lemmas on the array primitives -/

theorem findIndex_of_findIdx?_some {α : Type} {p : α → Bool} {xs : List α} {i : Nat}
    (h : xs.findIdx? p = some i) : findIndex p xs = (i : Int) := by
  simp [findIndex, h]

theorem findIndex_of_findIdx?_none {α : Type} {p : α → Bool} {xs : List α}
    (h : xs.findIdx? p = none) : findIndex p xs = -1 := by
  simp only [findIndex, h]

theorem spliceStart_natCast {len i : Nat} (h : i ≤ len) : spliceStart len (i : Int) = i := by
  unfold spliceStart
  have : ¬ ((i : Int) < 0) := by omega
  rw [if_neg this]
  omega

theorem spliceStart_length_sub_two (len : Nat) :
    spliceStart len ((len : Int) - 2) = len - 2 := by
  unfold spliceStart
  split <;> omega

theorem spliceStart_le (len : Nat) (start : Int) : spliceStart len start ≤ len := by
  unfold spliceStart
  split <;> omega

theorem insertAt_getElem? {α : Type} (xs : List α) (k : Nat) (hk : k ≤ xs.length) (a : α) :
    (xs.take k ++ a :: xs.drop k)[k]? = some a := by
  rw [List.getElem?_append_right (by simp [hk])]
  simp [hk]

theorem insertAt_getElem?_succ {α : Type} (xs : List α) (k : Nat) (hk : k ≤ xs.length) (a : α) :
    (xs.take k ++ a :: xs.drop k)[k + 1]? = xs[k]? := by
  rw [List.getElem?_append_right (by simp)]
  simp [hk]

theorem insertAt_eraseIdx {α : Type} (xs : List α) (k : Nat) (hk : k ≤ xs.length) (a : α) :
    (xs.take k ++ a :: xs.drop k).eraseIdx k = xs := by
  rw [List.eraseIdx_append_of_length_le (by simp [hk])]
  simp [hk]

theorem definedEntries_map_some {α : Type} (ys : List α) :
    definedEntries (ys.map some) = some ys := by
  induction ys with
  | nil => rfl
  | cons y ys ih => simp [definedEntries, ih]

/-- When the inner `splice` of `arrayMove` has an element to remove, the result
holds no `undefined` and is a rearrangement of the input. -/
theorem arrayMove_perm {α : Type} (xs : List α) (f t : Int)
    (hf : spliceStart xs.length f < xs.length) :
    ∃ ys : List α, arrayMove xs f t = ys.map some ∧ ys.Perm xs := by
  have hdrop : xs.drop (spliceStart xs.length f)
      = xs[spliceStart xs.length f] :: xs.drop (spliceStart xs.length f + 1) :=
    List.drop_eq_getElem_cons hf
  refine ⟨(xs.take (spliceStart xs.length f) ++ xs.drop (spliceStart xs.length f + 1)).take
        (spliceStart (xs.take (spliceStart xs.length f) ++ xs.drop (spliceStart xs.length f + 1)).length
          (if t < 0 then (xs.length : Int) + t else t)) ++
      xs[spliceStart xs.length f] ::
        (xs.take (spliceStart xs.length f) ++ xs.drop (spliceStart xs.length f + 1)).drop
        (spliceStart (xs.take (spliceStart xs.length f) ++ xs.drop (spliceStart xs.length f + 1)).length
          (if t < 0 then (xs.length : Int) + t else t)), ?_, ?_⟩
  · have hhead : (((xs.map some).drop (spliceStart xs.length f)).take 1).head?.join
        = some xs[spliceStart xs.length f] := by
      rw [← List.map_drop, hdrop]
      rfl
    have hrest : (xs.map some).take (spliceStart xs.length f) ++
        (xs.map some).drop (spliceStart xs.length f + 1)
        = (xs.take (spliceStart xs.length f) ++ xs.drop (spliceStart xs.length f + 1)).map some := by
      rw [List.map_append, List.map_take, List.map_drop]
    simp only [arrayMove, spliceRemoveOne, spliceInsert, List.length_map, hhead, hrest]
    simp only [List.map_append, List.map_cons, List.map_take, List.map_drop]
  · refine List.perm_middle.trans ?_
    rw [List.take_append_drop]
    refine List.perm_middle.symm.trans ?_
    rw [← hdrop, List.take_append_drop]

theorem spliceStart_findIndex_lt {α : Type} (p : α → Bool) (xs : List α) (hne : xs ≠ []) :
    spliceStart xs.length (findIndex p xs) < xs.length := by
  have hpos : 0 < xs.length := List.length_pos.mpr hne
  cases h : xs.findIdx? p with
  | none =>
    rw [findIndex_of_findIdx?_none h]
    unfold spliceStart
    simp only [show ((-1 : Int) < 0) from by omega, if_true]
    omega
  | some i =>
    rw [findIndex_of_findIdx?_some h]
    have hi : i < xs.length := (List.findIdx?_eq_some_iff_findIdx_eq.mp h).1
    rw [spliceStart_natCast (Nat.le_of_lt hi)]
    exact hi

/-- On a non-empty header list the updater of `handleDragEnd` yields a
rearrangement of the list, whichever ids it is given. -/
theorem dragEndItems_perm (items : List HeaderObj) (activeId overId : String)
    (hne : items ≠ []) :
    ∃ ys : List HeaderObj, dragEndItems items activeId overId = ys.map some ∧ ys.Perm items :=
  arrayMove_perm items _ _ (spliceStart_findIndex_lt _ _ hne)

/-! ## Lemmas on saving -/

theorem filterIndexFrom_eq_filterMap {α : Type} (p : Nat → Bool) (k : Nat) (xs : List α) :
    filterIndexFrom p k xs
      = (List.range xs.length).filterMap (fun i => if p (k + i) then xs[i]? else none) := by
  induction xs generalizing k with
  | nil => rfl
  | cons x xs ih =>
    rw [List.length_cons, List.range_succ_eq_map, List.filterMap_cons, List.filterMap_map]
    simp only [filterIndexFrom, Nat.add_zero, List.getElem?_cons_zero]
    have hfun : ((fun i => if p (k + i) = true then (x :: xs)[i]? else none) ∘ Nat.succ)
        = (fun i => if p (k + 1 + i) = true then xs[i]? else none) := by
      funext i
      simp only [Function.comp, Nat.succ_eq_add_one, List.getElem?_cons_succ]
      rw [show k + (i + 1) = k + 1 + i from by omega]
    rw [hfun, ← ih (k + 1)]
    cases hp : p k <;> simp

theorem removeStaged_eq_draftWithoutStaged (hs : List HeaderObj) (cols : List Nat) :
    removeStaged hs cols = draftWithoutStaged hs cols := by
  unfold removeStaged draftWithoutStaged
  rw [filterIndexFrom_eq_filterMap]
  congr 1
  funext i
  by_cases h : i ∈ cols <;> simp [h]

theorem removeStaged_nil (hs : List HeaderObj) : removeStaged hs [] = hs := by
  have h : ∀ (k : Nat) (xs : List HeaderObj),
      filterIndexFrom (fun i => !([] : List Nat).contains i) k xs = xs := by
    intro k xs
    induction xs generalizing k with
    | nil => rfl
    | cons x xs ih =>
      have hk := ih (k + 1)
      simp only [List.contains_nil, Bool.not_false] at hk ⊢
      simp [filterIndexFrom, hk]
  exact h 0 hs

/-- When every staged index is an index of the header list, the field names
sent to `cleanupColumns` are the fields of the columns at the staged indices,
in staging order. -/
theorem deletedFields_of_lt (hs : List HeaderObj) (cols : List Nat)
    (h : ∀ i ∈ cols, i < hs.length) :
    ∃ fields : List String, deletedFields hs cols = some fields ∧
      fields.map some = cols.map (fun i => hs[i]?.map (fun header => header.val.field)) := by
  induction cols with
  | nil => exact ⟨[], rfl, rfl⟩
  | cons c cols ih =>
    obtain ⟨fields, hf, hmap⟩ := ih (fun i hi => h i (List.mem_cons_of_mem _ hi))
    have hc : c < hs.length := h c (List.mem_cons_self _ _)
    refine ⟨hs[c].val.field :: fields, ?_, ?_⟩
    · simp [deletedFields, List.getElem?_eq_getElem hc, hf]
    · simp [List.getElem?_eq_getElem hc, hmap]

/-- The `newHeaders` of `saveTableConfiguration` in the claim's vocabulary. -/
theorem newHeaders_eq (s : State) :
    (if s.columnsToDelete.length > 0 then removeStaged s.tableHeaders s.columnsToDelete
      else s.tableHeaders) = draftWithoutStaged s.tableHeaders s.columnsToDelete := by
  split
  · exact removeStaged_eq_draftWithoutStaged _ _
  · have : s.columnsToDelete = [] := List.length_eq_zero.mp (by omega)
    rw [← removeStaged_eq_draftWithoutStaged, this, removeStaged_nil]

/-! ## Staged indices stay inside the header list -/

theorem handleDragEnd_frame {s s' : State} {activeId : String} {overId : Option String}
    (h : handleDragEnd s activeId overId = some s') :
    s'.columnsToDelete = s.columnsToDelete ∧ s'.tableHeaders.length = s.tableHeaders.length := by
  unfold handleDragEnd at h
  split at h
  · cases h; exact ⟨rfl, rfl⟩
  · split at h
    · cases h; exact ⟨rfl, rfl⟩
    · split at h
      · cases overId with
        | none => cases h
        | some o =>
          obtain ⟨items, hitems, rfl⟩ := Option.map_eq_some'.mp h
          refine ⟨rfl, ?_⟩
          by_cases hnil : s.tableHeaders = []
          · rw [hnil] at hitems
            cases hitems
          · obtain ⟨ys, hys, hperm⟩ := dragEndItems_perm s.tableHeaders activeId o hnil
            rw [hys, definedEntries_map_some] at hitems
            cases hitems
            exact hperm.length_eq
      · cases h; exact ⟨rfl, rfl⟩

theorem toggleEditTableMode_frame (s : State) :
    (toggleEditTableMode s).tableHeaders = s.tableHeaders ∧
      (toggleEditTableMode s).columnsToDelete = s.columnsToDelete := by
  unfold toggleEditTableMode
  split <;> exact ⟨rfl, rfl⟩

theorem clickDeleteColumn_frame (s : State) :
    (clickDeleteColumn s).tableHeaders = s.tableHeaders ∧
      (clickDeleteColumn s).columnsToDelete = s.columnsToDelete := by
  unfold clickDeleteColumn
  split <;> exact ⟨rfl, rfl⟩

theorem clickDragDrop_frame (s : State) :
    (clickDragDrop s).tableHeaders = s.tableHeaders ∧
      (clickDragDrop s).columnsToDelete = s.columnsToDelete := by
  unfold clickDragDrop
  split <;> exact ⟨rfl, rfl⟩

theorem handleHeaderEdit_frame (s : State) (index : Nat) (newValue : String) :
    (handleHeaderEdit s index newValue).tableHeaders.length = s.tableHeaders.length ∧
      (handleHeaderEdit s index newValue).columnsToDelete = s.columnsToDelete := by
  unfold handleHeaderEdit
  split
  · exact ⟨rfl, rfl⟩
  · exact ⟨List.length_map _ _, rfl⟩

theorem addNewTableHeader_frame (s : State) (now : Nat) :
    (addNewTableHeader s now).tableHeaders.length = s.tableHeaders.length + 1 ∧
      (addNewTableHeader s now).columnsToDelete = s.columnsToDelete := by
  refine ⟨?_, rfl⟩
  have := spliceStart_le s.tableHeaders.length (insertIndexFor s.tableHeaders)
  simp only [addNewTableHeader, spliceInsert, List.length_append, List.length_cons,
    List.length_take, List.length_drop]
  omega

theorem handleHeaderDeleteToggle_frame (s : State) (index : Nat) :
    (handleHeaderDeleteToggle s index).tableHeaders = s.tableHeaders ∧
      ∀ i ∈ (handleHeaderDeleteToggle s index).columnsToDelete,
        i ∈ s.columnsToDelete ∨ i < s.tableHeaders.length := by
  unfold handleHeaderDeleteToggle
  split
  · exact ⟨rfl, fun i hi => Or.inl hi⟩
  · split
    · exact ⟨rfl, fun i hi => Or.inl hi⟩
    · rename_i header hget
      have hindex : index < s.tableHeaders.length := (List.getElem?_eq_some.mp hget).1
      split
      · exact ⟨rfl, fun i hi => Or.inl hi⟩
      · split
        · exact ⟨rfl, fun i hi => Or.inl hi⟩
        · refine ⟨rfl, fun i hi => ?_⟩
          simp only at hi
          split at hi
          · exact Or.inl (List.mem_filter.mp hi).1
          · rcases List.mem_append.mp hi with h | h
            · exact Or.inl h
            · rw [List.mem_singleton.mp h]; exact Or.inr hindex

theorem cancelTableChanges_columnsToDelete (s : State) :
    (cancelTableChanges s).columnsToDelete = [] := rfl

theorem saveTableConfiguration_staged (s : State) (saveOk cleanupOk fetchOk : Bool) :
    ((saveTableConfiguration s saveOk cleanupOk fetchOk).1.columnsToDelete = [] ∨
      ((saveTableConfiguration s saveOk cleanupOk fetchOk).1.columnsToDelete = s.columnsToDelete ∧
        (saveTableConfiguration s saveOk cleanupOk fetchOk).1.tableHeaders = s.tableHeaders)) := by
  unfold saveTableConfiguration
  simp only []
  split
  · exact Or.inr ⟨rfl, rfl⟩
  · split
    · split
      · exact Or.inr ⟨rfl, rfl⟩
      · split
        · exact Or.inl rfl
        · exact Or.inl rfl
    · exact Or.inl rfl

theorem loadTableConfig_initial_staged (response : ConfigResponse) :
    (loadTableConfig initialState response).1.columnsToDelete = [] := by
  cases response with
  | failed => rfl
  | noHeaders => rfl
  | config headers =>
    simp only [loadTableConfig]
    split <;> rfl

/-- In every reachable state each staged index is an index of the draft header
list. -/
theorem reachable_staged_lt {s : State} (h : Reachable s) :
    ∀ i ∈ s.columnsToDelete, i < s.tableHeaders.length := by
  induction h with
  | loaded response =>
    intro i hi
    rw [loadTableConfig_initial_staged] at hi
    cases hi
  | @toggleEdit s _ ih =>
    obtain ⟨h1, h2⟩ := toggleEditTableMode_frame s
    rw [h1, h2]; exact ih
  | @deleteMode s _ ih =>
    obtain ⟨h1, h2⟩ := clickDeleteColumn_frame s
    rw [h1, h2]; exact ih
  | @dragMode s _ ih =>
    obtain ⟨h1, h2⟩ := clickDragDrop_frame s
    rw [h1, h2]; exact ih
  | reorder activeId overId _ hstep ih =>
    obtain ⟨hcols, hlen⟩ := handleDragEnd_frame hstep
    rw [hcols, hlen]; exact ih
  | @renameHeader s index newValue _ ih =>
    obtain ⟨h1, h2⟩ := handleHeaderEdit_frame s index newValue
    rw [h1, h2]; exact ih
  | @addColumn s now _ ih =>
    obtain ⟨h1, h2⟩ := addNewTableHeader_frame s now
    rw [h1, h2]
    intro i hi
    exact Nat.lt_succ_of_lt (ih i hi)
  | @stageDelete s index _ ih =>
    obtain ⟨h1, h2⟩ := handleHeaderDeleteToggle_frame s index
    rw [h1]
    intro i hi
    rcases h2 i hi with h | h
    · exact ih i h
    · exact h
  | @save s saveOk cleanupOk fetchOk _ ih =>
    rcases saveTableConfiguration_staged s saveOk cleanupOk fetchOk with h | ⟨h1, h2⟩
    · rw [h]; intro i hi; cases hi
    · rw [h1, h2]; exact ih
  | @cancel s _ ih =>
    intro i hi
    cases hi

/-! ## Staging columns for deletion -/

/-- C1 (evaluation at the failing input): with `custom_1` staged at index 3,
dragging `custom_2` onto `name` leaves index 3 staged while `bookingDate` moves
to index 3; `saveTableConfiguration` then persists a header list without
`bookingDate` and asks `cleanupColumns` to strip `bookingDate`. -/
theorem C1_reorder_puts_bookingDate_under_staged_index :
    ∃ s, handleDragEnd stagedThenDragMode "custom_1700000000002" (some "name") = some s ∧
      Reachable s ∧
      3 ∈ s.columnsToDelete ∧
      s.tableHeaders[3]?.map (fun h => h.val.field) = some "bookingDate" ∧
      (saveTableConfiguration s true true true).2 =
        [Call.saveTableConfig
          [ { id := "custom_1700000000002", label := "Stylist", field := "custom_2", editable := true },
            { id := "name", label := "Full Name", field := "name", editable := true },
            { id := "contact", label := "Contact Number", field := "contactNumber", editable := true },
            { id := "custom_1700000000001", label := "Branch", field := "custom_1", editable := true },
            { id := "status", label := "Status", field := "status", editable := false },
            { id := "actions", label := "Actions", field := "actions", editable := false } ],
         Call.cleanupColumns ["bookingDate"],
         Call.getAllAppointments] ∧
      "bookingDate" ∉ (saveTableConfiguration s true true true).1.tableHeaders.map
        (fun h => h.val.field) := by
  refine ⟨_, rfl, ?_, ?_, ?_, ?_, ?_⟩
  · exact Reachable.reorder "custom_1700000000002" (some "name")
      (Reachable.dragMode (Reachable.stageDelete 3 (Reachable.deleteMode
        (Reachable.toggleEdit (Reachable.loaded (ConfigResponse.config twoCustomColumns))))))
      rfl
  · decide
  · decide
  · decide
  · decide

/-- C2: `handleHeaderDeleteToggle(index)` leaves `columnsToDelete` and
`hasUnsavedChanges` as they are, and so does not add `index` to the set, when
delete-column mode is off and when the column at `index` has field `status`,
`actions`, `name`, `contactNumber` or `bookingDate`. -/
theorem C2_stageDelete_refuses_protected (s : State) (index : Nat)
    (h : s.deleteColumnMode = false ∨
      ∃ header, s.tableHeaders[index]? = some header ∧
        header.val.field ∈ ["status", "actions", "name", "contactNumber", "bookingDate"]) :
    (handleHeaderDeleteToggle s index).columnsToDelete = s.columnsToDelete ∧
      (handleHeaderDeleteToggle s index).hasUnsavedChanges = s.hasUnsavedChanges ∧
      (index ∈ (handleHeaderDeleteToggle s index).columnsToDelete → index ∈ s.columnsToDelete) := by
  have key : handleHeaderDeleteToggle s index = s := by
    rcases h with h | ⟨header, hget, hfield⟩
    · simp [handleHeaderDeleteToggle, h]
    · have hp : isProtectedField header.val.field = true := by
        simp only [List.mem_cons, List.mem_singleton, List.not_mem_nil, or_false] at hfield
        rcases hfield with h | h | h | h | h <;> rw [h] <;> decide
      unfold handleHeaderDeleteToggle
      split
      · rfl
      · simp [hget, hp]
  rw [key]
  exact ⟨rfl, rfl, id⟩

/-- C2 at a concrete state: delete-column mode is on and index 0 holds the
`name` column. -/
theorem C2_stageDelete_refuses_protected_witness :
    (handleHeaderDeleteToggle (clickDeleteColumn (toggleEditTableMode initialState)) 0).columnsToDelete
        = (clickDeleteColumn (toggleEditTableMode initialState)).columnsToDelete ∧
      (handleHeaderDeleteToggle (clickDeleteColumn (toggleEditTableMode initialState)) 0).hasUnsavedChanges
        = (clickDeleteColumn (toggleEditTableMode initialState)).hasUnsavedChanges ∧
      (0 ∈ (handleHeaderDeleteToggle (clickDeleteColumn (toggleEditTableMode initialState)) 0).columnsToDelete →
        0 ∈ (clickDeleteColumn (toggleEditTableMode initialState)).columnsToDelete) :=
  C2_stageDelete_refuses_protected (clickDeleteColumn (toggleEditTableMode initialState)) 0
    (Or.inr ⟨⟨0, { id := "name", label := "Full Name", field := "name", editable := true }⟩,
      by decide, by decide⟩)

/-! ## Adding a column -/

/-- C3 (evaluation at the failing input): on the header list
`[name, contactNumber, bookingDate, custom_2, status, actions]` one column has
a `custom_` field, so the new descriptor gets field `custom_2`, which the list
already holds; after the insertion two columns have field `custom_2`. -/
theorem C3_new_field_repeats_existing (now : Nat) :
    (newHeaderFor (loadedState secondCustomOnly).tableHeaders now).field = "custom_2" ∧
      "custom_2" ∈ (loadedState secondCustomOnly).tableHeaders.map (fun h => h.val.field) ∧
      (addNewTableHeader (loadedState secondCustomOnly) now).tableHeaders.map (fun h => h.val.field)
        = ["name", "contactNumber", "bookingDate", "custom_2", "custom_2", "status", "actions"] := by
  refine ⟨?_, ?_, ?_⟩
  · rfl
  · decide
  · rfl

/-- C4 (as stated, refuted): on the one-column list `[name]`, which has no
`status` column, `length - 2` is `-1`; the new descriptor lands at index 0 and
no index of the resulting list equals `length - 2`. -/
theorem C4_one_column_not_at_length_minus_two :
    (∀ h ∈ (loadedState oneColumn).tableHeaders, h.val.field ≠ "status") ∧
    insertIndexFor (loadedState oneColumn).tableHeaders = -1 ∧
    (addNewTableHeader (loadedState oneColumn) 0).tableHeaders.map (fun h => h.val.field)
      = ["custom_1", "name"] ∧
    ¬ ∃ i : Nat, (i : Int) = ((loadedState oneColumn).tableHeaders.length : Int) - 2 ∧
        ((addNewTableHeader (loadedState oneColumn) 0).tableHeaders[i]?).map (fun h => h.val.field)
          = some "custom_1" := by
  refine ⟨by decide, rfl, rfl, ?_⟩
  rintro ⟨i, hi, -⟩
  have hlen : (loadedState oneColumn).tableHeaders.length = 1 := rfl
  rw [hlen] at hi
  omega

/-- C4 (amended): `addNewTableHeader` sets `hasUnsavedChanges` and creates the
descriptor with label `New Column`, `editable` true, id `custom_<now>` and
field `custom_<k+1>`, `k` being the number of columns whose field starts with
`custom_`.  When `i` is the first index of a `status` column, the descriptor is
at index `i` of the new list, the status column follows at `i + 1`, and
erasing index `i` gives the old list back.  When there is no `status` column
the same holds at index `length - 2`, taken as `0` for fewer than two columns.
With the default columns the fields become
`name, contactNumber, bookingDate, custom_1, status, actions`. -/
theorem C4_addColumn_inserts_before_status (s : State) (now : Nat) :
    (addNewTableHeader s now).hasUnsavedChanges = true ∧
    (∀ (i : Nat) (status : HeaderObj),
        s.tableHeaders[i]? = some status → status.val.field = "status" →
        (∀ j, j < i → s.tableHeaders[j]?.map (fun h => h.val.field) ≠ some "status") →
        (addNewTableHeader s now).tableHeaders[i]? = some ⟨s.nextRef,
          { id := "custom_" ++ toString now
            label := "New Column"
            field := "custom_" ++
              toString (s.tableHeaders.countP (fun h => startsWithCustom h.val.field) + 1)
            editable := true }⟩ ∧
        (addNewTableHeader s now).tableHeaders[i + 1]? = some status ∧
        (addNewTableHeader s now).tableHeaders.eraseIdx i = s.tableHeaders) ∧
    ((∀ h ∈ s.tableHeaders, h.val.field ≠ "status") →
        (addNewTableHeader s now).tableHeaders[s.tableHeaders.length - 2]? = some ⟨s.nextRef,
          { id := "custom_" ++ toString now
            label := "New Column"
            field := "custom_" ++
              toString (s.tableHeaders.countP (fun h => startsWithCustom h.val.field) + 1)
            editable := true }⟩ ∧
        (addNewTableHeader s now).tableHeaders.eraseIdx (s.tableHeaders.length - 2)
          = s.tableHeaders) ∧
    (addNewTableHeader initialState now).tableHeaders.map (fun h => h.val.field)
      = ["name", "contactNumber", "bookingDate", "custom_1", "status", "actions"] := by
  have hnew : newHeaderFor s.tableHeaders now =
      { id := "custom_" ++ toString now
        label := "New Column"
        field := "custom_" ++
          toString (s.tableHeaders.countP (fun h => startsWithCustom h.val.field) + 1)
        editable := true } := by
    simp [newHeaderFor, List.countP_eq_length_filter]
  refine ⟨rfl, ?_, ?_, rfl⟩
  · intro i status hget hstatus hfirst
    obtain ⟨hi, hval⟩ := List.getElem?_eq_some.mp hget
    have hfind : s.tableHeaders.findIdx? (fun h => h.val.field == "status") = some i := by
      rw [List.findIdx?_eq_some_iff_getElem]
      refine ⟨hi, by simpa [hval] using hstatus, fun j hj => ?_⟩
      have hj' : j < s.tableHeaders.length := Nat.lt_trans hj hi
      have hjf := hfirst j hj
      rw [List.getElem?_eq_getElem hj'] at hjf
      simpa using hjf
    have hidx : insertIndexFor s.tableHeaders = (i : Int) := by
      unfold insertIndexFor
      rw [findIndex_of_findIdx?_some hfind]
      have : ¬ ((i : Int) = -1) := by omega
      simp [this]
    have hstart : spliceStart s.tableHeaders.length (insertIndexFor s.tableHeaders) = i := by
      rw [hidx]; exact spliceStart_natCast (Nat.le_of_lt hi)
    simp only [addNewTableHeader, spliceInsert, hstart, hnew]
    refine ⟨insertAt_getElem? _ _ (Nat.le_of_lt hi) _, ?_, insertAt_eraseIdx _ _ (Nat.le_of_lt hi) _⟩
    rw [insertAt_getElem?_succ _ _ (Nat.le_of_lt hi)]
    exact hget
  · intro hnone
    have hfind : s.tableHeaders.findIdx? (fun h => h.val.field == "status") = none := by
      rw [List.findIdx?_eq_none_iff]
      intro x hx
      simpa using hnone x hx
    have hidx : insertIndexFor s.tableHeaders = (s.tableHeaders.length : Int) - 2 := by
      unfold insertIndexFor
      rw [findIndex_of_findIdx?_none hfind]
      simp
    have hstart : spliceStart s.tableHeaders.length (insertIndexFor s.tableHeaders)
        = s.tableHeaders.length - 2 := by
      rw [hidx]; exact spliceStart_length_sub_two _
    simp only [addNewTableHeader, spliceInsert, hstart, hnew]
    exact ⟨insertAt_getElem? _ _ (Nat.sub_le _ _) _, insertAt_eraseIdx _ _ (Nat.sub_le _ _) _⟩

/-- C4 at the default columns, whose `status` column is first found at index 3. -/
theorem C4_addColumn_inserts_before_status_witness :
    (addNewTableHeader initialState 17).tableHeaders[3]? = some ⟨5,
        { id := "custom_" ++ toString 17
          label := "New Column"
          field := "custom_" ++
            toString (initialState.tableHeaders.countP (fun h => startsWithCustom h.val.field) + 1)
          editable := true }⟩ ∧
      (addNewTableHeader initialState 17).tableHeaders[3 + 1]?
        = some ⟨3, { id := "status", label := "Status", field := "status", editable := false }⟩ ∧
      (addNewTableHeader initialState 17).tableHeaders.eraseIdx 3 = initialState.tableHeaders :=
  (C4_addColumn_inserts_before_status initialState 17).2.1 3
    ⟨3, { id := "status", label := "Status", field := "status", editable := false }⟩
    (by decide) (by decide) (by decide)

/-! ## Reordering -/

/-- C5: on a header list that holds a column, as it does whenever a header can
be dragged, `handleDragEnd` succeeds for every pair of ids, found in the list
or not, and in every combination of modes, and the header list after it is a
permutation of the list before it, of the same length. -/
theorem C5_reorder_is_permutation (s : State) (activeId overId : String)
    (hne : s.tableHeaders ≠ []) :
    ∃ s', handleDragEnd s activeId (some overId) = some s' ∧
      s'.tableHeaders.Perm s.tableHeaders ∧
      s'.tableHeaders.length = s.tableHeaders.length := by
  obtain ⟨ys, hys, hperm⟩ := dragEndItems_perm s.tableHeaders activeId overId hne
  unfold handleDragEnd
  split
  · exact ⟨s, rfl, List.Perm.refl _, rfl⟩
  · split
    · exact ⟨s, rfl, List.Perm.refl _, rfl⟩
    · split
      · refine ⟨{ s with tableHeaders := ys, hasUnsavedChanges := true }, ?_, hperm, hperm.length_eq⟩
        simp only [hys, definedEntries_map_some, Option.map_some']
      · exact ⟨s, rfl, List.Perm.refl _, rfl⟩

/-- C5 at the default columns in drag mode, with an `overId` that no column
has. -/
theorem C5_reorder_is_permutation_witness :
    defaultDragState.tableHeaders ≠ [] ∧
      ∃ s', handleDragEnd defaultDragState "name" (some "missing") = some s' ∧
        s'.tableHeaders.Perm defaultDragState.tableHeaders ∧
        s'.tableHeaders.length = defaultDragState.tableHeaders.length :=
  ⟨by decide, C5_reorder_is_permutation defaultDragState "name" "missing" (by decide)⟩

/-- C6: `handleDragEnd` returns the state unchanged when `activeId` equals
`overId` and when edit mode and drag mode are not both active.  In every other
case each resulting state has `hasUnsavedChanges` set, and there is a
resulting state whenever the header list is non-empty. -/
theorem C6_reorder_frame (s : State) (activeId overId : String) :
    (activeId = overId → handleDragEnd s activeId (some overId) = some s) ∧
    (¬ (s.isEditTableMode = true ∧ s.dragDropMode = true) →
      handleDragEnd s activeId (some overId) = some s) ∧
    (activeId ≠ overId → s.isEditTableMode = true → s.dragDropMode = true →
      (∀ s', handleDragEnd s activeId (some overId) = some s' → s'.hasUnsavedChanges = true) ∧
      (s.tableHeaders ≠ [] →
        ∃ s', handleDragEnd s activeId (some overId) = some s' ∧ s'.hasUnsavedChanges = true)) := by
  refine ⟨?_, ?_, ?_⟩
  · intro h
    subst h
    unfold handleDragEnd
    split
    · rfl
    · split
      · rfl
      · simp
  · intro h
    unfold handleDragEnd
    cases hd : s.dragDropMode
    · simp
    · cases he : s.isEditTableMode
      · simp
      · exact absurd ⟨he, hd⟩ h
  · intro hne he hd
    have hstep : handleDragEnd s activeId (some overId) =
        (definedEntries (dragEndItems s.tableHeaders activeId overId)).map fun items =>
          { s with tableHeaders := items, hasUnsavedChanges := true } := by
      unfold handleDragEnd
      simp [he, hd, hne]
    refine ⟨?_, ?_⟩
    · intro s' hs'
      rw [hstep] at hs'
      obtain ⟨items, -, rfl⟩ := Option.map_eq_some'.mp hs'
      rfl
    · intro hlist
      obtain ⟨ys, hys, -⟩ := dragEndItems_perm s.tableHeaders activeId overId hlist
      refine ⟨{ s with tableHeaders := ys, hasUnsavedChanges := true }, ?_, rfl⟩
      rw [hstep, hys, definedEntries_map_some]
      rfl

/-- C6 at the default columns in drag mode: dragging `name` onto `contact`. -/
theorem C6_reorder_frame_witness :
    "name" ≠ "contact" ∧ defaultDragState.isEditTableMode = true ∧
      defaultDragState.dragDropMode = true ∧ defaultDragState.tableHeaders ≠ [] ∧
      ∃ s', handleDragEnd defaultDragState "name" (some "contact") = some s' ∧
        s'.hasUnsavedChanges = true :=
  ⟨by decide, rfl, rfl, by decide,
    ((C6_reorder_frame defaultDragState "name" "contact").2.2 (by decide) rfl rfl).2 (by decide)⟩

/-! ## Saving -/

/-- C7: when `saveTableConfig` succeeds and every staged index is an index of
the draft, `saveTableConfiguration` makes exactly one `saveTableConfig` call,
with the draft minus the columns at the staged indices in draft order;
afterwards the draft and the original both are that list,
`hasUnsavedChanges` is false, `columnsToDelete` is empty, and delete-column
mode and edit mode are off. -/
theorem C7_save_success (s : State) (cleanupOk fetchOk : Bool)
    (hidx : ∀ i ∈ s.columnsToDelete, i < s.tableHeaders.length) :
    (saveTableConfiguration s true cleanupOk fetchOk).2.filter isSaveCall
        = [Call.saveTableConfig
            ((draftWithoutStaged s.tableHeaders s.columnsToDelete).map (fun h => h.val))] ∧
      (saveTableConfiguration s true cleanupOk fetchOk).1.tableHeaders
        = draftWithoutStaged s.tableHeaders s.columnsToDelete ∧
      (saveTableConfiguration s true cleanupOk fetchOk).1.originalTableHeaders
        = draftWithoutStaged s.tableHeaders s.columnsToDelete ∧
      (saveTableConfiguration s true cleanupOk fetchOk).1.hasUnsavedChanges = false ∧
      (saveTableConfiguration s true cleanupOk fetchOk).1.columnsToDelete = [] ∧
      (saveTableConfiguration s true cleanupOk fetchOk).1.deleteColumnMode = false ∧
      (saveTableConfiguration s true cleanupOk fetchOk).1.isEditTableMode = false := by
  obtain ⟨fields, hf, -⟩ := deletedFields_of_lt s.tableHeaders s.columnsToDelete hidx
  unfold saveTableConfiguration
  simp only [newHeaders_eq, hf, Bool.not_true, Bool.false_eq_true, if_false]
  by_cases hlen : s.columnsToDelete.length > 0
  · cases cleanupOk <;>
      simp [hlen, commitSaved, fetchAppointments, isSaveCall, List.filter]
  · simp [hlen, commitSaved, isSaveCall, List.filter]

/-- C7 at `stagedCustomOne`, where the column at index 3 is staged. -/
theorem C7_save_success_witness :
    (∀ i ∈ stagedCustomOne.columnsToDelete, i < stagedCustomOne.tableHeaders.length) ∧
      ((saveTableConfiguration stagedCustomOne true true true).2.filter isSaveCall
        = [Call.saveTableConfig
            ((draftWithoutStaged stagedCustomOne.tableHeaders
              stagedCustomOne.columnsToDelete).map (fun h => h.val))] ∧
      (saveTableConfiguration stagedCustomOne true true true).1.tableHeaders
        = draftWithoutStaged stagedCustomOne.tableHeaders stagedCustomOne.columnsToDelete ∧
      (saveTableConfiguration stagedCustomOne true true true).1.originalTableHeaders
        = draftWithoutStaged stagedCustomOne.tableHeaders stagedCustomOne.columnsToDelete ∧
      (saveTableConfiguration stagedCustomOne true true true).1.hasUnsavedChanges = false ∧
      (saveTableConfiguration stagedCustomOne true true true).1.columnsToDelete = [] ∧
      (saveTableConfiguration stagedCustomOne true true true).1.deleteColumnMode = false ∧
      (saveTableConfiguration stagedCustomOne true true true).1.isEditTableMode = false) :=
  ⟨by decide, C7_save_success stagedCustomOne true true (by decide)⟩

/-- C8: when the header save succeeds, every staged index is an index of the
draft and at least one column is staged, `saveTableConfiguration` makes
exactly one `cleanupColumns` call, whose argument lists the fields of the
draft columns at the staged indices, in staging order, whether the cleanup
then succeeds or not; when nothing is staged it makes no `cleanupColumns`
call, whatever the outcome of the header save. -/
theorem C8_cleanup_called_once (s : State) (cleanupOk fetchOk : Bool)
    (hidx : ∀ i ∈ s.columnsToDelete, i < s.tableHeaders.length) :
    (s.columnsToDelete ≠ [] →
      ∃ fields : List String,
        (saveTableConfiguration s true cleanupOk fetchOk).2.filter isCleanupCall
          = [Call.cleanupColumns fields] ∧
        fields.map some
          = s.columnsToDelete.map (fun i => s.tableHeaders[i]?.map (fun h => h.val.field))) ∧
    (s.columnsToDelete = [] → ∀ saveOk : Bool,
      (saveTableConfiguration s saveOk cleanupOk fetchOk).2.filter isCleanupCall = []) := by
  refine ⟨?_, ?_⟩
  · intro hne
    obtain ⟨fields, hf, hmap⟩ := deletedFields_of_lt s.tableHeaders s.columnsToDelete hidx
    have hlen : s.columnsToDelete.length > 0 := List.length_pos.mpr hne
    refine ⟨fields, ?_, hmap⟩
    unfold saveTableConfiguration
    cases cleanupOk <;>
      simp [hlen, hf, fetchAppointments, isCleanupCall, List.filter]
  · intro hnil saveOk
    unfold saveTableConfiguration
    cases saveOk <;> simp [hnil, isCleanupCall, List.filter]

/-- C8 at `stagedCustomOne`: the staged column has field `custom_1` and the
single `cleanupColumns` call has the argument `["custom_1"]`. -/
theorem C8_cleanup_called_once_witness :
    (∀ i ∈ stagedCustomOne.columnsToDelete, i < stagedCustomOne.tableHeaders.length) ∧
      stagedCustomOne.columnsToDelete ≠ [] ∧
      (saveTableConfiguration stagedCustomOne true true true).2.filter isCleanupCall
        = [Call.cleanupColumns ["custom_1"]] ∧
      ∃ fields : List String,
        (saveTableConfiguration stagedCustomOne true true true).2.filter isCleanupCall
          = [Call.cleanupColumns fields] ∧
        fields.map some = stagedCustomOne.columnsToDelete.map
          (fun i => stagedCustomOne.tableHeaders[i]?.map (fun h => h.val.field)) :=
  ⟨by decide, by decide, by decide,
    (C8_cleanup_called_once stagedCustomOne true true (by decide)).1 (by decide)⟩

/-- C9 (as stated, refuted): at `stagedCustomOne`, with the header save
succeeding and `cleanupColumns` failing, the calls made are `saveTableConfig`
and `cleanupColumns` only: `getAllAppointments` is not called. -/
theorem C9_no_refresh_after_failed_cleanup :
    (saveTableConfiguration stagedCustomOne true false true).2
        = [Call.saveTableConfig
            ((draftWithoutStaged stagedCustomOne.tableHeaders
              stagedCustomOne.columnsToDelete).map (fun h => h.val)),
           Call.cleanupColumns ["custom_1"]] ∧
      ¬ Call.getAllAppointments ∈ (saveTableConfiguration stagedCustomOne true false true).2 := by
  decide

/-- C9 (amended): when the header save succeeds and `cleanupColumns` fails,
with every staged index an index of the draft, `saveTableConfiguration` still
ends as a success: the persisted list is the new draft and the new original,
`hasUnsavedChanges` is cleared, staging is empty, edit mode is exited, the
success message is set and the error message is left as it was; no
`getAllAppointments` call is made, and with a column staged the calls are
`saveTableConfig` followed by `cleanupColumns`. -/
theorem C9_cleanup_failure_is_not_fatal (s : State) (fetchOk : Bool)
    (hidx : ∀ i ∈ s.columnsToDelete, i < s.tableHeaders.length) :
    (saveTableConfiguration s true false fetchOk).1.tableHeaders
        = draftWithoutStaged s.tableHeaders s.columnsToDelete ∧
      (saveTableConfiguration s true false fetchOk).1.originalTableHeaders
        = draftWithoutStaged s.tableHeaders s.columnsToDelete ∧
      (saveTableConfiguration s true false fetchOk).1.hasUnsavedChanges = false ∧
      (saveTableConfiguration s true false fetchOk).1.columnsToDelete = [] ∧
      (saveTableConfiguration s true false fetchOk).1.isEditTableMode = false ∧
      (saveTableConfiguration s true false fetchOk).1.success
        = "Table configuration saved successfully!" ∧
      (saveTableConfiguration s true false fetchOk).1.error = s.error ∧
      ¬ Call.getAllAppointments ∈ (saveTableConfiguration s true false fetchOk).2 ∧
      (s.columnsToDelete ≠ [] → ∃ fields : List String,
        (saveTableConfiguration s true false fetchOk).2
          = [Call.saveTableConfig
              ((draftWithoutStaged s.tableHeaders s.columnsToDelete).map (fun h => h.val)),
             Call.cleanupColumns fields]) := by
  obtain ⟨fields, hf, -⟩ := deletedFields_of_lt s.tableHeaders s.columnsToDelete hidx
  unfold saveTableConfiguration
  simp only [newHeaders_eq, hf, Bool.not_true, Bool.false_eq_true, if_false]
  by_cases hlen : s.columnsToDelete.length > 0
  · have hne : s.columnsToDelete ≠ [] := List.length_pos.mp hlen
    simp [hlen, hne, commitSaved]
  · have hnil : s.columnsToDelete = [] := List.length_eq_zero.mp (by omega)
    simp [hnil, commitSaved]

/-- C9 (amended) at `stagedCustomOne`. -/
theorem C9_cleanup_failure_is_not_fatal_witness :
    (∀ i ∈ stagedCustomOne.columnsToDelete, i < stagedCustomOne.tableHeaders.length) ∧
      (saveTableConfiguration stagedCustomOne true false true).1.hasUnsavedChanges = false ∧
      (saveTableConfiguration stagedCustomOne true false true).1.isEditTableMode = false ∧
      ¬ Call.getAllAppointments ∈ (saveTableConfiguration stagedCustomOne true false true).2 :=
  ⟨by decide,
    (C9_cleanup_failure_is_not_fatal stagedCustomOne true (by decide)).2.2.1,
    (C9_cleanup_failure_is_not_fatal stagedCustomOne true (by decide)).2.2.2.2.1,
    (C9_cleanup_failure_is_not_fatal stagedCustomOne true (by decide)).2.2.2.2.2.2.2.1⟩

/-- C10: when `saveTableConfig` fails, `saveTableConfiguration` leaves the
draft, the original, the staging set, `hasUnsavedChanges` and edit mode as
they were, sets the error message `Failed to save table configuration`, and
makes the `saveTableConfig` call only, so no `cleanupColumns` call. -/
theorem C10_save_failure_keeps_draft (s : State) (cleanupOk fetchOk : Bool) :
    (saveTableConfiguration s false cleanupOk fetchOk).1.tableHeaders = s.tableHeaders ∧
      (saveTableConfiguration s false cleanupOk fetchOk).1.originalTableHeaders
        = s.originalTableHeaders ∧
      (saveTableConfiguration s false cleanupOk fetchOk).1.columnsToDelete = s.columnsToDelete ∧
      (saveTableConfiguration s false cleanupOk fetchOk).1.hasUnsavedChanges
        = s.hasUnsavedChanges ∧
      (saveTableConfiguration s false cleanupOk fetchOk).1.isEditTableMode = s.isEditTableMode ∧
      (saveTableConfiguration s false cleanupOk fetchOk).1.deleteColumnMode
        = s.deleteColumnMode ∧
      (saveTableConfiguration s false cleanupOk fetchOk).1.error
        = "Failed to save table configuration" ∧
      (saveTableConfiguration s false cleanupOk fetchOk).2.filter isCleanupCall = [] ∧
      (saveTableConfiguration s false cleanupOk fetchOk).2
        = [Call.saveTableConfig
            ((draftWithoutStaged s.tableHeaders s.columnsToDelete).map (fun h => h.val))] := by
  unfold saveTableConfiguration
  simp [newHeaders_eq, failSave, isCleanupCall, List.filter]

/-! ## Cancelling -/

theorem step_draftEdit_frame {s s' : State} {e : Event} {calls : List Call}
    (he : isDraftEdit e = true) (h : step s e = some (s', calls)) :
    s'.originalTableHeaders = s.originalTableHeaders ∧ calls = [] := by
  cases e with
  | toggleEdit =>
    simp only [step, Option.some.injEq, Prod.mk.injEq] at h
    obtain ⟨rfl, rfl⟩ := h
    refine ⟨?_, rfl⟩
    unfold toggleEditTableMode
    split <;> rfl
  | deleteMode =>
    simp only [step, Option.some.injEq, Prod.mk.injEq] at h
    obtain ⟨rfl, rfl⟩ := h
    refine ⟨?_, rfl⟩
    unfold clickDeleteColumn
    split <;> rfl
  | dragMode =>
    simp only [step, Option.some.injEq, Prod.mk.injEq] at h
    obtain ⟨rfl, rfl⟩ := h
    refine ⟨?_, rfl⟩
    unfold clickDragDrop
    split <;> rfl
  | reorder activeId overId =>
    simp only [step] at h
    obtain ⟨t, ht, heq⟩ := Option.map_eq_some'.mp h
    simp only [Prod.mk.injEq] at heq
    obtain ⟨rfl, rfl⟩ := heq
    refine ⟨?_, rfl⟩
    unfold handleDragEnd at ht
    split at ht
    · cases ht; rfl
    · split at ht
      · cases ht; rfl
      · split at ht
        · cases overId with
          | none => cases ht
          | some o =>
            obtain ⟨items, -, rfl⟩ := Option.map_eq_some'.mp ht
            rfl
        · cases ht; rfl
  | renameHeader index newValue => cases he
  | addColumn now =>
    simp only [step, Option.some.injEq, Prod.mk.injEq] at h
    obtain ⟨rfl, rfl⟩ := h
    exact ⟨rfl, rfl⟩
  | stageDelete index =>
    simp only [step, Option.some.injEq, Prod.mk.injEq] at h
    obtain ⟨rfl, rfl⟩ := h
    refine ⟨?_, rfl⟩
    unfold handleHeaderDeleteToggle
    split
    · rfl
    · split
      · rfl
      · split
        · rfl
        · split <;> rfl
  | save saveOk cleanupOk fetchOk => cases he
  | cancel => cases he

theorem run_draftEdits_frame (events : List Event) :
    ∀ (s s' : State) (calls : List Call), (∀ e ∈ events, isDraftEdit e = true) →
      run s events = some (s', calls) →
      s'.originalTableHeaders = s.originalTableHeaders ∧ calls = [] := by
  induction events with
  | nil =>
    intro s s' calls _ h
    simp only [run, Option.some.injEq, Prod.mk.injEq] at h
    obtain ⟨rfl, rfl⟩ := h
    exact ⟨rfl, rfl⟩
  | cons e rest ih =>
    intro s s' calls hall h
    simp only [run] at h
    obtain ⟨r1, hstep, h⟩ := Option.bind_eq_some.mp h
    obtain ⟨r2, hrun, heq⟩ := Option.map_eq_some'.mp h
    obtain ⟨s1, c1⟩ := r1
    obtain ⟨s2, c2⟩ := r2
    simp only [Prod.mk.injEq] at heq
    obtain ⟨rfl, rfl⟩ := heq
    obtain ⟨h1, rfl⟩ := step_draftEdit_frame (hall e (List.mem_cons_self _ _)) hstep
    obtain ⟨h2, rfl⟩ := ih s1 s2 c2 (fun e' he' => hall e' (List.mem_cons_of_mem _ he')) hrun
    exact ⟨h2.trans h1, rfl⟩

theorem run_append (s : State) (xs ys : List Event) :
    run s (xs ++ ys) =
      (run s xs).bind fun r => (run r.1 ys).map fun r' => (r'.1, r.2 ++ r'.2) := by
  induction xs generalizing s with
  | nil =>
    simp only [List.nil_append, run, Option.some_bind]
    cases run s ys with
    | none => rfl
    | some r => rfl
  | cons e rest ih =>
    have h1 : run s (e :: (rest ++ ys)) = (step s e).bind fun r =>
        (run r.1 (rest ++ ys)).map fun r' => (r'.1, r.2 ++ r'.2) := rfl
    have h2 : run s (e :: rest) = (step s e).bind fun r =>
        (run r.1 rest).map fun r' => (r'.1, r.2 ++ r'.2) := rfl
    rw [List.cons_append, h1, h2]
    cases step s e with
    | none => rfl
    | some r1 =>
      simp only [Option.some_bind, ih]
      cases run r1.1 rest with
      | none => rfl
      | some r2 =>
        simp only [Option.some_bind, Option.map_some']
        cases run r2.1 ys <;> simp [List.append_assoc]

/-- On a non-empty header list a drag that ends on a drop target leaves the
component alive and the header list as long as it was. -/
theorem handleDragEnd_isSome (s : State) (activeId overId : String)
    (hne : s.tableHeaders ≠ []) :
    ∃ s', handleDragEnd s activeId (some overId) = some s' ∧
      s'.tableHeaders.length = s.tableHeaders.length := by
  obtain ⟨ys, hys, hperm⟩ := dragEndItems_perm s.tableHeaders activeId overId hne
  unfold handleDragEnd
  split
  · exact ⟨s, rfl, rfl⟩
  · split
    · exact ⟨s, rfl, rfl⟩
    · split
      · refine ⟨{ s with tableHeaders := ys, hasUnsavedChanges := true }, ?_, hperm.length_eq⟩
        simp only [hys, definedEntries_map_some, Option.map_some']
      · exact ⟨s, rfl, rfl⟩

theorem step_draftEdit_isSome {s : State} {e : Event} (he : isDraftEdit e = true)
    (hout : dropsOutside e = false) (hne : s.tableHeaders ≠ []) :
    ∃ s' calls, step s e = some (s', calls) ∧ s'.tableHeaders ≠ [] := by
  cases e with
  | toggleEdit =>
    exact ⟨_, _, rfl, by rw [(toggleEditTableMode_frame s).1]; exact hne⟩
  | deleteMode =>
    exact ⟨_, _, rfl, by rw [(clickDeleteColumn_frame s).1]; exact hne⟩
  | dragMode =>
    exact ⟨_, _, rfl, by rw [(clickDragDrop_frame s).1]; exact hne⟩
  | reorder activeId overId =>
    cases overId with
    | none => cases hout
    | some o =>
      obtain ⟨s', hs', hlen⟩ := handleDragEnd_isSome s activeId o hne
      refine ⟨s', [], by simp [step, hs'], ?_⟩
      intro hnil
      rw [hnil] at hlen
      exact hne (List.length_eq_zero.mp hlen.symm)
  | renameHeader index newValue => cases he
  | addColumn now =>
    refine ⟨_, _, rfl, ?_⟩
    intro hnil
    have := (addNewTableHeader_frame s now).1
    rw [hnil] at this
    simp at this
  | stageDelete index =>
    exact ⟨_, _, rfl, by rw [(handleHeaderDeleteToggle_frame s index).1]; exact hne⟩
  | save saveOk cleanupOk fetchOk => cases he
  | cancel => cases he

theorem run_draftEdits_isSome (events : List Event) :
    ∀ (s : State), (∀ e ∈ events, isDraftEdit e = true) →
      (∀ e ∈ events, dropsOutside e = false) → s.tableHeaders ≠ [] →
      ∃ s' calls, run s events = some (s', calls) := by
  induction events with
  | nil => intro s _ _ _; exact ⟨s, [], rfl⟩
  | cons e rest ih =>
    intro s hall hout hne
    obtain ⟨s1, c1, hstep, hne1⟩ := step_draftEdit_isSome (hall e (List.mem_cons_self _ _))
      (hout e (List.mem_cons_self _ _)) hne
    obtain ⟨s2, c2, hrun⟩ := ih s1 (fun e' he' => hall e' (List.mem_cons_of_mem _ he'))
      (fun e' he' => hout e' (List.mem_cons_of_mem _ he')) hne1
    exact ⟨s2, c1 ++ c2, by simp [run, hstep, hrun]⟩

/-- C11: from a state whose draft equals the original, any sequence of
`addColumn`, `reorder` and `stageDelete` events (and of the mode buttons that
enable them) followed by `cancel` ends, whenever the component survives the
sequence, with the draft equal to the draft before the edits, an empty
staging set, `hasUnsavedChanges` false and edit mode off, and makes no
collaborator call at all.  The component survives every such sequence on a
non-empty header list whose drags end on a drop target. -/
theorem C11_cancel_restores_draft (s0 : State) (events : List Event)
    (hloaded : s0.tableHeaders = s0.originalTableHeaders)
    (hedits : ∀ e ∈ events, isDraftEdit e = true) :
    (∀ s calls, run s0 (events ++ [Event.cancel]) = some (s, calls) →
      s.tableHeaders = s0.tableHeaders ∧ s.columnsToDelete = [] ∧
        s.hasUnsavedChanges = false ∧ s.isEditTableMode = false ∧ calls = []) ∧
    (s0.tableHeaders ≠ [] → (∀ e ∈ events, dropsOutside e = false) →
      ∃ s calls, run s0 (events ++ [Event.cancel]) = some (s, calls)) := by
  refine ⟨?_, ?_⟩
  · intro s calls h
    rw [run_append] at h
    obtain ⟨r, hrun, h⟩ := Option.bind_eq_some.mp h
    obtain ⟨s1, c1⟩ := r
    obtain ⟨horig, rfl⟩ := run_draftEdits_frame events s0 s1 c1 hedits hrun
    simp [run, step] at h
    obtain ⟨rfl, rfl⟩ := h
    refine ⟨?_, rfl, rfl, rfl, rfl⟩
    show s1.originalTableHeaders = s0.tableHeaders
    rw [horig, hloaded]
  · intro hne hout
    obtain ⟨s1, c1, hrun⟩ := run_draftEdits_isSome events s0 hedits hout hne
    refine ⟨cancelTableChanges s1, c1 ++ ([] ++ []), ?_⟩
    rw [run_append, hrun]
    rfl

/-- C11 at the loaded configuration `twoCustomColumns` with the editing
session `sampleEdits`. -/
theorem C11_cancel_restores_draft_witness :
    (loadedState twoCustomColumns).tableHeaders
        = (loadedState twoCustomColumns).originalTableHeaders ∧
      (∀ e ∈ sampleEdits, isDraftEdit e = true) ∧
      (loadedState twoCustomColumns).tableHeaders ≠ [] ∧
      (∀ e ∈ sampleEdits, dropsOutside e = false) ∧
      ∃ s calls, run (loadedState twoCustomColumns) (sampleEdits ++ [Event.cancel])
        = some (s, calls) :=
  ⟨rfl, by decide, by decide, by decide,
    (C11_cancel_restores_draft (loadedState twoCustomColumns) sampleEdits rfl (by decide)).2
      (by decide) (by decide)⟩

/-- C12 (evaluation at the failing input): after the default configuration is
loaded, `handleHeaderEdit(0, "Client")` writes the label into the header
object that the draft and the original share, so `originalTableHeaders` holds
`Client` after the rename and `cancelTableChanges` leaves the first column
labelled `Client`, not `Full Name`. -/
theorem C12_rename_survives_cancel :
    ((loadedState defaultHeaders).tableHeaders[0]?).map (fun h => h.val.label)
        = some "Full Name" ∧
      (renamedFirstColumn.tableHeaders[0]?).map (fun h => h.val.label) = some "Client" ∧
      (renamedFirstColumn.originalTableHeaders[0]?).map (fun h => h.val.label)
        = some "Client" ∧
      ((cancelTableChanges renamedFirstColumn).tableHeaders[0]?).map (fun h => h.val.label)
        = some "Client" := by
  decide

/-! ## Loading -/

theorem allocate_map_val (start : Nat) (headers : List Header) :
    (allocate start headers).map (fun h => h.val) = headers := by
  induction headers generalizing start with
  | nil => rfl
  | cons h hs ih => simp [allocate, ih]

/-- C13 (as stated, refuted): for the persisted config `[name, date]` the
migration keeps `[name]`, which has no `bookingDate` column, and the Booking
Date descriptor lands at index 1: the loaded list is `[name, bookingDate]` and
has no entry at index 2. -/
theorem C13_short_legacy_not_at_index_two :
    (shortLegacyConfig.any fun h => h.field == "date" || h.field == "time") = true ∧
      (loadTableConfig initialState (ConfigResponse.config shortLegacyConfig)).1.tableHeaders.map
        (fun h => h.val.field) = ["name", "bookingDate"] ∧
      ¬ ((loadTableConfig initialState (ConfigResponse.config shortLegacyConfig)).1.tableHeaders[2]?).map
        (fun h => h.val) = some bookingDateHeader := by
  decide

/-- C13 (amended): for a persisted config with a `date` or `time` column,
`loadTableConfig` sets the draft and the original to one list `result` and
makes one `saveTableConfig` call, with `result`.  With `kept` the config
without its `date` and `time` columns, `result` is `kept` when `kept` has a
`bookingDate` column; otherwise `result` is `kept` with the Booking Date
descriptor inserted at index 2, or at the end of `kept` when `kept` has fewer
than two columns.  The legacy list `[name, contact, date, time, status,
actions]` becomes `[name, contact, bookingDate, status, actions]`.  A config
without a `date` or `time` column is loaded unchanged with no
`saveTableConfig` call. -/
theorem C13_load_migrates_legacy (s : State) (headers : List Header) :
    ((∃ h ∈ headers, h.field = "date" ∨ h.field = "time") →
      ∃ result : List Header,
        (loadTableConfig s (ConfigResponse.config headers)).2
          = [Call.getTableConfig, Call.saveTableConfig result] ∧
        (loadTableConfig s (ConfigResponse.config headers)).1.tableHeaders.map (fun h => h.val)
          = result ∧
        (loadTableConfig s (ConfigResponse.config headers)).1.originalTableHeaders
          = (loadTableConfig s (ConfigResponse.config headers)).1.tableHeaders ∧
        ((∃ h ∈ headers.filter (fun h => h.field != "date" && h.field != "time"),
            h.field = "bookingDate") →
          result = headers.filter (fun h => h.field != "date" && h.field != "time")) ∧
        ((∀ h ∈ headers.filter (fun h => h.field != "date" && h.field != "time"),
            h.field ≠ "bookingDate") →
          result[min 2 (headers.filter (fun h => h.field != "date" && h.field != "time")).length]?
            = some bookingDateHeader ∧
          result.eraseIdx
              (min 2 (headers.filter (fun h => h.field != "date" && h.field != "time")).length)
            = headers.filter (fun h => h.field != "date" && h.field != "time"))) ∧
    ((∀ h ∈ headers, h.field ≠ "date" ∧ h.field ≠ "time") →
      (loadTableConfig s (ConfigResponse.config headers)).2 = [Call.getTableConfig] ∧
        (loadTableConfig s (ConfigResponse.config headers)).1.tableHeaders.map (fun h => h.val)
          = headers ∧
        (loadTableConfig s (ConfigResponse.config headers)).1.originalTableHeaders
          = (loadTableConfig s (ConfigResponse.config headers)).1.tableHeaders) ∧
    (loadTableConfig initialState (ConfigResponse.config legacyConfig)).1.tableHeaders.map
        (fun h => h.val.field) = ["name", "contactNumber", "bookingDate", "status", "actions"] ∧
    (loadTableConfig initialState (ConfigResponse.config legacyConfig)).2
      = [Call.getTableConfig, Call.saveTableConfig
          [ { id := "name", label := "Full Name", field := "name", editable := true },
            { id := "contact", label := "Contact Number", field := "contactNumber",
              editable := true },
            bookingDateHeader,
            { id := "status", label := "Status", field := "status", editable := false },
            { id := "actions", label := "Actions", field := "actions", editable := false } ]] := by
  refine ⟨?_, ?_, by decide, by decide⟩
  · rintro ⟨h, hmem, hfield⟩
    have hany : (headers.any fun header => header.field == "date" || header.field == "time")
        = true := by
      rw [List.any_eq_true]
      exact ⟨h, hmem, by rcases hfield with hf | hf <;> simp [hf]⟩
    refine ⟨migrateHeaders headers, ?_, ?_, ?_, ?_, ?_⟩
    · simp [loadTableConfig, hany]
    · simp only [loadTableConfig, hany, if_true]
      exact allocate_map_val _ _
    · simp [loadTableConfig, hany]
    · rintro ⟨b, hb, hbf⟩
      have : ((headers.filter (fun h => h.field != "date" && h.field != "time")).any
          fun header => header.field == "bookingDate") = true := by
        rw [List.any_eq_true]
        exact ⟨b, hb, by simp [hbf]⟩
      simp [migrateHeaders, this]
    · intro hnone
      have : ((headers.filter (fun h => h.field != "date" && h.field != "time")).any
          fun header => header.field == "bookingDate") = false := by
        rw [List.any_eq_false]
        intro x hx
        simpa using hnone x hx
      have hstart : spliceStart
          (headers.filter (fun h => h.field != "date" && h.field != "time")).length 2
          = min 2 (headers.filter (fun h => h.field != "date" && h.field != "time")).length := by
        unfold spliceStart
        simp
      simp only [migrateHeaders, this, Bool.not_false, if_true, spliceInsert, hstart]
      exact ⟨insertAt_getElem? _ _ (Nat.min_le_right _ _) _,
        insertAt_eraseIdx _ _ (Nat.min_le_right _ _) _⟩
  · intro hnone
    have hany : (headers.any fun header => header.field == "date" || header.field == "time")
        = false := by
      rw [List.any_eq_false]
      intro x hx
      have := hnone x hx
      simp [this.1, this.2]
    refine ⟨?_, ?_, ?_⟩
    · simp [loadTableConfig, hany]
    · simp only [loadTableConfig, hany]
      exact allocate_map_val _ _
    · simp [loadTableConfig, hany]

/-- C13 (amended) at the legacy configuration, whose third column has field
`date`. -/
theorem C13_load_migrates_legacy_witness :
    (∃ h ∈ legacyConfig, h.field = "date" ∨ h.field = "time") ∧
      ∃ result : List Header,
        (loadTableConfig initialState (ConfigResponse.config legacyConfig)).2
          = [Call.getTableConfig, Call.saveTableConfig result] ∧
        (loadTableConfig initialState (ConfigResponse.config legacyConfig)).1.tableHeaders.map
          (fun h => h.val) = result :=
  ⟨⟨{ id := "date", label := "Date", field := "date", editable := true }, by decide, by decide⟩,
    by
      obtain ⟨result, h1, h2, -⟩ :=
        (C13_load_migrates_legacy initialState legacyConfig).1
          ⟨{ id := "date", label := "Date", field := "date", editable := true },
            by decide, by decide⟩
      exact ⟨result, h1, h2⟩⟩

/-- C14 (as stated, refuted): the default columns with the first label cleared
are a list of descriptors without a `date` or `time` column, but the `label`
validator rejects it: the save call fails, and the load that follows yields
the default columns (nothing stored before) or the previously stored list, not
the submitted one. -/
theorem C14_empty_label_is_not_saved :
    (∀ h ∈ clearedLabelConfig, h.field ≠ "date" ∧ h.field ≠ "time" ∧ h.deleted = none) ∧
      (saveThenLoad none initialState clearedLabelConfig).2.2.1 = false ∧
      (saveThenLoad none initialState clearedLabelConfig).2.1.tableHeaders.map (fun h => h.val)
        = defaultHeaders ∧
      (saveThenLoad (some twoCustomColumns) initialState clearedLabelConfig).2.1.tableHeaders.map
        (fun h => h.val) = twoCustomColumns ∧
      ¬ (saveThenLoad none initialState clearedLabelConfig).2.1.tableHeaders.map (fun h => h.val)
        = clearedLabelConfig := by
  decide

/-- C14 (amended): for every list of descriptors `{id, label, field,
editable}` with non-empty `id`, `label` and `field` and without a `date` or
`time` column, `saveTableConfig` resolves, the store holds the list, and the
`loadTableConfig` that follows sets the draft and the original to the same
descriptors in the same order and persists nothing, whatever was stored
before. -/
theorem C14_save_then_load_round_trip (store : ConfigStore) (s : State)
    (headers : List Header)
    (hshape : ∀ h ∈ headers, h.deleted = none)
    (hvalid : ∀ h ∈ headers, h.id ≠ "" ∧ h.label ≠ "" ∧ h.field ≠ "")
    (hlegacy : ∀ h ∈ headers, h.field ≠ "date" ∧ h.field ≠ "time") :
    (saveThenLoad store s headers).2.2.1 = true ∧
      (saveThenLoad store s headers).1 = some headers ∧
      (saveThenLoad store s headers).2.1.tableHeaders.map (fun h => h.val) = headers ∧
      (saveThenLoad store s headers).2.1.originalTableHeaders.map (fun h => h.val) = headers ∧
      (saveThenLoad store s headers).2.2.2 = [Call.getTableConfig] := by
  have hall : headers.all headerPassesSchema = true := by
    rw [List.all_eq_true]
    intro h hh
    obtain ⟨h1, h2, h3⟩ := hvalid h hh
    simp [headerPassesSchema, h1, h2, h3]
  have hcast : headers.map castHeader = headers := by
    conv_rhs => rw [← List.map_id headers]
    apply List.map_congr_left
    intro h hh
    have := hshape h hh
    cases h
    simp_all [castHeader]
  have hany : (headers.any fun header => header.field == "date" || header.field == "time")
      = false := by
    rw [List.any_eq_false]
    intro x hx
    have := hlegacy x hx
    simp [this.1, this.2]
  simp only [saveThenLoad, postTableConfig, hall, if_true, hcast, getTableConfigRoute,
    getTableConfig, loadTableConfig, hany, persistCalls, List.foldl_cons, List.foldl_nil]
  refine ⟨?_, ?_, ?_, ?_, ?_⟩ <;>
    first
      | exact allocate_map_val _ _
      | trivial

/-- C14 (amended) at `twoCustomColumns`, saved over a store that held the
default columns. -/
theorem C14_save_then_load_round_trip_witness :
    (∀ h ∈ twoCustomColumns, h.deleted = none) ∧
      (∀ h ∈ twoCustomColumns, h.id ≠ "" ∧ h.label ≠ "" ∧ h.field ≠ "") ∧
      (∀ h ∈ twoCustomColumns, h.field ≠ "date" ∧ h.field ≠ "time") ∧
      (saveThenLoad (some defaultHeaders) initialState twoCustomColumns).2.1.tableHeaders.map
        (fun h => h.val) = twoCustomColumns :=
  ⟨by decide, by decide, by decide,
    (C14_save_then_load_round_trip (some defaultHeaders) initialState twoCustomColumns
      (by decide) (by decide) (by decide)).2.2.1⟩

/-! ## Booking -/

/-- C15: a request that passes the validators and whose date parses is
answered with status 400 and `This time slot is already booked`, the
collection unchanged, when a stored appointment that is not cancelled has the
same date and time.  When no stored appointment has that date and time, and
the request also passes the schema validation (name and contact number
non-empty after trimming) and the date check of the pre-save hook, it is
answered with status 201 and the new appointment, stored with status
`Pending`, is appended to the collection. -/
theorem C15_double_booking_rejected (env : RequestEnv) (store : List Appointment)
    (body : AppointmentBody) (date : Int)
    (hname : body.name ≠ "") (hcontact : body.contactNumber ≠ "")
    (hiso : env.isISO8601 body.bookingDate = true) (htime : body.bookingTime ≠ "")
    (hdate : env.parseDate body.bookingDate = some date) :
    ((∃ a ∈ store, a.status ≠ Status.Cancelled ∧ a.bookingDate = date ∧
        a.bookingTime = body.bookingTime) →
      createAppointment env store body
        = (store, ⟨400, ResponseBody.message "This time slot is already booked"⟩)) ∧
    ((∀ a ∈ store, ¬ (a.bookingDate = date ∧ a.bookingTime = body.bookingTime)) →
      jsTrim body.name ≠ "" → jsTrim body.contactNumber ≠ "" → env.todayStart ≤ date →
      ∃ a : Appointment,
        createAppointment env store body = (store ++ [a], ⟨201, ResponseBody.appointment a⟩) ∧
        a.status = Status.Pending ∧ a.bookingDate = date ∧
        a.bookingTime = body.bookingTime) := by
  have herr : validationErrors env body = [] := by
    simp [validationErrors, hname, hcontact, hiso, htime]
  refine ⟨?_, ?_⟩
  · rintro ⟨a, ha, -, hd, ht⟩
    have hany : store.any (occupiesSlot date body.bookingTime) = true := by
      rw [List.any_eq_true]
      refine ⟨a, ha, ?_⟩
      cases hs : a.status <;> simp [occupiesSlot, hd, ht, hs, Status.text]
    simp [createAppointment, herr, hdate, hany]
  · intro hfree hn hc htoday
    have hany : store.any (occupiesSlot date body.bookingTime) = false := by
      rw [List.any_eq_false]
      intro a ha hocc
      simp only [occupiesSlot, Bool.and_eq_true, beq_iff_eq] at hocc
      exact hfree a ha ⟨hocc.1.1, hocc.1.2⟩
    refine ⟨{ _id := env.newId
              name := jsTrim body.name
              contactNumber := jsTrim body.contactNumber
              bookingDate := date
              bookingTime := body.bookingTime
              status := Status.Pending
              notes := body.notes.map jsTrim
              customFields := [] }, ?_, rfl, rfl, rfl⟩
    have hnot : ¬ date < env.todayStart := by omega
    simp [createAppointment, herr, hdate, hany, hn, hc, hnot]

/-- C15 at the sample request, against a collection holding a pending
appointment for the same slot. -/
theorem C15_double_booking_rejected_witness :
    (∃ a ∈ [{ cancelledAtTen with status := Status.Pending }],
        a.status ≠ Status.Cancelled ∧ a.bookingDate = 1894665600000 ∧
        a.bookingTime = tomorrowAtTen.bookingTime) ∧
      createAppointment sampleEnv [{ cancelledAtTen with status := Status.Pending }] tomorrowAtTen
        = ([{ cancelledAtTen with status := Status.Pending }],
            ⟨400, ResponseBody.message "This time slot is already booked"⟩) ∧
      ∃ a : Appointment,
        createAppointment sampleEnv [] tomorrowAtTen
          = ([] ++ [a], ⟨201, ResponseBody.appointment a⟩) ∧
        a.status = Status.Pending ∧ a.bookingDate = 1894665600000 ∧
        a.bookingTime = tomorrowAtTen.bookingTime :=
  ⟨by decide,
    (C15_double_booking_rejected sampleEnv [{ cancelledAtTen with status := Status.Pending }]
      tomorrowAtTen 1894665600000 (by decide) (by decide) (by decide) (by decide) rfl).1
      (by decide),
    (C15_double_booking_rejected sampleEnv [] tomorrowAtTen 1894665600000
      (by decide) (by decide) (by decide) (by decide) rfl).2
      (by decide) (by decide) (by decide) (by decide)⟩

/-- C16 (evaluation at the failing input): the only stored appointment for
15 January 2030 at 10:00 has status `Cancelled`; a request for that slot is
answered with status 400 and `This time slot is already booked`, and nothing
is stored.  The query excludes the status `cancelled`, which no stored
document has: the enum value is `Cancelled`. -/
theorem C16_cancelled_appointment_blocks_slot :
    cancelledAtTen.status = Status.Cancelled ∧
      sampleEnv.parseDate tomorrowAtTen.bookingDate = some cancelledAtTen.bookingDate ∧
      tomorrowAtTen.bookingTime = cancelledAtTen.bookingTime ∧
      createAppointment sampleEnv [cancelledAtTen] tomorrowAtTen
        = ([cancelledAtTen], ⟨400, ResponseBody.message "This time slot is already booked"⟩) ∧
      (∀ status : Status, (status.text != "cancelled") = true) := by
  refine ⟨rfl, by decide, rfl, by decide, ?_⟩
  intro status
  cases status <;> decide

/-- C17 (evaluation at the failing input): today starts at 1894579200000
(14 January 2030); a request for 15 January, one day later and so earlier than
two days after today, is answered with status 201 and stored, while the
booking form refuses the same date (`validateDateTime` with `minDate` two days
after the start of today). -/
theorem C17_tomorrow_is_accepted :
    sampleEnv.parseDate tomorrowAtTen.bookingDate = some (sampleEnv.todayStart + 86400000) ∧
      sampleEnv.todayStart + 86400000 < sampleEnv.todayStart + 2 * 86400000 ∧
      (createAppointment sampleEnv [] tomorrowAtTen).2.status = 201 ∧
      (createAppointment sampleEnv [] tomorrowAtTen).1.map (fun a => (a.bookingDate, a.bookingTime))
        = [(1894665600000, "10:00")] ∧
      validateDateTime (sampleEnv.todayStart + 2 * 86400000) (some (some 1894665600000, "10:00"))
        = (false, some "Cannot book past dates. Only 2+ days onward allowed.") := by
  decide

/-! ## Searching and sorting -/

theorem lexLt_irrefl (a : List Nat) : lexLt a a = false := by
  induction a with
  | nil => rfl
  | cons x xs ih => simp [lexLt, ih]

theorem lexLt_asymm : ∀ (a c : List Nat), lexLt a c = true → lexLt c a = false
  | [], [], h => by simp [lexLt] at h
  | [], _ :: _, _ => rfl
  | _ :: _, [], h => by simp [lexLt] at h
  | x :: xs, y :: ys, h => by
    simp only [lexLt, Bool.or_eq_true, decide_eq_true_eq, Bool.and_eq_true, beq_iff_eq] at h
    simp only [lexLt, Bool.or_eq_false_iff, decide_eq_false_iff_not, Bool.and_eq_false_imp,
      beq_iff_eq]
    rcases h with h | ⟨rfl, h⟩
    · exact ⟨by omega, fun hyx => by omega⟩
    · exact ⟨by omega, fun _ => lexLt_asymm xs ys h⟩

theorem lexLt_trans : ∀ (a c d : List Nat), lexLt a c = true → lexLt c d = true →
    lexLt a d = true
  | [], [], _, h, _ => by simp [lexLt] at h
  | [], _ :: _, [], _, h => by simp [lexLt] at h
  | [], _ :: _, _ :: _, _, _ => rfl
  | _ :: _, [], _, h, _ => by simp [lexLt] at h
  | _ :: _, _ :: _, [], _, h => by simp [lexLt] at h
  | x :: xs, y :: ys, z :: zs, h1, h2 => by
    simp only [lexLt, Bool.or_eq_true, decide_eq_true_eq, Bool.and_eq_true, beq_iff_eq] at h1 h2 ⊢
    rcases h1 with h1 | ⟨rfl, h1⟩
    · rcases h2 with h2 | ⟨rfl, -⟩
      · exact Or.inl (by omega)
      · exact Or.inl h1
    · rcases h2 with h2 | ⟨rfl, h2⟩
      · exact Or.inl h2
      · exact Or.inr ⟨rfl, lexLt_trans xs ys zs h1 h2⟩

theorem lexLt_connected : ∀ (a c : List Nat), lexLt a c = false → lexLt c a = false → a = c
  | [], [], _, _ => rfl
  | [], _ :: _, h, _ => by simp [lexLt] at h
  | _ :: _, [], _, h => by simp [lexLt] at h
  | x :: xs, y :: ys, h1, h2 => by
    simp only [lexLt, Bool.or_eq_false_iff, decide_eq_false_iff_not, Bool.and_eq_false_imp,
      beq_iff_eq] at h1 h2
    have hxy : x = y := by omega
    subst hxy
    rw [lexLt_connected xs ys (h1.2 rfl) (h2.2 rfl)]

/-- The order `key x ≤ key y` induced by `lexLt` through a key function is
total. -/
theorem keyLe_total {α : Type} (key : α → List Nat) (x y : α) :
    lexLt (key y) (key x) = false ∨ lexLt (key x) (key y) = false := by
  cases h : lexLt (key y) (key x)
  · exact Or.inl rfl
  · exact Or.inr (lexLt_asymm _ _ h)

/-- The order `key x ≤ key y` induced by `lexLt` through a key function is
transitive. -/
theorem keyLe_trans {α : Type} (key : α → List Nat) (x y z : α)
    (h1 : lexLt (key y) (key x) = false) (h2 : lexLt (key z) (key y) = false) :
    lexLt (key z) (key x) = false := by
  cases hzx : lexLt (key z) (key x)
  · rfl
  · exfalso
    cases hxy : lexLt (key x) (key y)
    · have heq := lexLt_connected _ _ hxy h1
      rw [heq] at hzx
      rw [hzx] at h2
      cases h2
    · have := lexLt_trans _ _ _ hzx hxy
      rw [this] at h2
      cases h2

/-- The key the comparator of `compareAppointments` orders by, for a sort
field other than `bookingDate`. -/
theorem staysBefore_asc (b : Builtins) (field : String) (hfield : field ≠ "bookingDate")
    (x y : AppointmentRow) :
    staysBefore (compareAppointments b field (some "asc")) x y ↔
      lexLt (utf16Units (b.toLowerCase (sortValue b y field)))
        (utf16Units (b.toLowerCase (sortValue b x field))) = false := by
  have hf : (field == "bookingDate") = false := by simpa using hfield
  unfold staysBefore compareAppointments jsStringLt
  simp only [hf, Bool.false_eq_true, if_false]
  cases h1 : lexLt (utf16Units (b.toLowerCase (sortValue b x field)))
      (utf16Units (b.toLowerCase (sortValue b y field)))
  · cases h2 : lexLt (utf16Units (b.toLowerCase (sortValue b y field)))
        (utf16Units (b.toLowerCase (sortValue b x field))) <;> simp
  · have h2 := lexLt_asymm _ _ h1
    simp [h2]

theorem staysBefore_desc (b : Builtins) (field : String) (hfield : field ≠ "bookingDate")
    (x y : AppointmentRow) :
    staysBefore (compareAppointments b field (some "desc")) x y ↔
      lexLt (utf16Units (b.toLowerCase (sortValue b x field)))
        (utf16Units (b.toLowerCase (sortValue b y field))) = false := by
  have hf : (field == "bookingDate") = false := by simpa using hfield
  unfold staysBefore compareAppointments jsStringLt
  simp only [hf, Bool.false_eq_true, if_false]
  cases h1 : lexLt (utf16Units (b.toLowerCase (sortValue b x field)))
      (utf16Units (b.toLowerCase (sortValue b y field)))
  · cases h2 : lexLt (utf16Units (b.toLowerCase (sortValue b y field)))
        (utf16Units (b.toLowerCase (sortValue b x field))) <;> simp
  · have h2 := lexLt_asymm _ _ h1
    simp [h2]

/-- A stable sort keeps the rows of each key in their input order: insertion
sort by a relation that holds between rows of equal key. -/
theorem insertionSort_filter_eq {α : Type} (r : α → α → Prop) [DecidableRel r]
    (p : α → Bool) (hr : ∀ x y, p x = true → p y = true → r x y) (l : List α) :
    (l.insertionSort r).filter p = l.filter p := by
  have hsub : (l.filter p).Sublist (l.insertionSort r) :=
    List.sublist_insertionSort
      (List.pairwise_of_forall_mem_list fun x hx y hy =>
        hr x y (List.mem_filter.mp hx).2 (List.mem_filter.mp hy).2)
      (List.filter_sublist l)
  have hsub2 : (l.filter p).Sublist ((l.insertionSort r).filter p) := by
    have := hsub.filter p
    simpa [List.filter_filter] using this
  have hlen : ((l.insertionSort r).filter p).length = (l.filter p).length :=
    ((List.perm_insertionSort r l).filter p).length_eq
  exact (hsub2.eq_of_length hlen.symm).symm

/-- C18: with no sort field, `computeVisibleRows` yields the appointments, in
their input order, for which some header other than `actions` has a value
(the formatted date and time for `bookingDate`, the empty string for a missing
value) whose lower-cased text contains the lower-cased search term.  For the
five sample rows and the term `0917` the result is the one row whose contact
number contains it.  The value of a column is `String(appointment[field])`
with the members inherited from `Object.prototype` and the text of a number
as the engine gives them: under a column with the field `constructor` the
term `native` keeps every sample row, and the term `e+21` finds the row whose
custom value is the number 1e21. -/
theorem C18_search_filter (b : Builtins) (appointments : List AppointmentRow)
    (tableHeaders : List Header) (searchTerm : String) :
    computeVisibleRows b appointments tableHeaders searchTerm none none
        = appointments.filter (fun a => decide (∃ header ∈ tableHeaders,
            header.field ≠ "actions" ∧
            jsIncludes (b.toLowerCase (searchValue b a header.field)).toList
              (b.toLowerCase searchTerm).toList = true)) ∧
      (computeVisibleRows b appointments tableHeaders searchTerm none none).Sublist
        appointments ∧
      sampleRows.length = 5 ∧
      computeVisibleRows sampleBuiltins sampleRows defaultHeaders "0917" none none
        = [sampleRow "65a000000000000000000012" "Ana Cruz" "09171234567"
            "2030-01-15T00:00:00.000Z" "10:00" "Pending"] ∧
      computeVisibleRows sampleBuiltins sampleRows constructorColumn "native" none none
        = sampleRows ∧
      (computeVisibleRows sampleBuiltins sampleRowsWithLargeNumber twoCustomColumns "e+21"
          none none).map (fun a => a._id)
        = ["65a000000000000000000012"] := by
  refine ⟨?_, List.filter_sublist _, rfl, by decide, by decide, by decide⟩
  simp only [computeVisibleRows]
  apply List.filter_congr
  intro a _
  simp only [matchesSearch]
  rw [Bool.eq_iff_iff]
  simp only [List.any_eq_true, decide_eq_true_eq]
  constructor
  · rintro ⟨header, hmem, h⟩
    by_cases hact : header.field = "actions"
    · simp [hact] at h
    · refine ⟨header, hmem, hact, ?_⟩
      simpa [hact] using h
  · rintro ⟨header, hmem, hact, h⟩
    exact ⟨header, hmem, by simpa [hact] using h⟩

/-- C19: for a sort field other than `bookingDate` and a direction `asc` or
`desc`, the rows of `computeVisibleRows` are a permutation of the filtered
rows; by the code units of the lower-cased string form of the field (empty for
a missing value) they are non-decreasing for `asc` and non-increasing for
`desc`; under both directions the rows of each key are in their input order;
and two `handleSort` calls on the same field return to the same sort state,
hence to the same rows. -/
theorem C19_sort_by_field (b : Builtins) (appointments : List AppointmentRow)
    (tableHeaders : List Header) (searchTerm field direction : String)
    (hset : field ≠ "") (hfield : field ≠ "bookingDate")
    (hdir : direction = "asc" ∨ direction = "desc") :
    (computeVisibleRows b appointments tableHeaders searchTerm (some field) (some direction)).Perm
        (appointments.filter (matchesSearch b tableHeaders searchTerm)) ∧
      (direction = "asc" →
        (computeVisibleRows b appointments tableHeaders searchTerm (some field)
          (some direction)).Pairwise fun x y =>
            lexLt (utf16Units (b.toLowerCase (sortValue b y field)))
              (utf16Units (b.toLowerCase (sortValue b x field))) = false) ∧
      (direction = "desc" →
        (computeVisibleRows b appointments tableHeaders searchTerm (some field)
          (some direction)).Pairwise fun x y =>
            lexLt (utf16Units (b.toLowerCase (sortValue b x field)))
              (utf16Units (b.toLowerCase (sortValue b y field))) = false) ∧
      (∀ key : List Nat,
        (computeVisibleRows b appointments tableHeaders searchTerm (some field)
          (some direction)).filter
            (fun a => utf16Units (b.toLowerCase (sortValue b a field)) == key)
          = (appointments.filter (matchesSearch b tableHeaders searchTerm)).filter
            (fun a => utf16Units (b.toLowerCase (sortValue b a field)) == key)) ∧
      (∀ st : SortState, st.sortField = some field → st.sortDirection = some direction →
        handleSort (handleSort st field) field = st) := by
  have hne : (field == "") = false := by simpa using hset
  have hcompute : computeVisibleRows b appointments tableHeaders searchTerm (some field)
      (some direction)
      = (appointments.filter (matchesSearch b tableHeaders searchTerm)).insertionSort
          (staysBefore (compareAppointments b field (some direction))) := by
    simp [computeVisibleRows, hne, jsSort]
  rw [hcompute]
  refine ⟨List.perm_insertionSort _ _, ?_, ?_, ?_, ?_⟩
  · rintro rfl
    haveI : IsTotal AppointmentRow (staysBefore (compareAppointments b field (some "asc"))) :=
      ⟨fun x y => by
        rw [staysBefore_asc b field hfield, staysBefore_asc b field hfield]
        exact keyLe_total (fun a => utf16Units (b.toLowerCase (sortValue b a field))) x y⟩
    haveI : IsTrans AppointmentRow (staysBefore (compareAppointments b field (some "asc"))) :=
      ⟨fun x y z h1 h2 => by
        rw [staysBefore_asc b field hfield] at h1 h2 ⊢
        exact keyLe_trans (fun a => utf16Units (b.toLowerCase (sortValue b a field))) x y z h1 h2⟩
    exact (List.sorted_insertionSort _ _).imp fun h => (staysBefore_asc b field hfield _ _).mp h
  · rintro rfl
    haveI : IsTotal AppointmentRow (staysBefore (compareAppointments b field (some "desc"))) :=
      ⟨fun x y => by
        rw [staysBefore_desc b field hfield, staysBefore_desc b field hfield]
        exact keyLe_total (fun a => utf16Units (b.toLowerCase (sortValue b a field))) y x⟩
    haveI : IsTrans AppointmentRow (staysBefore (compareAppointments b field (some "desc"))) :=
      ⟨fun x y z h1 h2 => by
        rw [staysBefore_desc b field hfield] at h1 h2 ⊢
        exact keyLe_trans (fun a => utf16Units (b.toLowerCase (sortValue b a field))) z y x h2 h1⟩
    exact (List.sorted_insertionSort _ _).imp fun h => (staysBefore_desc b field hfield _ _).mp h
  · intro key
    apply insertionSort_filter_eq
    intro x y hx hy
    have hx' : utf16Units (b.toLowerCase (sortValue b x field)) = key := by simpa using hx
    have hy' : utf16Units (b.toLowerCase (sortValue b y field)) = key := by simpa using hy
    rcases hdir with rfl | rfl
    · rw [staysBefore_asc b field hfield, hx', hy']
      exact lexLt_irrefl key
    · rw [staysBefore_desc b field hfield, hx', hy']
      exact lexLt_irrefl key
  · intro st hf hd
    cases st with
    | mk sortField sortDirection =>
      simp only at hf hd
      subst hf hd
      by_cases hact : field = "actions"
      · simp [handleSort, hact]
      · have hact' : (field == "actions") = false := by simpa using hact
        rcases hdir with rfl | rfl <;> simp [handleSort, hne, hact']

/-- C19 at the sample rows, sorted by `name` in direction `desc`. -/
theorem C19_sort_by_field_witness :
    "name" ≠ "" ∧ "name" ≠ "bookingDate" ∧ ("desc" = "asc" ∨ "desc" = "desc") ∧
      (computeVisibleRows sampleBuiltins sampleRows defaultHeaders "" (some "name")
          (some "desc")).map (fun a => a._id)
        = ["65a000000000000000000015", "65a000000000000000000011", "65a000000000000000000013",
            "65a000000000000000000012", "65a000000000000000000014"] ∧
      (computeVisibleRows sampleBuiltins sampleRows defaultHeaders "" (some "name")
          (some "desc")).Perm
        (sampleRows.filter (matchesSearch sampleBuiltins defaultHeaders "")) :=
  ⟨by decide, by decide, Or.inr rfl, by decide,
    (C19_sort_by_field sampleBuiltins sampleRows defaultHeaders "" "name" "desc"
      (by decide) (by decide) (Or.inr rfl)).1⟩

/-- When the composite string `bookingDate + 'T' + bookingTime` of every
appointment is no date string for `new Date`, every comparison for the sort
field `bookingDate` gives NaN and the visible rows are the filtered rows in
their input order, whatever the direction. -/
theorem bookingDate_sort_keeps_input_order (b : Builtins)
    (appointments : List AppointmentRow) (tableHeaders : List Header) (searchTerm : String)
    (sortDirection : Option String)
    (hinvalid : ∀ a ∈ appointments, b.parseDate (compositeDateText a) = none) :
    computeVisibleRows b appointments tableHeaders searchTerm (some "bookingDate") sortDirection
      = appointments.filter (matchesSearch b tableHeaders searchTerm) := by
  have hcompute : computeVisibleRows b appointments tableHeaders searchTerm (some "bookingDate")
      sortDirection
      = (appointments.filter (matchesSearch b tableHeaders searchTerm)).insertionSort
          (staysBefore (compareAppointments b "bookingDate" sortDirection)) := by
    simp [computeVisibleRows, jsSort]
  rw [hcompute]
  apply List.Sorted.insertionSort_eq
  apply List.pairwise_of_forall_mem_list
  intro x hx y _
  have hxi := hinvalid x (List.mem_filter.mp hx).1
  simp [staysBefore, compareAppointments, hxi]

/-- C20 (evaluation at the failing input): the sample rows carry ISO date-time
strings and `HH:MM` times, as the Appointment Store returns them; every
composite string the comparator builds is an Invalid Date, and with direction
`desc` the rows stay in ascending order of date and time instead of being
reversed. -/
theorem C20_desc_sort_is_not_reversed :
    (∀ a ∈ sampleRows, sampleBuiltins.parseDate (compositeDateText a) = none) ∧
      sampleRows.map compositeDateText
        = ["2030-01-15T00:00:00.000ZT09:00", "2030-01-15T00:00:00.000ZT10:00",
            "2030-01-16T00:00:00.000ZT09:00", "2030-01-16T00:00:00.000ZT14:00",
            "2030-02-03T00:00:00.000ZT10:00"] ∧
      (computeVisibleRows sampleBuiltins sampleRows defaultHeaders "" (some "bookingDate")
          (some "desc")).map (fun a => a._id)
        = ["65a000000000000000000011", "65a000000000000000000012", "65a000000000000000000013",
            "65a000000000000000000014", "65a000000000000000000015"] ∧
      computeVisibleRows sampleBuiltins sampleRows defaultHeaders "" (some "bookingDate")
          (some "desc")
        = sampleRows.filter (matchesSearch sampleBuiltins defaultHeaders "") :=
  ⟨by decide, by decide, by decide,
    bookingDate_sort_keeps_input_order sampleBuiltins sampleRows defaultHeaders ""
      (some "desc") (by decide)⟩

/-! ## Search filter applied twice -/

theorem mem_computeVisibleRows {b : Builtins} {appointments : List AppointmentRow}
    {tableHeaders : List Header} {searchTerm : String} {sortField sortDirection : Option String}
    {a : AppointmentRow}
    (h : a ∈ computeVisibleRows b appointments tableHeaders searchTerm sortField sortDirection) :
    matchesSearch b tableHeaders searchTerm a = true := by
  unfold computeVisibleRows at h
  cases sortField with
  | none => exact (List.mem_filter.mp h).2
  | some field =>
    simp only at h
    split at h
    · exact (List.mem_filter.mp h).2
    · unfold jsSort at h
      exact (List.mem_filter.mp ((List.mem_insertionSort _).mp h)).2

/-- C21: the search filter of `computeVisibleRows`, applied to the output of
`computeVisibleRows` with the same headers and the same term, returns that
output unchanged, whether the output was sorted or not; in particular
filtering twice equals filtering once. -/
theorem C21_search_filter_idempotent (b : Builtins) (appointments : List AppointmentRow)
    (tableHeaders : List Header) (searchTerm : String) (sortField sortDirection : Option String) :
    computeVisibleRows b
        (computeVisibleRows b appointments tableHeaders searchTerm sortField sortDirection)
        tableHeaders searchTerm none none
      = computeVisibleRows b appointments tableHeaders searchTerm sortField sortDirection ∧
    (computeVisibleRows b appointments tableHeaders searchTerm sortField sortDirection).filter
        (matchesSearch b tableHeaders searchTerm)
      = computeVisibleRows b appointments tableHeaders searchTerm sortField sortDirection := by
  have key : (computeVisibleRows b appointments tableHeaders searchTerm sortField
      sortDirection).filter (matchesSearch b tableHeaders searchTerm)
      = computeVisibleRows b appointments tableHeaders searchTerm sortField sortDirection :=
    List.filter_eq_self.mpr fun a ha => mem_computeVisibleRows ha
  exact ⟨key, key⟩

/-! ## Sessions without a loaded configuration -/

/-- C23 (evaluation at the failing input): after a failed load the state is
the initial component state, which is reachable; its draft holds the five
default columns, its original is empty, and `hasUnsavedChanges` is false. -/
theorem C23_unsaved_flag_false_while_draft_differs :
    Reachable afterFailedLoad ∧ afterFailedLoad = initialState ∧
      afterFailedLoad.tableHeaders.map (fun h => h.val) = defaultHeaders ∧
      afterFailedLoad.originalTableHeaders = [] ∧
      afterFailedLoad.tableHeaders ≠ afterFailedLoad.originalTableHeaders ∧
      afterFailedLoad.hasUnsavedChanges = false := by
  refine ⟨Reachable.loaded ConfigResponse.failed, rfl, ?_, rfl, ?_, rfl⟩ <;> decide

/-- C24 (evaluation at the failing input): a failing `getTableConfig`, and
likewise a response without headers, leaves the five default columns as the
draft and makes no `saveTableConfig` call; then entering edit mode, adding a
column and cancelling leaves an empty header list, not the five default
columns. -/
theorem C24_cancel_after_failed_load_empties_headers :
    (loadTableConfig initialState ConfigResponse.failed).1.tableHeaders.map (fun h => h.val)
        = defaultHeaders ∧
      (loadTableConfig initialState ConfigResponse.failed).2 = [Call.getTableConfig] ∧
      (loadTableConfig initialState ConfigResponse.noHeaders).1.tableHeaders.map (fun h => h.val)
        = defaultHeaders ∧
      (loadTableConfig initialState ConfigResponse.noHeaders).2 = [Call.getTableConfig] ∧
      (run afterFailedLoad editThenCancel).map (fun r => (r.1.tableHeaders, r.2))
        = some ([], []) := by
  decide

/-- C25 (evaluation at the failing input): on `twoCustomColumns`, entering
edit mode, switching the delete-column sub-mode on and leaving edit mode with
nothing unsaved ends in a state with edit mode off and `deleteColumnMode`
still true; `handleHeaderDeleteToggle(3)` in that state stages index 3 and
sets `hasUnsavedChanges` while edit mode is off. -/
theorem C25_delete_mode_outlives_edit_mode :
    ∃ s, run (loadedState twoCustomColumns) leaveEditWithDeleteMode = some (s, []) ∧
      Reachable s ∧
      s.isEditTableMode = false ∧ s.deleteColumnMode = true ∧
      s.columnsToDelete = [] ∧ s.hasUnsavedChanges = false ∧
      (handleHeaderDeleteToggle s 3).isEditTableMode = false ∧
      (handleHeaderDeleteToggle s 3).columnsToDelete = [3] ∧
      (handleHeaderDeleteToggle s 3).hasUnsavedChanges = true := by
  refine ⟨_, rfl, ?_, ?_, ?_, ?_, ?_, ?_, ?_, ?_⟩
  · exact Reachable.toggleEdit (Reachable.deleteMode (Reachable.toggleEdit
      (Reachable.loaded (ConfigResponse.config twoCustomColumns))))
  all_goals decide

/-! ## How the handlers change the two header lists -/

theorem allocate_map_ref (start : Nat) (headers : List Header) :
    (allocate start headers).map (fun o => o.ref) = List.range' start headers.length := by
  induction headers generalizing start with
  | nil => rfl
  | cons h hs ih => simp [allocate, ih, List.range'_succ]

theorem allocate_length (start : Nat) (headers : List Header) :
    (allocate start headers).length = headers.length := by
  induction headers generalizing start with
  | nil => rfl
  | cons h hs ih => simp [allocate, ih]

theorem allocate_refsInOrder (start : Nat) (headers : List Header) :
    (∀ o ∈ allocate start headers, o.ref < start + (allocate start headers).length) ∧
      ((allocate start headers).map fun o => o.ref).Nodup := by
  refine ⟨?_, ?_⟩
  · intro o ho
    have hmem : o.ref ∈ (allocate start headers).map (fun o => o.ref) :=
      List.mem_map.mpr ⟨o, ho, rfl⟩
    rw [allocate_map_ref, List.mem_range'_1] at hmem
    rw [allocate_length]
    exact hmem.2
  · rw [allocate_map_ref]
    exact List.nodup_range' _ _

theorem handleDragEnd_lists {s s' : State} {activeId : String} {overId : Option String}
    (h : handleDragEnd s activeId overId = some s') :
    s'.tableHeaders.Perm s.tableHeaders ∧
      s'.originalTableHeaders = s.originalTableHeaders ∧ s'.nextRef = s.nextRef := by
  unfold handleDragEnd at h
  split at h
  · cases h; exact ⟨List.Perm.refl _, rfl, rfl⟩
  · split at h
    · cases h; exact ⟨List.Perm.refl _, rfl, rfl⟩
    · split at h
      · cases overId with
        | none => cases h
        | some o =>
          obtain ⟨items, hitems, rfl⟩ := Option.map_eq_some'.mp h
          refine ⟨?_, rfl, rfl⟩
          by_cases hnil : s.tableHeaders = []
          · rw [hnil] at hitems
            cases hitems
          · obtain ⟨ys, hys, hperm⟩ := dragEndItems_perm s.tableHeaders activeId o hnil
            rw [hys, definedEntries_map_some] at hitems
            cases hitems
            exact hperm
      · cases h; exact ⟨List.Perm.refl _, rfl, rfl⟩

theorem handleHeaderEdit_lists (s : State) (index : Nat) (newValue : String) :
    (handleHeaderEdit s index newValue).tableHeaders.map (fun o => o.ref)
        = s.tableHeaders.map (fun o => o.ref) ∧
      (handleHeaderEdit s index newValue).originalTableHeaders.map (fun o => o.ref)
        = s.originalTableHeaders.map (fun o => o.ref) ∧
      headerIds (handleHeaderEdit s index newValue).tableHeaders = headerIds s.tableHeaders ∧
      headerIds (handleHeaderEdit s index newValue).originalTableHeaders
        = headerIds s.originalTableHeaders ∧
      (handleHeaderEdit s index newValue).nextRef = s.nextRef := by
  unfold handleHeaderEdit
  split
  · exact ⟨rfl, rfl, rfl, rfl, rfl⟩
  · refine ⟨?_, ?_, ?_, ?_, rfl⟩ <;>
    · simp only [headerIds, List.map_map]
      apply List.map_congr_left
      intro o _
      simp only [Function.comp]
      split <;> rfl

theorem addNewTableHeader_lists (s : State) (now : Nat) :
    (addNewTableHeader s now).tableHeaders.Perm
        (⟨s.nextRef, newHeaderFor s.tableHeaders now⟩ :: s.tableHeaders) ∧
      (addNewTableHeader s now).originalTableHeaders = s.originalTableHeaders ∧
      (addNewTableHeader s now).nextRef = s.nextRef + 1 := by
  refine ⟨?_, rfl, rfl⟩
  simp only [addNewTableHeader, spliceInsert]
  refine List.perm_middle.trans ?_
  rw [List.take_append_drop]

theorem handleHeaderDeleteToggle_lists (s : State) (index : Nat) :
    (handleHeaderDeleteToggle s index).tableHeaders = s.tableHeaders ∧
      (handleHeaderDeleteToggle s index).originalTableHeaders = s.originalTableHeaders ∧
      (handleHeaderDeleteToggle s index).nextRef = s.nextRef := by
  unfold handleHeaderDeleteToggle
  split
  · exact ⟨rfl, rfl, rfl⟩
  · split
    · exact ⟨rfl, rfl, rfl⟩
    · split
      · exact ⟨rfl, rfl, rfl⟩
      · split <;> exact ⟨rfl, rfl, rfl⟩

theorem filterIndexFrom_sublist {α : Type} (p : Nat → Bool) (k : Nat) (xs : List α) :
    (filterIndexFrom p k xs).Sublist xs := by
  induction xs generalizing k with
  | nil => exact List.Sublist.refl _
  | cons x xs ih =>
    simp only [filterIndexFrom]
    split
    · exact (ih (k + 1)).cons₂ x
    · exact (ih (k + 1)).cons x

theorem saveTableConfiguration_lists (s : State) (saveOk cleanupOk fetchOk : Bool) :
    (saveTableConfiguration s saveOk cleanupOk fetchOk).1.nextRef = s.nextRef ∧
      (((saveTableConfiguration s saveOk cleanupOk fetchOk).1.tableHeaders = s.tableHeaders ∧
        (saveTableConfiguration s saveOk cleanupOk fetchOk).1.originalTableHeaders
          = s.originalTableHeaders) ∨
      ((saveTableConfiguration s saveOk cleanupOk fetchOk).1.tableHeaders.Sublist s.tableHeaders ∧
        (saveTableConfiguration s saveOk cleanupOk fetchOk).1.originalTableHeaders
          = (saveTableConfiguration s saveOk cleanupOk fetchOk).1.tableHeaders)) := by
  have hsub : (removeStaged s.tableHeaders s.columnsToDelete).Sublist s.tableHeaders :=
    filterIndexFrom_sublist _ _ _
  unfold saveTableConfiguration
  simp only []
  split
  · exact ⟨rfl, Or.inl ⟨rfl, rfl⟩⟩
  · split
    · split
      · exact ⟨rfl, Or.inl ⟨rfl, rfl⟩⟩
      · split
        · exact ⟨rfl, Or.inr ⟨hsub, rfl⟩⟩
        · exact ⟨rfl, Or.inr ⟨hsub, rfl⟩⟩
    · exact ⟨rfl, Or.inr ⟨List.Sublist.refl _, rfl⟩⟩

/-- In every reachable state the header objects are in order: fresh objects
get fresh identities, and no handler puts one object twice into a list. -/
theorem reachable_refsInOrder {s : State} (h : Reachable s) : RefsInOrder s := by
  induction h with
  | loaded response =>
    cases response with
    | failed => exact ⟨by decide, by decide, by decide, by decide⟩
    | noHeaders => exact ⟨by decide, by decide, by decide, by decide⟩
    | config headers =>
      unfold loadTableConfig
      simp only []
      split
      · obtain ⟨h1, h2⟩ := allocate_refsInOrder initialState.nextRef (migrateHeaders headers)
        exact ⟨h1, h1, h2, h2⟩
      · obtain ⟨h1, h2⟩ := allocate_refsInOrder initialState.nextRef headers
        exact ⟨h1, h1, h2, h2⟩
  | @toggleEdit s _ ih =>
    unfold toggleEditTableMode
    split <;> exact ih
  | @deleteMode s _ ih =>
    unfold clickDeleteColumn
    split <;> exact ih
  | @dragMode s _ ih =>
    unfold clickDragDrop
    split <;> exact ih
  | reorder activeId overId _ hstep ih =>
    obtain ⟨hperm, horig, hnext⟩ := handleDragEnd_lists hstep
    obtain ⟨i1, i2, i3, i4⟩ := ih
    refine ⟨?_, ?_, ?_, ?_⟩
    · intro o ho
      rw [hnext]
      exact i1 o (hperm.mem_iff.mp ho)
    · rw [horig, hnext]; exact i2
    · exact ((hperm.map _).nodup_iff).mpr i3
    · rw [horig]; exact i4
  | @renameHeader s index newValue _ ih =>
    obtain ⟨h1, h2, -, -, hnext⟩ := handleHeaderEdit_lists s index newValue
    obtain ⟨i1, i2, i3, i4⟩ := ih
    have hmem : ∀ (l l' : List HeaderObj), l'.map (fun o => o.ref) = l.map (fun o => o.ref) →
        (∀ o ∈ l, o.ref < s.nextRef) → ∀ o ∈ l', o.ref < s.nextRef := by
      intro l l' hmap hl o ho
      have : o.ref ∈ l'.map (fun o => o.ref) := List.mem_map.mpr ⟨o, ho, rfl⟩
      rw [hmap] at this
      obtain ⟨o', ho', heq⟩ := List.mem_map.mp this
      rw [← heq]
      exact hl o' ho'
    refine ⟨?_, ?_, ?_, ?_⟩
    · rw [hnext]; exact hmem _ _ h1 i1
    · rw [hnext]; exact hmem _ _ h2 i2
    · rw [h1]; exact i3
    · rw [h2]; exact i4
  | @addColumn s now _ ih =>
    obtain ⟨hperm, horig, hnext⟩ := addNewTableHeader_lists s now
    obtain ⟨i1, i2, i3, i4⟩ := ih
    refine ⟨?_, ?_, ?_, ?_⟩
    · intro o ho
      rw [hnext]
      rcases List.mem_cons.mp (hperm.mem_iff.mp ho) with rfl | hold
      · exact Nat.lt_succ_self _
      · exact Nat.lt_succ_of_lt (i1 o hold)
    · rw [horig, hnext]
      intro o ho
      exact Nat.lt_succ_of_lt (i2 o ho)
    · refine ((hperm.map _).nodup_iff).mpr ?_
      rw [List.map_cons, List.nodup_cons]
      refine ⟨?_, i3⟩
      intro hmem
      obtain ⟨o, ho, heq⟩ := List.mem_map.mp hmem
      have := i1 o ho
      simp only at heq
      omega
    · rw [horig]; exact i4
  | @stageDelete s index _ ih =>
    obtain ⟨h1, h2, h3⟩ := handleHeaderDeleteToggle_lists s index
    unfold RefsInOrder
    rw [h1, h2, h3]
    exact ih
  | @save s saveOk cleanupOk fetchOk _ ih =>
    obtain ⟨hnext, hlists⟩ := saveTableConfiguration_lists s saveOk cleanupOk fetchOk
    obtain ⟨i1, i2, i3, i4⟩ := ih
    unfold RefsInOrder
    rw [hnext]
    rcases hlists with ⟨h1, h2⟩ | ⟨hsub, h2⟩
    · rw [h1, h2]; exact ⟨i1, i2, i3, i4⟩
    · rw [h2]
      exact ⟨fun o ho => i1 o (hsub.subset ho), fun o ho => i1 o (hsub.subset ho),
        (hsub.map _).nodup i3, (hsub.map _).nodup i3⟩
  | @cancel s _ ih =>
    obtain ⟨i1, i2, i3, i4⟩ := ih
    exact ⟨i2, i2, i4, i4⟩

/-! ## Renaming a header -/

/-- When no header object occurs twice in the draft, `handleHeaderEdit`
replaces the entry at `index` by the same header with the new label and leaves
every other entry of the draft as it is. -/
theorem handleHeaderEdit_getElem? (s : State) (index : Nat) (newValue : String)
    (header : HeaderObj) (hget : s.tableHeaders[index]? = some header)
    (hrefs : (s.tableHeaders.map fun o => o.ref).Nodup) (j : Nat) :
    (handleHeaderEdit s index newValue).tableHeaders[j]? =
      if j = index then some { header with val := { header.val with label := newValue } }
      else s.tableHeaders[j]? := by
  unfold handleHeaderEdit
  simp only [hget, List.getElem?_map]
  by_cases hj : j = index
  · subst hj
    simp [hget]
  · simp only [hj, if_false]
    cases hjget : s.tableHeaders[j]? with
    | none => rfl
    | some o =>
      simp only [Option.map_some', Option.some.injEq]
      have hne : o.ref ≠ header.ref := by
        intro heq
        obtain ⟨hjlt, hjval⟩ := List.getElem?_eq_some.mp hjget
        obtain ⟨hilt, hival⟩ := List.getElem?_eq_some.mp hget
        have hjlt' : j < (s.tableHeaders.map fun o => o.ref).length := by simpa using hjlt
        have hilt' : index < (s.tableHeaders.map fun o => o.ref).length := by simpa using hilt
        have : (s.tableHeaders.map fun o => o.ref)[j] = (s.tableHeaders.map fun o => o.ref)[index] := by
          simp [hjval, hival, heq]
        exact hj ((hrefs.getElem_inj_iff).mp this)
      simp [hne]

/-! ## Column ids -/

theorem spliceInsert_perm {α : Type} (xs : List α) (start : Int) (item : α) :
    (spliceInsert xs start item).Perm (item :: xs) := by
  simp only [spliceInsert]
  refine List.perm_middle.trans ?_
  rw [List.take_append_drop]

theorem headerIds_allocate (start : Nat) (headers : List Header) :
    headerIds (allocate start headers) = headers.map fun h => h.id := by
  have h : (allocate start headers).map (fun o => o.val.id)
      = ((allocate start headers).map fun o => o.val).map fun h => h.id := by
    rw [List.map_map]
    rfl
  simp only [headerIds]
  rw [h, allocate_map_val]

/-- The migration keeps distinct ids distinct when every header with id
`bookingDate` has one of the fields `bookingDate`, `date`, `time`. -/
theorem migrateHeaders_ids_nodup (headers : List Header)
    (hids : (headers.map fun h => h.id).Nodup)
    (hbd : ∀ h ∈ headers, h.id = "bookingDate" →
      h.field = "bookingDate" ∨ h.field = "date" ∨ h.field = "time") :
    ((migrateHeaders headers).map fun h => h.id).Nodup := by
  have hsub : (headers.filter
      (fun header => header.field != "date" && header.field != "time")).Sublist headers :=
    List.filter_sublist _
  have hkept : ((headers.filter
      (fun header => header.field != "date" && header.field != "time")).map
        fun h => h.id).Nodup := (hsub.map _).nodup hids
  unfold migrateHeaders
  simp only
  split
  · rename_i hnone
    refine ((spliceInsert_perm _ 2 bookingDateHeader).map _).nodup_iff.mpr ?_
    rw [List.map_cons, List.nodup_cons]
    refine ⟨?_, hkept⟩
    intro hmem
    obtain ⟨h, hh, hid⟩ := List.mem_map.mp hmem
    have hh' := List.mem_filter.mp hh
    have hfield := hbd h hh'.1 hid
    have hnot : ¬ (h.field = "date" ∨ h.field = "time") := by
      have := hh'.2
      simp only [Bool.and_eq_true, bne_iff_ne, ne_eq] at this
      tauto
    have hbook : h.field = "bookingDate" := by tauto
    simp only [Bool.not_eq_true', List.any_eq_false, beq_iff_eq] at hnone
    exact absurd hbook (hnone h hh)
  · exact hkept

/-- C22 (as stated, refuted): adding a column at clock value 1700000000003 to
a draft that already holds the id `custom_1700000000003` gives a draft with
that id twice; and loading the legacy configuration
`legacyWithBookingDateId`, whose ids are distinct, gives a draft in which the
id `bookingDate` occurs twice. -/
theorem C22_ids_repeat_after_add_and_after_migration :
    (headerIds addedOneColumn.tableHeaders).Nodup ∧
      headerIds (addNewTableHeader addedOneColumn 1700000000003).tableHeaders
        = ["name", "contact", "bookingDate", "custom_1700000000003",
            "custom_1700000000003", "status", "actions"] ∧
      ¬ (headerIds (addNewTableHeader addedOneColumn 1700000000003).tableHeaders).Nodup ∧
      (legacyWithBookingDateId.map fun h => h.id).Nodup ∧
      headerIds (loadedState legacyWithBookingDateId).tableHeaders
        = ["name", "bookingDate", "bookingDate"] ∧
      ¬ (headerIds (loadedState legacyWithBookingDateId).tableHeaders).Nodup := by
  decide


/-- C22 (amended): when the column ids of the draft and of the original are
pairwise distinct, they are pairwise distinct after reorder, renameHeader,
stageDelete, save and cancel; after addColumn provided the new id, `custom_`
followed by the clock value, is not already an id of the draft; and after
load provided the ids of the persisted list are pairwise distinct and, when
the list is a legacy one, each of its headers with id `bookingDate` has
field `bookingDate`, `date` or `time`. -/
theorem C22_ids_stay_distinct_for_fresh_ids (s : State) (h : DistinctIds s) :
    (∀ response : ConfigResponse,
        (∀ headers, response = ConfigResponse.config headers →
          (headers.map fun x => x.id).Nodup ∧
          (isLegacy headers = true → ∀ x ∈ headers, x.id = "bookingDate" →
            x.field = "bookingDate" ∨ x.field = "date" ∨ x.field = "time")) →
        DistinctIds (loadTableConfig s response).1) ∧
      (∀ (activeId : String) (overId : Option String) (s' : State),
        handleDragEnd s activeId overId = some s' → DistinctIds s') ∧
      (∀ (index : Nat) (newValue : String), DistinctIds (handleHeaderEdit s index newValue)) ∧
      (∀ now : Nat, "custom_" ++ toString now ∉ headerIds s.tableHeaders →
        DistinctIds (addNewTableHeader s now)) ∧
      (∀ index : Nat, DistinctIds (handleHeaderDeleteToggle s index)) ∧
      (∀ saveOk cleanupOk fetchOk : Bool,
        DistinctIds (saveTableConfiguration s saveOk cleanupOk fetchOk).1) ∧
      DistinctIds (cancelTableChanges s) := by
  obtain ⟨hd, ho⟩ := h
  refine ⟨?_, ?_, ?_, ?_, ?_, ?_, ?_⟩
  · intro response hresp
    cases response with
    | failed => exact ⟨hd, ho⟩
    | noHeaders => exact ⟨hd, ho⟩
    | config headers =>
      obtain ⟨hids, hbd⟩ := hresp headers rfl
      unfold loadTableConfig
      simp only
      split
      · rename_i hleg
        have hm := migrateHeaders_ids_nodup headers hids (hbd hleg)
        simp only [DistinctIds, headerIds_allocate]
        exact ⟨hm, hm⟩
      · simp only [DistinctIds, headerIds_allocate]
        exact ⟨hids, hids⟩
  · intro activeId overId s' hs'
    obtain ⟨hperm, horig, _⟩ := handleDragEnd_lists hs'
    refine ⟨?_, ?_⟩
    · exact (hperm.map _).nodup_iff.mpr hd
    · rw [horig]; exact ho
  · intro index newValue
    obtain ⟨_, _, h3, h4, _⟩ := handleHeaderEdit_lists s index newValue
    refine ⟨?_, ?_⟩
    · rw [h3]; exact hd
    · rw [h4]; exact ho
  · intro now hfresh
    obtain ⟨hperm, horig, _⟩ := addNewTableHeader_lists s now
    refine ⟨?_, ?_⟩
    · refine (hperm.map _).nodup_iff.mpr ?_
      rw [List.map_cons, List.nodup_cons]
      exact ⟨hfresh, hd⟩
    · rw [horig]; exact ho
  · intro index
    obtain ⟨h1, h2, _⟩ := handleHeaderDeleteToggle_lists s index
    refine ⟨?_, ?_⟩
    · rw [h1]; exact hd
    · rw [h2]; exact ho
  · intro saveOk cleanupOk fetchOk
    obtain ⟨_, hcase⟩ := saveTableConfiguration_lists s saveOk cleanupOk fetchOk
    rcases hcase with ⟨h1, h2⟩ | ⟨h1, h2⟩
    · refine ⟨?_, ?_⟩
      · rw [h1]; exact hd
      · rw [h2]; exact ho
    · have hn := (h1.map (fun o : HeaderObj => o.val.id)).nodup hd
      refine ⟨hn, ?_⟩
      rw [h2]; exact hn
  · exact ⟨ho, ho⟩

/-- C22 (amended) on the default configuration in edit mode: adding a column
at clock value 1700000000003, whose id is not yet in the draft. -/
theorem C22_ids_stay_distinct_for_fresh_ids_witness :
    DistinctIds (toggleEditTableMode (loadedState defaultHeaders)) ∧
      "custom_" ++ toString 1700000000003
        ∉ headerIds (toggleEditTableMode (loadedState defaultHeaders)).tableHeaders ∧
      DistinctIds (addNewTableHeader (toggleEditTableMode (loadedState defaultHeaders))
        1700000000003) :=
  ⟨by decide, by decide,
    (C22_ids_stay_distinct_for_fresh_ids (toggleEditTableMode (loadedState defaultHeaders))
      (by decide)).2.2.2.1 1700000000003 (by decide)⟩

/-! ## Inline row edit -/

theorem lookup_cons_self (k : String) (v : JsValue) (rest : List (String × JsValue)) :
    List.lookup k ((k, v) :: rest) = some v := by
  simp [List.lookup]

theorem lookup_cons_ne {k k' : String} (h : k ≠ k') (v : JsValue)
    (rest : List (String × JsValue)) :
    List.lookup k ((k', v) :: rest) = List.lookup k rest := by
  have hb : (k == k') = false := beq_eq_false_iff_ne.mpr h
  simp [List.lookup, hb]

theorem lookup_objSet (obj : List (String × JsValue)) (key : String) (value : JsValue)
    (k : String) :
    (objSet obj key value).lookup k = if k = key then some value else obj.lookup k := by
  induction obj with
  | nil =>
    by_cases hk : k = key
    · subst hk
      simp only [objSet, lookup_cons_self, if_true]
    · simp only [objSet, lookup_cons_ne hk, hk, if_false]
  | cons p rest ih =>
    obtain ⟨k', v'⟩ := p
    by_cases hk' : k' = key
    · subst hk'
      by_cases hk : k = k'
      · subst hk
        simp only [objSet, beq_self_eq_true, if_true, lookup_cons_self]
      · simp only [objSet, beq_self_eq_true, if_true, lookup_cons_ne hk, hk, if_false]
    · have hb : (k' == key) = false := beq_eq_false_iff_ne.mpr hk'
      by_cases hk : k = k'
      · subst hk
        simp only [objSet, hb, Bool.false_eq_true, if_false, lookup_cons_self, hk']
      · simp only [objSet, hb, Bool.false_eq_true, if_false, lookup_cons_ne hk, ih]

theorem lookup_fill (fields : List String) (obj : List (String × JsValue)) (k : String) :
    (fields.foldl
      (fun updateData field =>
        if (updateData.lookup field).isNone then objSet updateData field (JsValue.str "")
        else updateData) obj).lookup k
      = match obj.lookup k with
        | some v => some v
        | none => if k ∈ fields then some (JsValue.str "") else none := by
  induction fields generalizing obj with
  | nil =>
    simp only [List.foldl_nil, List.not_mem_nil, if_false]
    cases obj.lookup k <;> rfl
  | cons f fs ih =>
    rw [List.foldl_cons, ih]
    cases hf : obj.lookup f with
    | none =>
      simp only [Option.isNone_none, if_true, lookup_objSet]
      by_cases hk : k = f
      · subst hk
        simp [hf]
      · simp only [hk, if_false, List.mem_cons, false_or]
    | some w =>
      simp only [Option.isNone_some, Bool.false_eq_true, if_false]
      by_cases hk : k = f
      · subst hk
        simp [hf]
      · simp only [List.mem_cons, hk, false_or]

theorem foldl_objDelete (q : String → Bool) (keys : List String)
    (obj : List (String × JsValue)) :
    keys.foldl (fun updateData key => if !q key then objDelete updateData key else updateData) obj
      = obj.filter fun p => q p.1 || !keys.contains p.1 := by
  induction keys generalizing obj with
  | nil => simp
  | cons key keys ih =>
    rw [List.foldl_cons, ih]
    by_cases hq : q key = true
    · simp only [hq, Bool.not_true, Bool.false_eq_true, if_false]
      apply List.filter_congr
      intro p _
      by_cases hp : p.1 = key
      · simp [hp, hq]
      · simp [hp]
    · simp only [Bool.not_eq_true] at hq
      simp only [hq, Bool.not_false, if_true, objDelete, List.filter_filter]
      apply List.filter_congr
      intro p _
      by_cases hp : p.1 = key
      · simp [hp, hq]
      · simp [hp]

theorem lookup_filter_key (q : String → Bool) (obj : List (String × JsValue)) (k : String) :
    (obj.filter fun p => q p.1).lookup k = if q k then obj.lookup k else none := by
  induction obj with
  | nil => simp
  | cons p rest ih =>
    obtain ⟨k', v'⟩ := p
    by_cases hq' : q k' = true
    · rw [List.filter_cons_of_pos (by simpa using hq')]
      by_cases hk : k = k'
      · subst hk
        simp only [lookup_cons_self, hq', if_true]
      · simp only [lookup_cons_ne hk, ih]
    · rw [List.filter_cons_of_neg (by simpa using hq')]
      by_cases hk : k = k'
      · subst hk
        simp only [ih, hq', Bool.false_eq_true, if_false]
      · simp only [lookup_cons_ne hk, ih]

theorem updateData_eq_filter (tableHeaders : List HeaderObj)
    (editingData : List (String × JsValue)) :
    updateData tableHeaders editingData
      = (((tableHeaders.filter fun h => startsWithCustom h.val.field).map
            fun h => h.val.field).foldl
          (fun updateData field =>
            if (updateData.lookup field).isNone then objSet updateData field (JsValue.str "")
            else updateData)
          editingData).filter fun p => tableHeaders.any fun h => h.val.field == p.1 := by
  unfold updateData
  simp only
  rw [foldl_objDelete (fun key => tableHeaders.any fun h => h.val.field == key)]
  apply List.filter_congr
  intro p hp
  have : p.1 ∈ List.map Prod.fst
      (((tableHeaders.filter fun h => startsWithCustom h.val.field).map fun h => h.val.field).foldl
        (fun updateData field =>
          if (updateData.lookup field).isNone then objSet updateData field (JsValue.str "")
          else updateData) editingData) := List.mem_map.mpr ⟨p, hp, rfl⟩
  simp [this]

/-- C27: the `updateData` of `handleSaveInlineEdit` has only keys that are the
field of some header of the draft; for every header whose field starts with
`custom_` it holds that field, with the value of the row draft, or `''` when
the row draft has none; and for every other header field it holds what the
row draft holds. -/
theorem C27_inline_payload_keys (tableHeaders : List HeaderObj)
    (editingData : List (String × JsValue)) :
    (∀ key ∈ (updateData tableHeaders editingData).map Prod.fst,
        ∃ h ∈ tableHeaders, h.val.field = key) ∧
      (∀ h ∈ tableHeaders, startsWithCustom h.val.field = true →
        (updateData tableHeaders editingData).lookup h.val.field
          = some ((editingData.lookup h.val.field).getD (JsValue.str ""))) ∧
      (∀ h ∈ tableHeaders, startsWithCustom h.val.field = false →
        (updateData tableHeaders editingData).lookup h.val.field
          = editingData.lookup h.val.field) := by
  refine ⟨?_, ?_, ?_⟩
  · intro key hkey
    rw [updateData_eq_filter] at hkey
    obtain ⟨p, hp, rfl⟩ := List.mem_map.mp hkey
    have := (List.mem_filter.mp hp).2
    obtain ⟨h, hh, hfield⟩ := List.any_eq_true.mp this
    exact ⟨h, hh, by simpa using hfield⟩
  · intro h hh hcustom
    have hany : (tableHeaders.any fun x => x.val.field == h.val.field) = true :=
      List.any_eq_true.mpr ⟨h, hh, by simp⟩
    have hmem : h.val.field ∈
        (tableHeaders.filter fun h => startsWithCustom h.val.field).map fun h => h.val.field :=
      List.mem_map.mpr ⟨h, List.mem_filter.mpr ⟨hh, hcustom⟩, rfl⟩
    rw [updateData_eq_filter,
      lookup_filter_key (fun key => tableHeaders.any fun h => h.val.field == key), lookup_fill]
    simp only [hany, if_true, hmem]
    cases editingData.lookup h.val.field <;> rfl
  · intro h hh hcustom
    have hany : (tableHeaders.any fun x => x.val.field == h.val.field) = true :=
      List.any_eq_true.mpr ⟨h, hh, by simp⟩
    have hmem : h.val.field ∉
        (tableHeaders.filter fun h => startsWithCustom h.val.field).map fun h => h.val.field := by
      intro hmem
      obtain ⟨x, hx, hfield⟩ := List.mem_map.mp hmem
      have := (List.mem_filter.mp hx).2
      rw [hfield, hcustom] at this
      cases this
    rw [updateData_eq_filter,
      lookup_filter_key (fun key => tableHeaders.any fun h => h.val.field == key), lookup_fill]
    simp only [hany, if_true, hmem, if_false]
    cases editingData.lookup h.val.field <;> rfl

/-! ## Update and cleanup routes -/

/-- C29 (refuted by evaluation): after `tomorrowAtTen` (15 January 2030, 10:00)
and `dayAfterAtTen` (16 January 2030, 10:00) are booked on an empty collection,
both accepted and without a double booking, the update `moveToFifteenth` of
the second appointment, which holds only `bookingDate`, is accepted with
status 200, and the collection then holds two pending appointments for
15 January 2030 at 10:00. -/
theorem C29_update_of_date_alone_double_books :
    hasDoubleBooking [] = false ∧
      (createAppointment sampleEnv [] tomorrowAtTen).2.status = 201 ∧
      (createAppointment secondEnv (createAppointment sampleEnv [] tomorrowAtTen).1
        dayAfterAtTen).2.status = 201 ∧
      hasDoubleBooking twoBookings = false ∧
      (updateAppointment sampleUpdateEnv twoBookings "65a000000000000000000003"
        moveToFifteenth).2.status = 200 ∧
      (updateAppointment sampleUpdateEnv twoBookings "65a000000000000000000003"
          moveToFifteenth).1.map (fun a => (a._id, a.bookingDate, a.bookingTime, a.status))
        = [("65a000000000000000000002", 1894665600000, "10:00", Status.Pending),
           ("65a000000000000000000003", 1894665600000, "10:00", Status.Pending)] ∧
      hasDoubleBooking (updateAppointment sampleUpdateEnv twoBookings
        "65a000000000000000000003" moveToFifteenth).1 = true := by
  decide


/-- C28 (as stated, refuted): for the listed names `custom_1` and `custom_` the
second cleaned name is empty, the update is rejected as a whole, the route
answers 500, and the record keeps its value under the key `1`. -/
theorem C28_empty_cleaned_name_blocks_cleanup :
    cleanupColumns [withCustomValues] (some ["custom_1", "custom_"])
        = some ([withCustomValues],
            ⟨500, ResponseBody.message "Failed to cleanup column data"⟩) ∧
      ["custom_1", "custom_"].map stripCustomPrefix = ["1", ""] ∧
      withCustomValues.customFields.lookup "1" = some (JsValue.str "blue") := by
  decide

/-- C28 (amended): when every listed name, after one leading `custom_` is
stripped, is non-empty and has no `.` and no `$`, the cleanup is answered with
200 and every stored appointment keeps all its fields but `customFields`, of
which the cleaned names are removed and every other key keeps its value; a
request without a `deletedFields` array is answered with 400 and changes no
record. -/
theorem C28_cleanup_removes_listed_keys (store : List Appointment) (deletedFields : List String)
    (hnames : ∀ field ∈ deletedFields,
      stripCustomPrefix field ≠ "" ∧ isPlainKey (stripCustomPrefix field) = true) :
    (∃ store', cleanupColumns store (some deletedFields)
          = some (store', ⟨200, ResponseBody.message "Column data cleanup completed successfully"⟩) ∧
        store'.length = store.length ∧
        ∀ (i : Nat) (a : Appointment), store[i]? = some a →
          ∃ a', store'[i]? = some a' ∧
            { a' with customFields := a.customFields } = a ∧
            ∀ key, a'.customFields.lookup key
              = if key ∈ deletedFields.map stripCustomPrefix then none
                else a.customFields.lookup key) ∧
      cleanupColumns store none
        = some (store, ⟨400, ResponseBody.message "deletedFields array is required"⟩) := by
  refine ⟨?_, rfl⟩
  have hempty : (deletedFields.map stripCustomPrefix).any (fun cleanField => cleanField == "")
      = false := by
    rw [List.any_eq_false]
    intro x hx
    obtain ⟨field, hfield, rfl⟩ := List.mem_map.mp hx
    simpa using (hnames field hfield).1
  have hplain : (deletedFields.map stripCustomPrefix).all isPlainKey = true := by
    rw [List.all_eq_true]
    intro x hx
    obtain ⟨field, hfield, rfl⟩ := List.mem_map.mp hx
    exact (hnames field hfield).2
  refine ⟨store.map (fun a =>
      { a with
        customFields := a.customFields.filter
          (fun p => !(deletedFields.map stripCustomPrefix).contains p.1) }), ?_, ?_, ?_⟩
  · simp only [cleanupColumns, hempty, hplain, Bool.false_eq_true, if_false, if_true]
  · simp
  · intro i a ha
    refine ⟨{ a with
        customFields := a.customFields.filter
          (fun p => !(deletedFields.map stripCustomPrefix).contains p.1) }, ?_, ?_, ?_⟩
    · rw [List.getElem?_map, ha]
      rfl
    · rfl
    · intro key
      rw [lookup_filter_key (fun k => !(deletedFields.map stripCustomPrefix).contains k)]
      by_cases hkey : key ∈ deletedFields.map stripCustomPrefix
      · simp [hkey]
      · simp [hkey]

/-- C28 (amended) on one record with the custom values `1` and `2`: the
cleanup of `custom_1` removes the first and keeps the second. -/
theorem C28_cleanup_removes_listed_keys_witness :
    (∀ field ∈ ["custom_1"],
      stripCustomPrefix field ≠ "" ∧ isPlainKey (stripCustomPrefix field) = true) ∧
    ∃ store', cleanupColumns [withCustomValues] (some ["custom_1"])
          = some (store', ⟨200, ResponseBody.message "Column data cleanup completed successfully"⟩) ∧
        store'.length = [withCustomValues].length ∧
        ∀ (i : Nat) (a : Appointment), [withCustomValues][i]? = some a →
          ∃ a', store'[i]? = some a' ∧
            { a' with customFields := a.customFields } = a ∧
            ∀ key, a'.customFields.lookup key
              = if key ∈ ["custom_1"].map stripCustomPrefix then none
                else a.customFields.lookup key :=
  ⟨by decide, (C28_cleanup_removes_listed_keys [withCustomValues] ["custom_1"] (by decide)).1⟩


/-! ## Custom values through update and refresh -/

theorem custom_append_strip (f : String) (h : startsWithCustom f = true) :
    "custom_" ++ stripCustomPrefix f = f := by
  unfold startsWithCustom at h
  obtain ⟨t, ht⟩ := List.isPrefixOf_iff_prefix.mp h
  apply String.ext
  have hs : stripCustomPrefix f = String.mk t := by
    unfold stripCustomPrefix startsWithCustom
    rw [if_pos h, ← ht, List.drop_left]
  rw [hs, String.data_append]
  exact ht

theorem custom_append_inj {a b : String} (h : "custom_" ++ a = "custom_" ++ b) : a = b := by
  have := congrArg String.data h
  rw [String.data_append, String.data_append] at this
  exact String.ext (List.append_cancel_left this)

theorem stripCustomPrefix_inj {f g : String} (hf : startsWithCustom f = true)
    (hg : startsWithCustom g = true) (h : stripCustomPrefix f = stripCustomPrefix g) : f = g := by
  rw [← custom_append_strip f hf, ← custom_append_strip g hg, h]

/-- Setting, for each listed key, the value that `source` holds for it under a
key derived by an injective renaming: the value read back under the renamed
key is the one `source` holds, and otherwise the one `target` held. -/
theorem lookup_foldl_objSet (rename : String → String)
    (hinj : ∀ a b, rename a = rename b → a = b) (source : List (String × JsValue))
    (keys : List String) (target : List (String × JsValue)) (k : String) :
    (keys.foldl
      (fun acc key =>
        match source.lookup key with
        | some value => objSet acc (rename key) value
        | none => acc)
      target).lookup (rename k)
      = if k ∈ keys then (source.lookup k).or (target.lookup (rename k))
        else target.lookup (rename k) := by
  induction keys generalizing target with
  | nil => simp
  | cons key keys ih =>
    rw [List.foldl_cons, ih]
    by_cases hk : k = key
    · subst hk
      cases hs : source.lookup k with
      | none => simp
      | some value => simp [lookup_objSet]
    · have hne : rename k ≠ rename key := fun h => hk (hinj _ _ h)
      have hstep : (match source.lookup key with
          | some value => objSet target (rename key) value
          | none => target).lookup (rename k) = target.lookup (rename k) := by
        cases source.lookup key with
        | none => rfl
        | some value => simp only [lookup_objSet, hne, if_false]
      simp only [hstep, List.mem_cons, hk, false_or]

theorem lookup_eq_none_of_not_mem (obj : List (String × JsValue)) (k : String)
    (h : k ∉ obj.map Prod.fst) : obj.lookup k = none := by
  induction obj with
  | nil => rfl
  | cons p rest ih =>
    obtain ⟨k', v'⟩ := p
    simp only [List.map_cons, List.mem_cons, not_or] at h
    rw [lookup_cons_ne h.1, ih h.2]

theorem mem_keys_of_lookup {obj : List (String × JsValue)} {k : String} {v : JsValue}
    (h : obj.lookup k = some v) : k ∈ obj.map Prod.fst := by
  by_contra hmem
  rw [lookup_eq_none_of_not_mem obj k hmem] at h
  cases h

theorem lookup_objAssign (target source : List (String × JsValue)) (k : String) :
    (objAssign target source).lookup k = (source.lookup k).or (target.lookup k) := by
  have h := lookup_foldl_objSet id (fun _ _ h => h) source (source.map Prod.fst) target k
  simp only [id] at h
  unfold objAssign
  rw [h]
  by_cases hk : k ∈ source.map Prod.fst
  · rw [if_pos hk]
  · rw [if_neg hk, lookup_eq_none_of_not_mem source k hk]
    rfl

theorem lookup_flatten_others (customFields remaining : List (String × JsValue)) (k : String) :
    ((customFields.map Prod.fst).foldl
      (fun appointmentObj key =>
        match customFields.lookup key with
        | some value => objSet appointmentObj ("custom_" ++ key) value
        | none => appointmentObj)
      remaining).lookup ("custom_" ++ k)
      = (customFields.lookup k).or (remaining.lookup ("custom_" ++ k)) := by
  rw [lookup_foldl_objSet (fun key => "custom_" ++ key) (fun _ _ h => custom_append_inj h)]
  by_cases hk : k ∈ customFields.map Prod.fst
  · rw [if_pos hk]
  · rw [if_neg hk, lookup_eq_none_of_not_mem customFields k hk]
    rfl


theorem lookup_newCustomFields_step (rest : List (String × JsValue)) (keys : List String)
    (acc : List (String × JsValue)) (k : String)
    (hkeys : ∀ g ∈ keys, stripCustomPrefix g ≠ k) :
    (keys.foldl
      (fun acc key =>
        let cleanKey := stripCustomPrefix key
        match rest.lookup key with
        | some value => if cleanKey == "__proto__" then acc else objSet acc cleanKey value
        | none => acc)
      acc).lookup k = acc.lookup k := by
  induction keys generalizing acc with
  | nil => rfl
  | cons key keys ih =>
    rw [List.foldl_cons, ih _ (fun g hg => hkeys g (List.mem_cons_of_mem _ hg))]
    have hne : k ≠ stripCustomPrefix key := fun h => hkeys key (List.mem_cons_self _ _) h.symm
    simp only
    cases rest.lookup key with
    | none => rfl
    | some value =>
      simp only
      split
      · rfl
      · simp only [lookup_objSet, hne, if_false]

theorem lookup_newCustomFields_written (rest : List (String × JsValue)) (f : String)
    (v : JsValue) (hcustom : startsWithCustom f = true)
    (hproto : stripCustomPrefix f ≠ "__proto__") (hwrite : rest.lookup f = some v)
    (keys : List String) (hkeys : ∀ g ∈ keys, startsWithCustom g = true)
    (acc : List (String × JsValue)) :
    (keys.foldl
      (fun acc key =>
        let cleanKey := stripCustomPrefix key
        match rest.lookup key with
        | some value => if cleanKey == "__proto__" then acc else objSet acc cleanKey value
        | none => acc)
      acc).lookup (stripCustomPrefix f)
      = if f ∈ keys then some v else acc.lookup (stripCustomPrefix f) := by
  induction keys generalizing acc with
  | nil => rfl
  | cons key keys ih =>
    rw [List.foldl_cons, ih (fun g hg => hkeys g (List.mem_cons_of_mem _ hg))]
    by_cases hf : f = key
    · subst hf
      have hb : (stripCustomPrefix f == "__proto__") = false := beq_eq_false_iff_ne.mpr hproto
      simp only [hwrite, hb, Bool.false_eq_true, if_false, lookup_objSet, if_true,
        List.mem_cons, true_or, ite_self]
    · have hne : stripCustomPrefix f ≠ stripCustomPrefix key := fun h =>
        hf (stripCustomPrefix_inj hcustom (hkeys key (List.mem_cons_self _ _)) h)
      have hstep : (match rest.lookup key with
          | some value =>
            if stripCustomPrefix key == "__proto__" then acc
            else objSet acc (stripCustomPrefix key) value
          | none => acc).lookup (stripCustomPrefix f) = acc.lookup (stripCustomPrefix f) := by
        cases rest.lookup key with
        | none => rfl
        | some value =>
          simp only
          split
          · rfl
          · simp only [lookup_objSet, hne, if_false]
      simp only [hstep, List.mem_cons, hf, false_or]

/-- The merge of the update route: a written `custom_` field other than
`custom___proto__` is stored under its cleaned name, and a key that is the
cleaned name of no written `custom_` field keeps its value. -/
theorem lookup_mergeCustomFields (customFields rest : List (String × JsValue)) :
    (∀ (f : String) (v : JsValue), startsWithCustom f = true → f ≠ "custom___proto__" →
        rest.lookup f = some v →
        (mergeCustomFields customFields rest).lookup (stripCustomPrefix f) = some v) ∧
      (∀ key, (∀ g ∈ customFieldKeys rest, stripCustomPrefix g ≠ key) →
        (mergeCustomFields customFields rest).lookup key = customFields.lookup key) := by
  refine ⟨?_, ?_⟩
  · intro f v hcustom hproto hwrite
    have hmem : f ∈ customFieldKeys rest :=
      List.mem_filter.mpr ⟨mem_keys_of_lookup hwrite, hcustom⟩
    have hclean : stripCustomPrefix f ≠ "__proto__" := by
      intro h
      apply hproto
      rw [← custom_append_strip f hcustom, h]
      rfl
    have hne : (customFieldKeys rest).isEmpty = false := by
      cases hk : customFieldKeys rest with
      | nil => rw [hk] at hmem; cases hmem
      | cons _ _ => rfl
    have hnew : (newCustomFields rest).lookup (stripCustomPrefix f) = some v := by
      unfold newCustomFields
      rw [lookup_newCustomFields_written rest f v hcustom hclean hwrite (customFieldKeys rest)
        (fun g hg => (List.mem_filter.mp hg).2), if_pos hmem]
    unfold mergeCustomFields
    rw [hne]
    simp only [Bool.false_eq_true, if_false]
    rw [lookup_objAssign, hnew]
    rfl
  · intro key hkey
    unfold mergeCustomFields
    split
    · rfl
    · have hnew : (newCustomFields rest).lookup key = none := by
        unfold newCustomFields
        rw [lookup_newCustomFields_step rest (customFieldKeys rest) [] key hkey]
        rfl
      rw [lookup_objAssign, hnew]
      rfl

theorem find?_map_replace (store : List Appointment) (id : String)
    (before updated : Appointment) (hfind : store.find? (fun a => a._id == id) = some before)
    (hid : updated._id = id) :
    (store.map fun a => if a._id == id then updated else a).find? (fun a => a._id == id)
      = some updated := by
  induction store with
  | nil => cases hfind
  | cons a rest ih =>
    by_cases ha : a._id = id
    · simp [List.find?, ha, hid]
    · have hb : (a._id == id) = false := beq_eq_false_iff_ne.mpr ha
      rw [List.find?_cons, hb] at hfind
      simp only [List.map_cons, hb, Bool.false_eq_true, if_false, List.find?_cons]
      exact ih hfind

theorem prop_flatten_custom (inherited : String → Option JsValue) (toISOString : Int → String)
    (remaining : List (String × JsValue)) (a : Appointment) (key : String) :
    (flattenAppointment toISOString remaining a).prop inherited ("custom_" ++ key)
      = ((a.customFields.lookup key).or (remaining.lookup ("custom_" ++ key))).or
          (inherited ("custom_" ++ key)) := by
  have hnot : ∀ name : String, startsWithCustom name = false →
      (("custom_" ++ key) == name) = false := by
    intro name hname
    apply beq_eq_false_iff_ne.mpr
    intro h
    rw [← h] at hname
    have : startsWithCustom ("custom_" ++ key) = true := by
      unfold startsWithCustom
      rw [List.isPrefixOf_iff_prefix]
      exact ⟨key.toList, by simp [String.toList, String.data_append]⟩
    rw [this] at hname
    cases hname
  unfold AppointmentRow.prop AppointmentRow.own
  rw [hnot "_id" (by decide), hnot "name" (by decide), hnot "contactNumber" (by decide),
    hnot "bookingDate" (by decide), hnot "bookingTime" (by decide), hnot "status" (by decide),
    hnot "notes" (by decide)]
  simp only [Bool.false_eq_true, if_false]
  rw [← lookup_flatten_others a.customFields remaining key]
  rfl

/-- An accepted update finds the document, and puts in its place the document
with the same `_id` whose `customFields` are the merge. -/
theorem updateAppointment_accepted (env : UpdateEnv) (store : List Appointment) (id : String)
    (body : UpdateBody) (hok : (updateAppointment env store id body).2.status = 200) :
    ∃ before after,
      store.find? (fun a => a._id == id) = some before ∧
      (updateAppointment env store id body).1.find? (fun a => a._id == id) = some after ∧
      after.customFields = mergeCustomFields before.customFields body.rest := by
  unfold updateAppointment at hok ⊢
  split at hok
  · cases hok
  · rename_i hiso
    split at hok
    · cases hok
    · rename_i appointment hfind
      split at hok
      · rename_i response hconf
        exfalso
        unfold slotConflict at hconf
        split at hconf
        · split at hconf
          · split at hconf
            · cases hconf; cases hok
            · split at hconf
              · cases hconf; cases hok
              · cases hconf
          · cases hconf
        · cases hconf
      · rename_i hconf
        split at hok
        · cases hok
        · rename_i updated hassign
          split at hok
          · cases hok
          · rename_i hdate
            have hupd : updated._id = appointment._id ∧
                updated.customFields = mergeCustomFields appointment.customFields body.rest := by
              unfold assignFields at hassign
              simp only at hassign
              split at hassign
              · split at hassign
                · cases hassign
                · cases hassign; exact ⟨rfl, rfl⟩
              · cases hassign
            have hid : appointment._id = id := by
              simpa using List.find?_some hfind
            refine ⟨appointment, updated, hfind, ?_, hupd.2⟩
            rw [if_neg hiso]
            rw [if_neg hdate]
            exact find?_map_replace store id appointment updated hfind (hupd.1.trans hid)


/-- C30 (as stated, refuted): the update `writeCustomProto`, which writes the
value `south` under the column field `custom___proto__`, is accepted with
status 200, the stored `customFields` are as before and hold nothing under
`__proto__`, and the flattened record has no property `custom___proto__`. -/
theorem C30_proto_key_is_not_stored :
    startsWithCustom "custom___proto__" = true ∧
      stripCustomPrefix "custom___proto__" = "__proto__" ∧
      (updateAppointment sampleUpdateEnv [withCustomValues] "65a000000000000000000004"
        writeCustomProto).2.status = 200 ∧
      (updateAppointment sampleUpdateEnv [withCustomValues] "65a000000000000000000004"
          writeCustomProto).1.map (fun a => a.customFields)
        = [[("1", JsValue.str "blue"), ("2", JsValue.str "north")]] ∧
      (updateAppointment sampleUpdateEnv [withCustomValues] "65a000000000000000000004"
          writeCustomProto).1.map
            (fun a => (flattenAppointment sampleUpdateEnv.isoDate [("__v", JsValue.num "0")] a).prop
              sampleBuiltins.inherited "custom___proto__")
        = [none] := by
  decide

/-- C30 (amended): for every column field `f` that starts with `custom_` and is
not `custom___proto__`, when an update that holds the value `v` under `f` is
accepted, the stored document holds `v` in `customFields` under `f` without the
leading `custom_`, the flattened record holds `v` under `f`, and every key of
`customFields` that is the cleaned name of no `custom_` field of the update
keeps its value, in the document and in the flattened record. -/
theorem C30_custom_value_round_trip (env : UpdateEnv) (store : List Appointment) (id : String)
    (body : UpdateBody) (f : String) (v : JsValue) (toISOString : Int → String)
    (remaining : List (String × JsValue)) (inherited : String → Option JsValue)
    (hcustom : startsWithCustom f = true) (hproto : f ≠ "custom___proto__")
    (hwrite : body.rest.lookup f = some v)
    (hok : (updateAppointment env store id body).2.status = 200) :
    ∃ before after,
      store.find? (fun a => a._id == id) = some before ∧
      (updateAppointment env store id body).1.find? (fun a => a._id == id) = some after ∧
      after.customFields.lookup (stripCustomPrefix f) = some v ∧
      (flattenAppointment toISOString remaining after).prop inherited f = some v ∧
      ∀ key, (∀ g ∈ customFieldKeys body.rest, stripCustomPrefix g ≠ key) →
        after.customFields.lookup key = before.customFields.lookup key ∧
        (flattenAppointment toISOString remaining after).prop inherited ("custom_" ++ key)
          = (flattenAppointment toISOString remaining before).prop inherited
              ("custom_" ++ key) := by
  obtain ⟨before, after, hbefore, hafter, hfields⟩ := updateAppointment_accepted env store id body hok
  obtain ⟨hwritten, hkept⟩ := lookup_mergeCustomFields before.customFields body.rest
  have hstored : after.customFields.lookup (stripCustomPrefix f) = some v := by
    rw [hfields]
    exact hwritten f v hcustom hproto hwrite
  refine ⟨before, after, hbefore, hafter, hstored, ?_, ?_⟩
  · have h := prop_flatten_custom inherited toISOString remaining after (stripCustomPrefix f)
    rw [custom_append_strip f hcustom, hstored] at h
    exact h
  · intro key hkey
    have hsame : after.customFields.lookup key = before.customFields.lookup key := by
      rw [hfields]
      exact hkept key hkey
    refine ⟨hsame, ?_⟩
    rw [prop_flatten_custom, prop_flatten_custom, hsame]

/-- C30 (amended) on the record `withCustomValues`: the accepted update
`writeCustomTwo` writes `south` under `custom_2`. -/
theorem C30_custom_value_round_trip_witness :
    startsWithCustom "custom_2" = true ∧
    writeCustomTwo.rest.lookup "custom_2" = some (JsValue.str "south") ∧
    (updateAppointment sampleUpdateEnv [withCustomValues] "65a000000000000000000004"
      writeCustomTwo).2.status = 200 ∧
    ∃ before after,
      [withCustomValues].find? (fun a => a._id == "65a000000000000000000004") = some before ∧
      (updateAppointment sampleUpdateEnv [withCustomValues] "65a000000000000000000004"
        writeCustomTwo).1.find? (fun a => a._id == "65a000000000000000000004") = some after ∧
      after.customFields.lookup (stripCustomPrefix "custom_2") = some (JsValue.str "south") ∧
      (flattenAppointment sampleUpdateEnv.isoDate [("__v", JsValue.num "0")] after).prop
          sampleBuiltins.inherited "custom_2"
        = some (JsValue.str "south") ∧
      ∀ key, (∀ g ∈ customFieldKeys writeCustomTwo.rest, stripCustomPrefix g ≠ key) →
        after.customFields.lookup key = before.customFields.lookup key ∧
        (flattenAppointment sampleUpdateEnv.isoDate [("__v", JsValue.num "0")] after).prop
            sampleBuiltins.inherited ("custom_" ++ key)
          = (flattenAppointment sampleUpdateEnv.isoDate [("__v", JsValue.num "0")] before).prop
            sampleBuiltins.inherited ("custom_" ++ key) :=
  ⟨by decide, by decide, by decide,
    C30_custom_value_round_trip sampleUpdateEnv [withCustomValues] "65a000000000000000000004"
      writeCustomTwo "custom_2" (JsValue.str "south") sampleUpdateEnv.isoDate
      [("__v", JsValue.num "0")] sampleBuiltins.inherited
      (by decide) (by decide) (by decide) (by decide)⟩

/-! ## Renaming through the rendered table -/

theorem startHeaderEdit_frame (s : State) (index : Nat) :
    (startHeaderEdit s index).tableHeaders = s.tableHeaders ∧
      (startHeaderEdit s index).columnsToDelete = s.columnsToDelete ∧
      rendersSortableHeader (startHeaderEdit s index) index = rendersSortableHeader s index := by
  unfold startHeaderEdit
  split
  · exact ⟨rfl, rfl, rfl⟩
  · exact ⟨rfl, rfl, rfl⟩

/-- The three ways `renameHeader` can end: nothing happened, only the input
was opened, or `handleHeaderEdit` ran on the state with the input open. -/
theorem renameHeader_cases (s : State) (index : Nat) (newLabel : String) :
    (renameHeader s index newLabel).tableHeaders = s.tableHeaders ∨
      renameHeader s index newLabel
        = handleHeaderEdit (startHeaderEdit s index) index newLabel := by
  unfold renameHeader submitHeaderInput
  split
  · exact Or.inr rfl
  · exact Or.inl (startHeaderEdit_frame s index).1

theorem insertIndexFor_le (headers : List HeaderObj) :
    insertIndexFor headers ≤ (headers.length : Int) := by
  unfold insertIndexFor
  simp only
  split
  · cases h : headers.findIdx? (fun h => h.val.field == "status") with
    | none =>
      rw [findIndex_of_findIdx?_none h]
      omega
    | some i =>
      rw [findIndex_of_findIdx?_some h]
      have hi : i < headers.length := (List.findIdx?_eq_some_iff_findIdx_eq.mp h).1
      omega
  · omega

/-- C26: through the rendered table a rename reaches only editable columns.
For a column with the field `status` or `actions` no control opens the rename
input, no input is shown, and `renameHeader` changes nothing.  For every
column with `editable` false no control opens the input, and `renameHeader`
changes nothing unless the input is already open at that index.  On an
editable column whose header offers the control or shows the input,
`renameHeader` sets the label, marks the draft unsaved and closes the input.
In every case the other columns of the draft, and the id, field and
`editable` flag of the column itself, stay as they are.  `addNewTableHeader`,
the one other place that opens the input, opens it on the new column, which is
editable.  (No header object is taken to occur twice in the draft, as in
every reachable state.) -/
theorem C26_rename_reaches_only_editable_columns (s : State) (index : Nat) (newLabel : String)
    (header : HeaderObj) (hget : s.tableHeaders[index]? = some header)
    (hrefs : (s.tableHeaders.map fun o => o.ref).Nodup) :
    ((header.val.field = "status" ∨ header.val.field = "actions") →
        offersHeaderEdit s index = false ∧ showsHeaderInput s index = false ∧
        renameHeader s index newLabel = s) ∧
      (header.val.editable = false →
        offersHeaderEdit s index = false ∧ startHeaderEdit s index = s ∧
        (s.editingHeaderIndex ≠ some (index : Int) → renameHeader s index newLabel = s)) ∧
      (header.val.editable = true →
        (offersHeaderEdit s index = true ∨ showsHeaderInput s index = true) →
        (renameHeader s index newLabel).tableHeaders[index]?
            = some { header with val := { header.val with label := newLabel } } ∧
          (renameHeader s index newLabel).hasUnsavedChanges = true ∧
          (renameHeader s index newLabel).editingHeaderIndex = none) ∧
      (∀ j, j ≠ index →
        (renameHeader s index newLabel).tableHeaders[j]? = s.tableHeaders[j]?) ∧
      ((renameHeader s index newLabel).tableHeaders[index]?.map
          (fun h => (h.ref, h.val.id, h.val.field, h.val.editable))
        = some (header.ref, header.val.id, header.val.field, header.val.editable)) ∧
      (renameHeader s index newLabel).tableHeaders.length = s.tableHeaders.length ∧
      (∀ (now i : Nat), (addNewTableHeader s now).editingHeaderIndex = some (i : Int) →
        (addNewTableHeader s now).tableHeaders[i]?.map (fun h => h.val.editable) = some true) := by
  have hstart := startHeaderEdit_frame s index
  have hget' : (startHeaderEdit s index).tableHeaders[index]? = some header := by
    rw [hstart.1]; exact hget
  have hrefs' : ((startHeaderEdit s index).tableHeaders.map fun o => o.ref).Nodup := by
    rw [hstart.1]; exact hrefs
  have hedit := handleHeaderEdit_getElem? (startHeaderEdit s index) index newLabel header
    hget' hrefs'
  refine ⟨?_, ?_, ?_, ?_, ?_, ?_, ?_⟩
  · intro hfield
    have hrender : rendersSortableHeader s index = false := by
      unfold rendersSortableHeader
      rw [hget]
      rcases hfield with h | h <;> simp [h]
    have hoffer : offersHeaderEdit s index = false := by
      unfold offersHeaderEdit
      rw [hget]
      simp [hrender]
    have hshow : showsHeaderInput s index = false := by
      unfold showsHeaderInput
      simp [hrender]
    refine ⟨hoffer, hshow, ?_⟩
    unfold renameHeader startHeaderEdit submitHeaderInput
    simp [hoffer, hshow]
  · intro heditable
    have hoffer : offersHeaderEdit s index = false := by
      unfold offersHeaderEdit
      rw [hget]
      simp [heditable]
    have hsame : startHeaderEdit s index = s := by
      unfold startHeaderEdit
      simp [hoffer]
    refine ⟨hoffer, hsame, ?_⟩
    intro hclosed
    have hshow : showsHeaderInput s index = false := by
      unfold showsHeaderInput
      have : (s.editingHeaderIndex == some (index : Int)) = false :=
        beq_eq_false_iff_ne.mpr hclosed
      simp [this]
    unfold renameHeader submitHeaderInput
    rw [hsame]
    simp [hshow]
  · intro _ hopen
    have hshow : showsHeaderInput (startHeaderEdit s index) index = true := by
      rcases hopen with hoffer | hshow
      · have hrender : rendersSortableHeader s index = true := by
          unfold offersHeaderEdit at hoffer
          rw [hget] at hoffer
          simp only [Bool.and_eq_true] at hoffer
          exact hoffer.1.1.1
        unfold showsHeaderInput
        rw [hstart.2.2, hrender]
        unfold startHeaderEdit
        simp [hoffer]
      · have hoffer : offersHeaderEdit s index = false := by
          unfold showsHeaderInput at hshow
          simp only [Bool.and_eq_true] at hshow
          unfold offersHeaderEdit
          rw [hget]
          simp [hshow.2]
        have hsame : startHeaderEdit s index = s := by
          unfold startHeaderEdit
          simp [hoffer]
        rw [hsame]
        exact hshow
    have hrename : renameHeader s index newLabel
        = handleHeaderEdit (startHeaderEdit s index) index newLabel := by
      unfold renameHeader submitHeaderInput
      simp [hshow]
    rw [hrename]
    refine ⟨?_, ?_, ?_⟩
    · rw [hedit]; simp
    · unfold handleHeaderEdit
      simp [hget']
    · unfold handleHeaderEdit
      simp [hget']
  · intro j hj
    rcases renameHeader_cases s index newLabel with h | h
    · rw [h]
    · rw [h, hedit, if_neg hj, hstart.1]
  · rcases renameHeader_cases s index newLabel with h | h
    · rw [h, hget]; rfl
    · rw [h, hedit]; simp
  · rcases renameHeader_cases s index newLabel with h | h
    · rw [h]
    · rw [h, (handleHeaderEdit_frame _ _ _).1, hstart.1]
  · intro now i hopen
    have hidx : insertIndexFor s.tableHeaders = (i : Int) := by
      have : (addNewTableHeader s now).editingHeaderIndex
          = some (insertIndexFor s.tableHeaders) := rfl
      rw [this] at hopen
      exact Option.some.inj hopen
    have hle : i ≤ s.tableHeaders.length := by
      have := insertIndexFor_le s.tableHeaders
      omega
    have hnew : (addNewTableHeader s now).tableHeaders[i]?
        = some ⟨s.nextRef, newHeaderFor s.tableHeaders now⟩ := by
      simp only [addNewTableHeader, spliceInsert, hidx, spliceStart_natCast hle]
      exact insertAt_getElem? _ _ hle _
    rw [hnew]
    rfl

/-- C26 on the default columns in edit mode: the rename of the contact column
at index 1 sets its label, and the rename of the status column at index 3
changes nothing. -/
theorem C26_rename_reaches_only_editable_columns_witness :
    (((toggleEditTableMode (loadedState defaultHeaders)).tableHeaders.map fun o => o.ref).Nodup) ∧
      offersHeaderEdit (toggleEditTableMode (loadedState defaultHeaders)) 1 = true ∧
      (renameHeader (toggleEditTableMode (loadedState defaultHeaders)) 1 "Phone").tableHeaders[1]?
        = some ⟨6,
            { id := "contact", label := "Phone", field := "contactNumber", editable := true }⟩ ∧
      renameHeader (toggleEditTableMode (loadedState defaultHeaders)) 3 "State"
        = toggleEditTableMode (loadedState defaultHeaders) :=
  ⟨by decide, by decide,
    ((C26_rename_reaches_only_editable_columns (toggleEditTableMode (loadedState defaultHeaders))
      1 "Phone"
      ⟨6, { id := "contact", label := "Contact Number", field := "contactNumber"
            editable := true }⟩ (by decide) (by decide)).2.2.1 rfl (Or.inl (by decide))).1,
    ((C26_rename_reaches_only_editable_columns (toggleEditTableMode (loadedState defaultHeaders))
      3 "State"
      ⟨8, { id := "status", label := "Status", field := "status"
            editable := false }⟩ (by decide) (by decide)).1 (Or.inl rfl)).2.2⟩

end AdminTable
